import Mathlib

/-!
# Verification of `FunctionMaxima` (src/function_maxima.h)

Shallow embedding of the C++ template `FunctionMaxima<A, V>`: a sparse partial
function from a totally ordered argument type to a totally ordered value type
that incrementally tracks its set of local maxima.

The two `std::set` members are modelled as strictly sorted lists:
* `function_points` is ordered by `FunctionPointsComparator` (argument first,
  value as tie break, the source's lines 128-149);
* `local_maxima` is ordered by `LocalMaximaComparator` (value descending,
  argument ascending, lines 152-164).

Iterators are modelled positionally: `itPred`/`itSucc` give the element just
before/after a member of the list (`--it` / `++it`), and `lowerBoundFP` /
`lbPred` model `std::set::lower_bound` and its predecessor on a sorted list.

A second, instrumented model (`M`, further below) mirrors the same code while
counting every comparison / copy of the caller-supplied types (any one of which
may throw) and logging an event trace; it is used for the rollback-atomicity
and phase-ordering claims.
-/

/-- An `(argument, value)` pair, the source's nested `PointType` (lines
101-125).  The `shared_ptr` indirection only affects copying cost, not
observable values, so a point is just its two fields. -/
structure PointType (α β : Type*) where
  arg : α
  value : β
deriving DecidableEq, Repr

variable {α β : Type*} [LinearOrder α] [LinearOrder β]

/-- `FunctionPointsComparator::operator()(fk, lk)` (lines 141-148):
`if (lk.arg < fk.arg || fk.arg < lk.arg) return fk.arg < lk.arg;
 return fk.value < lk.value;`. -/
def fpLt (p q : PointType α β) : Prop :=
  if q.arg < p.arg ∨ p.arg < q.arg then p.arg < q.arg else p.value < q.value

instance (p q : PointType α β) : Decidable (fpLt p q) := by
  unfold fpLt; infer_instance

/-- `LocalMaximaComparator::operator()(fk, lk)` (lines 156-163):
`if (lk.value < fk.value || fk.value < lk.value) return lk.value < fk.value;
 return fk.arg < lk.arg;`. -/
def mxLt (p q : PointType α β) : Prop :=
  if q.value < p.value ∨ p.value < q.value then q.value < p.value else p.arg < q.arg

instance (p q : PointType α β) : Decidable (mxLt p q) := by
  unfold mxLt; infer_instance

section SortedKit

variable {P : Type*} (lt : P → P → Prop) [DecidableRel lt]

/-- `std::set::insert` on the sorted-list model: walk to the first position
where the new element is no longer greater; if an equivalent element is found
the set is left unchanged (no insertion). -/
def sInsert (x : P) : List P → List P
  | [] => [x]
  | y :: l =>
    if lt x y then x :: y :: l
    else if lt y x then y :: sInsert x l
    else y :: l

/-- `std::set::erase(iterator)` on the sorted-list model: remove the (unique)
element equivalent to the stored key.  Erasing by a valid iterator performs no
comparisons and cannot fail. -/
def sErase (x : P) : List P → List P
  | [] => []
  | y :: l => if ¬ lt x y ∧ ¬ lt y x then l else y :: sErase x l

/-- `std::set::find` with a homogeneous key: the element equivalent to `x`,
`none` standing for the end iterator. -/
def sFind (x : P) (l : List P) : Option P :=
  l.find? fun y => !decide (lt x y) && !decide (lt y x)

end SortedKit

/-- `function_points.find(a)` through the transparent comparator overloads
(lines 132-139): the element whose argument is equivalent to the key `a`;
`none` is the end iterator. -/
def findA (a : α) (l : List (PointType α β)) : Option (PointType α β) :=
  l.find? fun q => !decide (q.arg < a) && !decide (a < q.arg)

/-- `--it` for an iterator `it` positioned at the member `x` of the sorted
list: the element immediately before the first occurrence of `x` (`none` when
`it == begin()`, which the source tests before decrementing). -/
def itPred {P : Type*} [DecidableEq P] (l : List P) (x : P) : Option P :=
  (l.takeWhile fun y => !decide (y = x)).getLast?

/-- `++it` for an iterator positioned at the member `x` of the sorted list:
the element immediately after the first occurrence of `x` (`none` = end). -/
def itSucc {P : Type*} [DecidableEq P] (l : List P) (x : P) : Option P :=
  ((l.dropWhile fun y => !decide (y = x)).drop 1).head?

/-- `function_points.lower_bound(new_point)` on the sorted-list model: the
first element not `fpLt`-below `x` (`none` = end). -/
def lowerBoundFP (l : List (PointType α β)) (x : PointType α β) :
    Option (PointType α β) :=
  (l.dropWhile fun q => decide (fpLt q x)).head?

/-- The element just before the `lower_bound` position, i.e. the source's
`(aux != begin() ? --aux : end())` for `aux = lower_bound(new_point)`
(line 417). -/
def lbPred (l : List (PointType α β)) (x : PointType α β) :
    Option (PointType α β) :=
  (l.takeWhile fun q => decide (fpLt q x)).getLast?

/-- The whole structure: the two `std::set` members (lines 94-97), each as a
strictly sorted list. -/
structure FunctionMaxima (α β : Type*) where
  function_points : List (PointType α β)
  local_maxima : List (PointType α β)
deriving DecidableEq, Repr

namespace FunctionMaxima

/-- One component of the source's `tpl` tuple (lines 66-73): the iterator to a
point (`pt`, `none` = end), whether it was a local maximum before the update
(`wasMax`, `get<1>`), and whether it will be one after (`willMax`, `get<2>`).
The stored `mx_iterator` (`get<3>`) is represented by the point itself, since
erasing through it removes exactly the equivalent `local_maxima` element. -/
structure Info (α β : Type*) where
  pt : Option (PointType α β)
  wasMax : Bool
  willMax : Bool
deriving DecidableEq, Repr

variable {α β : Type*} [LinearOrder α] [LinearOrder β]

/-- Membership test `local_maxima.find(p) != mx_end()`. -/
def mxMem (mx : List (PointType α β)) (p : PointType α β) : Bool :=
  (sFind mxLt p mx).isSome

/-- One guarded `local_maxima.insert` of the mutation sequences: insert the
point held by the iterator when the flip condition holds (`if (...) insert`). -/
def condIns (o : Option (PointType α β)) (c : Bool)
    (l : List (PointType α β)) : List (PointType α β) :=
  match o, c with
  | some x, true => sInsert mxLt x l
  | _, _ => l

/-- One guarded `local_maxima.erase` of the mutation sequences: erase the
point held by the iterator when the flip condition holds (`if (...) erase`). -/
def condDel (o : Option (PointType α β)) (c : Bool)
    (l : List (PointType α β)) : List (PointType α β) :=
  match o, c with
  | some x, true => sErase mxLt x l
  | _, _ => l

/-- `get_info_for_set_value` (lines 400-440): locate the current point at `a`
(if any) and the two neighbors of `a`'s (present or future) position, then
classify each of the three as was-maximum / will-be-maximum.  Only lookups and
comparisons; the structure is not changed. -/
def get_info_for_set_value (s : FunctionMaxima α β) (a : α) (v : β) :
    Info α β × Info α β × Info α β :=
  let fp := s.function_points
  let pOpt := findA a fp
  let ln : Option (PointType α β) :=
    match pOpt with
    | some p => itPred fp p
    | none => if fp = [] then none else lbPred fp ⟨a, v⟩
  let rn : Option (PointType α β) :=
    match pOpt with
    | some p => itSucc fp p
    | none => if fp = [] then none else lowerBoundFP fp ⟨a, v⟩
  let wasP : Bool := match pOpt with
    | some p => mxMem s.local_maxima p
    | none => false
  let wasLn : Bool := match ln with
    | some L => mxMem s.local_maxima L
    | none => false
  let wasRn : Bool := match rn with
    | some R => mxMem s.local_maxima R
    | none => false
  let wilP : Bool :=
    (match ln with
      | none => true
      | some L => !decide (v < L.value)) &&
    (match rn with
      | none => true
      | some R => !decide (v < R.value))
  let wilLn : Bool := match ln with
    | none => false
    | some L =>
      (match itPred fp L with
        | none => true
        | some LL => !decide (L.value < LL.value)) &&
      !decide (L.value < v)
  let wilRn : Bool := match rn with
    | none => false
    | some R =>
      !decide (R.value < v) &&
      (match itSucc fp R with
        | none => true
        | some RR => !decide (R.value < RR.value))
  (⟨pOpt, wasP, wilP⟩, ⟨ln, wasLn, wilLn⟩, ⟨rn, wasRn, wilRn⟩)

/-- `check_whether_the_same` (lines 443-451): true when `a` is already mapped
to a value equivalent to `v` (neither `<` the other). -/
def check_whether_the_same (s : FunctionMaxima α β) (a : α) (v : β) : Bool :=
  match findA a s.function_points with
  | some p => !decide (v < p.value) && !decide (p.value < v)
  | none => false

/-- `set_value_aux` (lines 514-547), the mutation sequence of `set_value`, in
source order: insert the new point into `function_points`; insert into
`local_maxima` the new point (if it will be a maximum) and each neighbor that
flips to maximum; erase the old point from `function_points` and, if it was a
maximum, from `local_maxima`; erase each neighbor that flips to non-maximum. -/
def set_value_aux (s : FunctionMaxima α β)
    (pI lnI rnI : Info α β) (np : PointType α β) : FunctionMaxima α β :=
  let fp1 := sInsert fpLt np s.function_points
  let mx1 := if pI.willMax then sInsert mxLt np s.local_maxima else s.local_maxima
  let mx2 := condIns lnI.pt (!lnI.wasMax && lnI.willMax) mx1
  let mx3 := condIns rnI.pt (!rnI.wasMax && rnI.willMax) mx2
  let fp2 := match pI.pt with
    | some p => sErase fpLt p fp1
    | none => fp1
  let mx4 := condDel pI.pt pI.wasMax mx3
  let mx5 := condDel lnI.pt (lnI.wasMax && !lnI.willMax) mx4
  let mx6 := condDel rnI.pt (rnI.wasMax && !rnI.willMax) mx5
  ⟨fp2, mx6⟩

/-- `set_value` (lines 342-353): no-op when `a` already maps to an equivalent
value, otherwise classify and apply the mutations with the new point. -/
def set_value (s : FunctionMaxima α β) (a : α) (v : β) : FunctionMaxima α β :=
  if check_whether_the_same s a v then s
  else
    let info := get_info_for_set_value s a v
    set_value_aux s info.1 info.2.1 info.2.2 ⟨a, v⟩

/-- `get_info_for_erase` (lines 453-485): for the present point `p` at the
erased argument, record whether it was a maximum, find its two neighbors, and
classify each neighbor's was/will-be maximum status as if `p` were removed. -/
def get_info_for_erase (s : FunctionMaxima α β) (p : PointType α β) :
    Info α β × Info α β × Info α β :=
  let fp := s.function_points
  let wasP : Bool := mxMem s.local_maxima p
  let ln : Option (PointType α β) := if fp = [] then none else itPred fp p
  let rn : Option (PointType α β) := if fp = [] then none else itSucc fp p
  let wasLn : Bool := match ln with
    | some L => mxMem s.local_maxima L
    | none => false
  let wasRn : Bool := match rn with
    | some R => mxMem s.local_maxima R
    | none => false
  let wilLn : Bool := match ln with
    | none => false
    | some L =>
      (match itPred fp L with
        | none => true
        | some LL => !decide (L.value < LL.value)) &&
      (match rn with
        | none => true
        | some R => !decide (L.value < R.value))
  let wilRn : Bool := match rn with
    | none => false
    | some R =>
      (match ln with
        | none => true
        | some L => !decide (R.value < L.value)) &&
      (match itSucc fp R with
        | none => true
        | some RR => !decide (R.value < RR.value))
  (⟨some p, wasP, false⟩, ⟨ln, wasLn, wilLn⟩, ⟨rn, wasRn, wilRn⟩)

/-- `erase_aux` (lines 487-512), the mutation sequence of `erase`, in source
order: insert each neighbor that flips to maximum into `local_maxima`; erase
the point from `function_points` and, if it was a maximum, from
`local_maxima`; erase each neighbor that flips to non-maximum. -/
def erase_aux (s : FunctionMaxima α β) (pI lnI rnI : Info α β) :
    FunctionMaxima α β :=
  let mx1 := condIns lnI.pt (!lnI.wasMax && lnI.willMax) s.local_maxima
  let mx2 := condIns rnI.pt (!rnI.wasMax && rnI.willMax) mx1
  let fp1 := match pI.pt with
    | some p => sErase fpLt p s.function_points
    | none => s.function_points
  let mx3 := condDel pI.pt pI.wasMax mx2
  let mx4 := condDel lnI.pt (lnI.wasMax && !lnI.willMax) mx3
  let mx5 := condDel rnI.pt (rnI.wasMax && !rnI.willMax) mx4
  ⟨fp1, mx5⟩

/-- `erase` (lines 355-367): no-op when `a` is unmapped, otherwise classify
the neighbors and apply the mutations. -/
def erase (s : FunctionMaxima α β) (a : α) : FunctionMaxima α β :=
  match findA a s.function_points with
  | none => s
  | some p =>
    let info := get_info_for_erase s p
    erase_aux s info.1 info.2.1 info.2.2

/-- `value_at` (lines 334-340): the value at `a`; `none` models the thrown
`InvalidArg` exception (the specification's `NotFound`) on an unmapped
argument.  A pure function of the state: neither index can change. -/
def value_at (s : FunctionMaxima α β) (a : α) : Option β :=
  (findA a s.function_points).map (·.value)

/-- `find` (lines 379-382): the domain-index element at `a`, `none` being the
end iterator.  A pure function of the state. -/
def find (s : FunctionMaxima α β) (a : α) : Option (PointType α β) :=
  findA a s.function_points

/-- `size` (lines 394-397). -/
def size (s : FunctionMaxima α β) : Nat :=
  s.function_points.length

/-- The empty structure produced by the default constructor (line 27). -/
def mkEmpty (α β : Type*) : FunctionMaxima α β := ⟨[], []⟩

/-- States reachable from the default-constructed structure by `set_value`
and `erase` calls. -/
inductive Reachable : FunctionMaxima α β → Prop
  | base : Reachable (mkEmpty α β)
  | step_set (s : FunctionMaxima α β) (a : α) (v : β) :
      Reachable s → Reachable (set_value s a v)
  | step_erase (s : FunctionMaxima α β) (a : α) :
      Reachable s → Reachable (erase s a)

/-- The left domain neighbor of argument `b`: the point with the largest
argument strictly less than `b` (spec section 4.3). -/
def leftNbr (l : List (PointType α β)) (b : α) : Option (PointType α β) :=
  (l.filter fun q => decide (q.arg < b)).getLast?

/-- The right domain neighbor of argument `b`: the point with the smallest
argument strictly greater than `b` (spec section 4.3). -/
def rightNbr (l : List (PointType α β)) (b : α) : Option (PointType α β) :=
  (l.filter fun q => decide (b < q.arg)).head?

/-- The local-maximum predicate of spec section 4.3: the left neighbor is
absent or its value is not greater, and likewise on the right.  Equality with
a neighbor still counts as a maximum. -/
def isMaxB (l : List (PointType α β)) (p : PointType α β) : Bool :=
  ((leftNbr l p.arg).all fun L => !decide (p.value < L.value)) &&
  ((rightNbr l p.arg).all fun R => !decide (p.value < R.value))

/-- Strict order on points by argument alone: the shape of `function_points`
in every reachable state (one point per argument, ascending). -/
def argLt (p q : PointType α β) : Prop := p.arg < q.arg

/-- The representation invariant: `function_points` is strictly sorted by
argument, `local_maxima` is strictly sorted by the maxima comparator, and
`local_maxima` holds exactly the domain points satisfying the local-maximum
predicate. -/
structure Valid (s : FunctionMaxima α β) : Prop where
  fp_sorted : s.function_points.Pairwise argLt
  mx_sorted : s.local_maxima.Pairwise mxLt
  mem_iff : ∀ q, q ∈ s.local_maxima ↔
    q ∈ s.function_points ∧ isMaxB s.function_points q = true

end FunctionMaxima

/-! ## Order facts for the two comparators -/

attribute [ext] PointType

variable {α β : Type*} [LinearOrder α] [LinearOrder β]

theorem fpLt_iff {p q : PointType α β} :
    fpLt p q ↔ p.arg < q.arg ∨ (p.arg = q.arg ∧ p.value < q.value) := by
  unfold fpLt
  rcases lt_trichotomy p.arg q.arg with h | h | h
  · rw [if_pos (Or.inr h)]; simp [h]
  · rw [if_neg (by simp [h, lt_irrefl])]; simp [h, lt_irrefl]
  · rw [if_pos (Or.inl h)]; simp [lt_asymm h, h.ne']

theorem mxLt_iff {p q : PointType α β} :
    mxLt p q ↔ q.value < p.value ∨ (p.value = q.value ∧ p.arg < q.arg) := by
  unfold mxLt
  rcases lt_trichotomy p.value q.value with h | h | h
  · rw [if_pos (Or.inr h)]; simp [lt_asymm h, h.ne]
  · rw [if_neg (by simp [h, lt_irrefl])]; simp [h, lt_irrefl]
  · rw [if_pos (Or.inl h)]; simp [h, h.ne']

theorem fpLt_irrefl (p : PointType α β) : ¬ fpLt p p := by
  simp [fpLt_iff]

theorem mxLt_irrefl (p : PointType α β) : ¬ mxLt p p := by
  simp [mxLt_iff]

theorem fpLt_trans {p q r : PointType α β} (h1 : fpLt p q) (h2 : fpLt q r) :
    fpLt p r := by
  rw [fpLt_iff] at *
  rcases h1 with h1 | ⟨h1a, h1v⟩ <;> rcases h2 with h2 | ⟨h2a, h2v⟩
  · exact Or.inl (h1.trans h2)
  · exact Or.inl (h2a ▸ h1)
  · exact Or.inl (h1a ▸ h2)
  · exact Or.inr ⟨h1a.trans h2a, h1v.trans h2v⟩

theorem mxLt_trans {p q r : PointType α β} (h1 : mxLt p q) (h2 : mxLt q r) :
    mxLt p r := by
  rw [mxLt_iff] at *
  rcases h1 with h1 | ⟨h1a, h1v⟩ <;> rcases h2 with h2 | ⟨h2a, h2v⟩
  · exact Or.inl (h2.trans h1)
  · exact Or.inl (h2a ▸ h1)
  · exact Or.inl (h1a ▸ h2)
  · exact Or.inr ⟨h1a.trans h2a, h1v.trans h2v⟩

theorem fpLt_eq_of_incomp {p q : PointType α β}
    (h1 : ¬ fpLt p q) (h2 : ¬ fpLt q p) : p = q := by
  rw [fpLt_iff] at h1 h2
  push_neg at h1 h2
  have ha : p.arg = q.arg := le_antisymm h2.1 h1.1
  have hv : p.value = q.value := le_antisymm (h2.2 ha.symm) (h1.2 ha)
  ext <;> assumption

theorem mxLt_eq_of_incomp {p q : PointType α β}
    (h1 : ¬ mxLt p q) (h2 : ¬ mxLt q p) : p = q := by
  rw [mxLt_iff] at h1 h2
  push_neg at h1 h2
  have hv : p.value = q.value := le_antisymm h1.1 h2.1
  have ha : p.arg = q.arg := le_antisymm (h2.2 hv.symm) (h1.2 hv)
  ext <;> assumption

theorem fpLt_total (p q : PointType α β) : fpLt p q ∨ fpLt q p ∨ p = q := by
  by_cases h1 : fpLt p q
  · exact Or.inl h1
  · by_cases h2 : fpLt q p
    · exact Or.inr (Or.inl h2)
    · exact Or.inr (Or.inr (fpLt_eq_of_incomp h1 h2))

theorem mxLt_total (p q : PointType α β) : mxLt p q ∨ mxLt q p ∨ p = q := by
  by_cases h1 : mxLt p q
  · exact Or.inl h1
  · by_cases h2 : mxLt q p
    · exact Or.inr (Or.inl h2)
    · exact Or.inr (Or.inr (mxLt_eq_of_incomp h1 h2))

/-! ## Sorted-list kit lemmas -/

section SortedKitLemmas

variable {P : Type*} {lt : P → P → Prop} [DecidableRel lt]

@[simp] theorem sInsert_nil (x : P) : sInsert lt x [] = [x] := rfl

theorem sInsert_cons (x y : P) (l : List P) :
    sInsert lt x (y :: l) =
      if lt x y then x :: y :: l
      else if lt y x then y :: sInsert lt x l else y :: l := rfl

@[simp] theorem sErase_nil (x : P) : sErase lt x [] = [] := rfl

theorem sErase_cons (x y : P) (l : List P) :
    sErase lt x (y :: l) =
      if ¬ lt x y ∧ ¬ lt y x then l else y :: sErase lt x l := rfl

theorem mem_sInsert (heq : ∀ x y : P, ¬ lt x y → ¬ lt y x → x = y)
    (x q : P) (l : List P) : q ∈ sInsert lt x l ↔ q = x ∨ q ∈ l := by
  induction l with
  | nil => simp
  | cons y l ih =>
    rw [sInsert_cons]
    by_cases h1 : lt x y
    · simp [h1]
    · by_cases h2 : lt y x
      · rw [if_neg h1, if_pos h2]
        simp only [List.mem_cons, ih]
        tauto
      · have hxy : x = y := heq x y h1 h2
        subst hxy
        rw [if_neg h1, if_neg h2]
        simp only [List.mem_cons]
        tauto

theorem pairwise_sInsert (heq : ∀ x y : P, ¬ lt x y → ¬ lt y x → x = y)
    (htr : ∀ a b c : P, lt a b → lt b c → lt a c)
    (x : P) (l : List P) (hl : l.Pairwise lt) :
    (sInsert lt x l).Pairwise lt := by
  induction l with
  | nil => simp
  | cons y l ih =>
    rcases List.pairwise_cons.mp hl with ⟨hy, hl'⟩
    rw [sInsert_cons]
    by_cases h1 : lt x y
    · rw [if_pos h1]
      refine List.pairwise_cons.mpr ⟨?_, hl⟩
      intro z hz
      rcases List.mem_cons.mp hz with rfl | hz
      · exact h1
      · exact htr x y z h1 (hy z hz)
    · by_cases h2 : lt y x
      · rw [if_neg h1, if_pos h2]
        refine List.pairwise_cons.mpr ⟨?_, ih hl'⟩
        intro z hz
        rcases (mem_sInsert heq x z l).mp hz with rfl | hz
        · exact h2
        · exact hy z hz
      · rw [if_neg h1, if_neg h2]
        exact hl

theorem sErase_eq_erase [DecidableEq P]
    (heq : ∀ x y : P, ¬ lt x y → ¬ lt y x → x = y)
    (hirr : ∀ a : P, ¬ lt a a) (x : P) (l : List P) :
    sErase lt x l = l.erase x := by
  induction l with
  | nil => rfl
  | cons y l ih =>
    rw [sErase_cons]
    by_cases h : ¬ lt x y ∧ ¬ lt y x
    · have hxy : x = y := heq x y h.1 h.2
      subst hxy
      rw [if_pos h, List.erase_cons_head]
    · rw [if_neg h, ih, List.erase_cons_tail]
      have hxy : y ≠ x := by
        intro he
        subst he
        exact h ⟨hirr _, hirr _⟩
      simp [hxy]

theorem sErase_sublist (x : P) (l : List P) : (sErase lt x l).Sublist l := by
  induction l with
  | nil => simp
  | cons y l ih =>
    rw [sErase_cons]
    by_cases h : ¬ lt x y ∧ ¬ lt y x
    · rw [if_pos h]
      exact List.sublist_cons_self y l
    · rw [if_neg h]
      exact ih.cons₂ y

theorem sErase_sInsert_cancel
    (heq : ∀ x y : P, ¬ lt x y → ¬ lt y x → x = y)
    (hirr : ∀ a : P, ¬ lt a a) (x : P) (l : List P) (hx : x ∉ l) :
    sErase lt x (sInsert lt x l) = l := by
  induction l with
  | nil => simp [sErase_cons, hirr x]
  | cons y l ih =>
    rw [sInsert_cons]
    by_cases h1 : lt x y
    · rw [if_pos h1, sErase_cons, if_pos ⟨hirr x, hirr x⟩]
    · by_cases h2 : lt y x
      · rw [if_neg h1, if_pos h2, sErase_cons,
          if_neg (fun hc => hc.2 h2)]
        rw [ih (fun hm => hx (List.mem_cons_of_mem _ hm))]
      · have hxy : x = y := heq x y h1 h2
        subst hxy
        exact absurd (List.mem_cons_self x l) hx

theorem sErase_sInsert_comm
    (heq : ∀ x y : P, ¬ lt x y → ¬ lt y x → x = y)
    (htr : ∀ a b c : P, lt a b → lt b c → lt a c)
    (x y : P) (hxy : x ≠ y) (l : List P) (hl : l.Pairwise lt) :
    sErase lt x (sInsert lt y l) = sInsert lt y (sErase lt x l) := by
  induction l with
  | nil =>
    rw [sInsert_nil, sErase_nil, sInsert_nil, sErase_cons,
      if_neg (fun hc => hxy (heq x y hc.1 hc.2)), sErase_nil]
  | cons z l ih =>
    rcases List.pairwise_cons.mp hl with ⟨hz, hl'⟩
    rw [sInsert_cons]
    by_cases h1 : lt y z
    · rw [if_pos h1, sErase_cons, if_neg (fun hc => hxy (heq x y hc.1 hc.2)),
        sErase_cons]
      by_cases h2 : ¬ lt x z ∧ ¬ lt z x
      · have hxz : x = z := heq x z h2.1 h2.2
        subst hxz
        rw [if_pos h2]
        cases l with
        | nil => rw [sInsert_nil]
        | cons w l2 =>
          rw [sInsert_cons, if_pos (htr y x w h1 (hz w (List.mem_cons_self w l2)))]
      · rw [if_neg h2, sInsert_cons, if_pos h1]
    · by_cases h2 : lt z y
      · rw [if_neg h1, if_pos h2, sErase_cons, sErase_cons]
        by_cases h3 : ¬ lt x z ∧ ¬ lt z x
        · rw [if_pos h3, if_pos h3]
        · rw [if_neg h3, if_neg h3, ih hl', sInsert_cons, if_neg h1, if_pos h2]
      · have hyz : y = z := heq y z h1 h2
        subst hyz
        rw [if_neg h1, if_neg h2, sErase_cons,
          if_neg (fun hc => hxy (heq x y hc.1 hc.2)),
          sInsert_cons, if_neg h1, if_neg h2]

theorem sFind_isSome_iff
    (heq : ∀ x y : P, ¬ lt x y → ¬ lt y x → x = y)
    (hirr : ∀ a : P, ¬ lt a a) (x : P) (l : List P) :
    (sFind lt x l).isSome = true ↔ x ∈ l := by
  unfold sFind
  rw [List.find?_isSome]
  constructor
  · rintro ⟨y, hy, hpred⟩
    simp only [Bool.and_eq_true, Bool.not_eq_true', decide_eq_false_iff_not] at hpred
    rwa [heq x y hpred.1 hpred.2]
  · intro hx
    exact ⟨x, hx, by simp [hirr x]⟩

theorem sInsert_append (x : P) (l1 l2 : List P)
    (h : ∀ y ∈ l1, ¬ lt x y ∧ lt y x) :
    sInsert lt x (l1 ++ l2) = l1 ++ sInsert lt x l2 := by
  induction l1 with
  | nil => rfl
  | cons y l1 ih =>
    rcases h y (List.mem_cons_self y l1) with ⟨h1, h2⟩
    simp only [List.cons_append, sInsert_cons, if_neg h1, if_pos h2]
    rw [ih (fun z hz => h z (List.mem_cons_of_mem _ hz))]

theorem sErase_append (x : P) (l1 l2 : List P)
    (h : ∀ y ∈ l1, lt x y ∨ lt y x) :
    sErase lt x (l1 ++ l2) = l1 ++ sErase lt x l2 := by
  induction l1 with
  | nil => rfl
  | cons y l1 ih =>
    have hcond : ¬ (¬ lt x y ∧ ¬ lt y x) := by
      rcases h y (List.mem_cons_self y l1) with h1 | h1
      · exact fun hc => hc.1 h1
      · exact fun hc => hc.2 h1
    simp only [List.cons_append, sErase_cons, if_neg hcond]
    rw [ih (fun z hz => h z (List.mem_cons_of_mem _ hz))]

end SortedKitLemmas

/-! ## Lookup and neighbor lemmas -/

namespace FunctionMaxima

variable {α β : Type*} [LinearOrder α] [LinearOrder β]

theorem argLt_trans {p q r : PointType α β} (h1 : argLt p q) (h2 : argLt q r) :
    argLt p r := lt_trans h1 h2

theorem fpLt_of_argLt {p q : PointType α β} (h : argLt p q) : fpLt p q :=
  fpLt_iff.mpr (Or.inl h)

theorem nodup_of_pairwise_argLt {l : List (PointType α β)}
    (h : l.Pairwise argLt) : l.Nodup :=
  h.imp fun hab he => absurd (he ▸ hab) (lt_irrefl _)

theorem nodup_of_pairwise_mxLt {l : List (PointType α β)}
    (h : l.Pairwise mxLt) : l.Nodup :=
  h.imp fun hab he => absurd (he ▸ hab) (mxLt_irrefl _)

theorem arg_inj_of_pairwise {l : List (PointType α β)} (hs : l.Pairwise argLt)
    {p q : PointType α β} (hp : p ∈ l) (hq : q ∈ l) (h : p.arg = q.arg) :
    p = q := by
  by_contra hne
  have hsym : Symmetric (fun x y : PointType α β => x.arg ≠ y.arg) :=
    fun x y hxy => hxy.symm
  exact (List.Pairwise.forall hsym (hs.imp fun hab => ne_of_lt hab) hp hq hne) h

theorem findA_some {a : α} {l : List (PointType α β)} {p : PointType α β}
    (h : findA a l = some p) : p ∈ l ∧ p.arg = a := by
  refine ⟨List.mem_of_find?_eq_some h, ?_⟩
  have hp := List.find?_some h
  simp only [Bool.and_eq_true, Bool.not_eq_true', decide_eq_false_iff_not] at hp
  exact le_antisymm (not_lt.mp hp.2) (not_lt.mp hp.1)

theorem findA_none {a : α} {l : List (PointType α β)} :
    findA a l = none ↔ ∀ q ∈ l, q.arg ≠ a := by
  unfold findA
  rw [List.find?_eq_none]
  constructor
  · intro h q hq hqa
    exact h q hq (by simp [hqa])
  · intro h q hq
    rcases lt_or_gt_of_ne (h q hq) with hl | hl <;> simp [hl]

theorem findA_of_mem {a : α} {l : List (PointType α β)} {q : PointType α β}
    (hs : l.Pairwise argLt) (hq : q ∈ l) (ha : q.arg = a) :
    findA a l = some q := by
  induction l with
  | nil => cases hq
  | cons y l ih =>
    rcases List.pairwise_cons.mp hs with ⟨hy, hl'⟩
    rcases List.mem_cons.mp hq with rfl | hq'
    · exact List.find?_cons_of_pos _ (by simp [ha])
    · have hlt : y.arg < a := ha ▸ hy q hq'
      unfold findA
      rw [List.find?_cons_of_neg _ (by simp [hlt])]
      exact ih hl' hq'

theorem takeWhile_append_all {P : Type*} {f : P → Bool} {l1 : List P}
    (l2 : List P) (h : ∀ y ∈ l1, f y = true) :
    (l1 ++ l2).takeWhile f = l1 ++ l2.takeWhile f := by
  induction l1 with
  | nil => rfl
  | cons y l1 ih =>
    simp only [List.cons_append, List.takeWhile_cons, h y (List.mem_cons_self y l1), if_true]
    rw [ih (fun z hz => h z (List.mem_cons_of_mem _ hz))]

theorem dropWhile_append_all {P : Type*} {f : P → Bool} {l1 : List P}
    (l2 : List P) (h : ∀ y ∈ l1, f y = true) :
    (l1 ++ l2).dropWhile f = l2.dropWhile f := by
  induction l1 with
  | nil => rfl
  | cons y l1 ih =>
    simp only [List.cons_append, List.dropWhile_cons, h y (List.mem_cons_self y l1), if_true]
    exact ih (fun z hz => h z (List.mem_cons_of_mem _ hz))

theorem itPred_eq {P : Type*} [DecidableEq P] (l1 l2 : List P) (x : P)
    (h : ∀ y ∈ l1, y ≠ x) :
    itPred (l1 ++ x :: l2) x = l1.getLast? := by
  unfold itPred
  rw [takeWhile_append_all _ (fun y hy => by simp [h y hy])]
  simp [List.takeWhile_cons]

theorem itSucc_eq {P : Type*} [DecidableEq P] (l1 l2 : List P) (x : P)
    (h : ∀ y ∈ l1, y ≠ x) :
    itSucc (l1 ++ x :: l2) x = l2.head? := by
  unfold itSucc
  rw [dropWhile_append_all _ (fun y hy => by simp [h y hy])]
  simp [List.dropWhile_cons]

theorem dropWhile_head?_false {P : Type*} {f : P → Bool} {l : List P} {z : P}
    (h : (l.dropWhile f).head? = some z) : f z = false := by
  induction l with
  | nil => simp [List.dropWhile] at h
  | cons y l ih =>
    rw [List.dropWhile_cons] at h
    by_cases hf : f y = true
    · rw [if_pos hf] at h
      exact ih h
    · rw [if_neg hf] at h
      simp only [List.head?_cons, Option.some.injEq] at h
      subst h
      simpa using hf

theorem leftNbr_eq (l1 l2 : List (PointType α β)) (b : α)
    (h1 : ∀ y ∈ l1, y.arg < b) (h2 : ∀ z ∈ l2, ¬ z.arg < b) :
    leftNbr (l1 ++ l2) b = l1.getLast? := by
  unfold leftNbr
  rw [List.filter_append,
    List.filter_eq_self.mpr (fun y hy => by simp [h1 y hy]),
    List.filter_eq_nil.mpr (fun z hz => by simp [h2 z hz]),
    List.append_nil]

theorem rightNbr_eq (l1 l2 : List (PointType α β)) (b : α)
    (h1 : ∀ y ∈ l1, ¬ b < y.arg) (h2 : ∀ z ∈ l2, b < z.arg) :
    rightNbr (l1 ++ l2) b = l2.head? := by
  unfold rightNbr
  rw [List.filter_append,
    List.filter_eq_nil.mpr (fun y hy => by simp [h1 y hy]),
    List.filter_eq_self.mpr (fun z hz => by simp [h2 z hz]),
    List.nil_append]

theorem leftNbr_append_right_nil (l1 rest : List (PointType α β)) (b : α)
    (h : ∀ z ∈ rest, ¬ z.arg < b) :
    leftNbr (l1 ++ rest) b = leftNbr l1 b := by
  unfold leftNbr
  rw [List.filter_append,
    List.filter_eq_nil.mpr (fun z (hz : z ∈ rest) => by simp [h z hz]),
    List.append_nil]

theorem rightNbr_append_left_nil (l1 rest : List (PointType α β)) (b : α)
    (h : ∀ y ∈ l1, ¬ b < y.arg) :
    rightNbr (l1 ++ rest) b = rightNbr rest b := by
  unfold rightNbr
  rw [List.filter_append,
    List.filter_eq_nil.mpr (fun y hy => by simp [h y hy]),
    List.nil_append]

theorem leftNbr_append_of_mem (l1 rest : List (PointType α β)) (b : α)
    {y : PointType α β} (hy : y ∈ rest) (hby : y.arg < b) :
    leftNbr (l1 ++ rest) b = leftNbr rest b := by
  unfold leftNbr
  rw [List.filter_append, List.getLast?_append]
  have hm : y ∈ rest.filter (fun q => decide (q.arg < b)) :=
    List.mem_filter.mpr ⟨hy, by simp [hby]⟩
  cases hf : (rest.filter (fun q => decide (q.arg < b))).getLast? with
  | none =>
    rw [List.getLast?_eq_none_iff] at hf
    rw [hf] at hm
    cases hm
  | some w => simp

theorem rightNbr_append_of_mem (l1 rest : List (PointType α β)) (b : α)
    {y : PointType α β} (hy : y ∈ l1) (hby : b < y.arg) :
    rightNbr (l1 ++ rest) b = rightNbr l1 b := by
  unfold rightNbr
  rw [List.filter_append, List.head?_append]
  have hm : y ∈ l1.filter (fun q => decide (b < q.arg)) :=
    List.mem_filter.mpr ⟨hy, by simp [hby]⟩
  cases hf : (l1.filter (fun q => decide (b < q.arg))).head? with
  | none =>
    rw [List.head?_eq_none_iff] at hf
    rw [hf] at hm
    cases hm
  | some w => simp

theorem mxMem_iff {mx : List (PointType α β)} {p : PointType α β} :
    mxMem mx p = true ↔ p ∈ mx := by
  unfold mxMem
  exact sFind_isSome_iff (fun x y h1 h2 => mxLt_eq_of_incomp h1 h2) mxLt_irrefl p mx

/-! ### Instantiated insert / erase lemmas for the two comparators -/

theorem mem_fpInsert {x q : PointType α β} {l : List (PointType α β)} :
    q ∈ sInsert fpLt x l ↔ q = x ∨ q ∈ l :=
  mem_sInsert (fun x y h1 h2 => fpLt_eq_of_incomp h1 h2) x q l

theorem mem_mxInsert {x q : PointType α β} {l : List (PointType α β)} :
    q ∈ sInsert mxLt x l ↔ q = x ∨ q ∈ l :=
  mem_sInsert (fun x y h1 h2 => mxLt_eq_of_incomp h1 h2) x q l

theorem pairwise_mxInsert {x : PointType α β} {l : List (PointType α β)}
    (hl : l.Pairwise mxLt) : (sInsert mxLt x l).Pairwise mxLt :=
  pairwise_sInsert (fun x y h1 h2 => mxLt_eq_of_incomp h1 h2) (fun a b c h1 h2 => mxLt_trans h1 h2) x l hl

theorem mem_mxErase {x q : PointType α β} {l : List (PointType α β)}
    (hl : l.Pairwise mxLt) : q ∈ sErase mxLt x l ↔ q ∈ l ∧ q ≠ x := by
  rw [sErase_eq_erase (fun x y h1 h2 => mxLt_eq_of_incomp h1 h2) mxLt_irrefl,
    (nodup_of_pairwise_mxLt hl).mem_erase_iff]
  tauto

theorem pairwise_mxErase {x : PointType α β} {l : List (PointType α β)}
    (hl : l.Pairwise mxLt) : (sErase mxLt x l).Pairwise mxLt :=
  hl.sublist (sErase_sublist x l)

end FunctionMaxima

/-! ## Decomposition of the point list around the updated argument -/

namespace FunctionMaxima

variable {α β : Type*} [LinearOrder α] [LinearOrder β]

theorem getLast?_mem {P : Type*} {l : List P} {a : P}
    (h : l.getLast? = some a) : a ∈ l := by
  have h2 := @List.dropLast_append_getLast? P l a (Option.mem_def.mpr h)
  rw [← h2]
  exact List.mem_append_right _ (List.mem_cons_self a [])

theorem head?_mem {P : Type*} {l : List P} {a : P}
    (h : l.head? = some a) : a ∈ l := by
  cases l with
  | nil => cases h
  | cons y t =>
    simp only [List.head?_cons, Option.some.injEq] at h
    subst h
    exact List.mem_cons_self _ _

theorem head?_decomp {P : Type*} {l : List P} {a : P}
    (h : l.head? = some a) : ∃ t, l = a :: t := by
  cases l with
  | nil => cases h
  | cons y t =>
    simp only [List.head?_cons, Option.some.injEq] at h
    exact ⟨t, by rw [h]⟩

theorem getLast?_decomp {P : Type*} {l : List P} {a : P}
    (h : l.getLast? = some a) : ∃ t, l = t ++ [a] :=
  ⟨l.dropLast, (@List.dropLast_append_getLast? P l a (Option.mem_def.mpr h)).symm⟩

/-- Splitting the sorted point list at a present argument `a`: everything
before the found point has a smaller argument, everything after a larger one,
and the two source iterator steps `--it` / `++it` reach exactly the two ends
of the split. -/
theorem findA_decomp {l : List (PointType α β)} {a : α} {p : PointType α β}
    (hs : l.Pairwise argLt) (h : findA a l = some p) :
    ∃ l1 l2, l = l1 ++ p :: l2 ∧ p.arg = a ∧
      (∀ y ∈ l1, y.arg < a) ∧ (∀ z ∈ l2, a < z.arg) ∧
      itPred l p = l1.getLast? ∧ itSucc l p = l2.head? := by
  obtain ⟨hp, ha⟩ := findA_some h
  obtain ⟨l1, l2, rfl⟩ := List.append_of_mem hp
  obtain ⟨hs1, hs2, hcross⟩ := List.pairwise_append.mp hs
  obtain ⟨hpl2, hs2'⟩ := List.pairwise_cons.mp hs2
  have hb1 : ∀ y ∈ l1, y.arg < a :=
    fun y hy => ha ▸ hcross y hy p (List.mem_cons_self p l2)
  have hb2 : ∀ z ∈ l2, a < z.arg := fun z hz => ha ▸ hpl2 z hz
  have hne : ∀ y ∈ l1, y ≠ p := by
    intro y hy he
    exact absurd (hb1 y hy) (by rw [he, ha]; exact lt_irrefl a)
  exact ⟨l1, l2, rfl, ha, hb1, hb2, itPred_eq l1 l2 p hne, itSucc_eq l1 l2 p hne⟩

/-- Splitting the sorted point list at the `lower_bound` position of a fresh
argument `a`: the source's `lower_bound(new_point)` and its predecessor reach
exactly the two ends of the split. -/
theorem fresh_decomp {l : List (PointType α β)} {a : α} (v : β)
    (hs : l.Pairwise argLt) (h : findA a l = none) :
    ∃ l1 l2, l = l1 ++ l2 ∧
      (∀ y ∈ l1, y.arg < a) ∧ (∀ z ∈ l2, a < z.arg) ∧
      lbPred l ⟨a, v⟩ = l1.getLast? ∧ lowerBoundFP l ⟨a, v⟩ = l2.head? := by
  have hne : ∀ q ∈ l, q.arg ≠ a := findA_none.mp h
  have hsplit : l = l.takeWhile (fun q => decide (fpLt q ⟨a, v⟩)) ++
      l.dropWhile (fun q => decide (fpLt q ⟨a, v⟩)) :=
    (List.takeWhile_append_dropWhile _ l).symm
  refine ⟨_, _, hsplit, ?_, ?_, rfl, rfl⟩
  · intro y hy
    have h1 := List.mem_takeWhile_imp hy
    have h2 : y ∈ l := (List.takeWhile_sublist _).subset hy
    rw [decide_eq_true_eq] at h1
    rcases fpLt_iff.mp h1 with h3 | ⟨h3, _⟩
    · exact h3
    · exact absurd h3 (hne y h2)
  · intro z hz
    have hs2 : (l.dropWhile (fun q => decide (fpLt q ⟨a, v⟩))).Pairwise argLt :=
      hs.sublist (List.dropWhile_sublist _)
    cases hdw : l.dropWhile (fun q => decide (fpLt q ⟨a, v⟩)) with
    | nil => rw [hdw] at hz; cases hz
    | cons z0 l2' =>
      have hhead : (l.dropWhile (fun q => decide (fpLt q (⟨a, v⟩ : PointType α β)))).head? =
          some z0 := by rw [hdw]; rfl
      have hz0f := dropWhile_head?_false hhead
      have hz0l : z0 ∈ l := (List.dropWhile_sublist _).subset (hdw ▸ List.mem_cons_self z0 l2')
      have hz0a : a < z0.arg := by
        have hnf : ¬ fpLt z0 (⟨a, v⟩ : PointType α β) := by simpa using hz0f
        rcases lt_trichotomy z0.arg a with hlt | heq | hgt
        · exact absurd (fpLt_iff.mpr (Or.inl hlt)) hnf
        · exact absurd heq (hne z0 hz0l)
        · exact hgt
      rw [hdw] at hz hs2
      rcases List.mem_cons.mp hz with rfl | hz'
      · exact hz0a
      · exact hz0a.trans ((List.pairwise_cons.mp hs2).1 z hz')

/-! ## Membership through the guarded maxima updates -/

theorem mem_condIns {o : Option (PointType α β)} {c : Bool}
    {l : List (PointType α β)} {q : PointType α β} :
    q ∈ condIns o c l ↔ (o = some q ∧ c = true) ∨ q ∈ l := by
  cases o with
  | none => simp [condIns]
  | some x =>
    cases c with
    | false => simp [condIns]
    | true =>
      simp only [condIns, mem_mxInsert, Option.some.injEq, and_true]
      constructor
      · rintro (rfl | hq)
        · exact Or.inl rfl
        · exact Or.inr hq
      · rintro (rfl | hq)
        · exact Or.inl rfl
        · exact Or.inr hq

theorem mem_condDel {o : Option (PointType α β)} {c : Bool}
    {l : List (PointType α β)} {q : PointType α β} (hl : l.Pairwise mxLt) :
    q ∈ condDel o c l ↔ q ∈ l ∧ ¬ (o = some q ∧ c = true) := by
  cases o with
  | none => simp [condDel]
  | some x =>
    cases c with
    | false => simp [condDel]
    | true =>
      rw [show condDel (some x) true l = sErase mxLt x l from rfl, mem_mxErase hl]
      simp only [Option.some.injEq, and_true]
      constructor
      · rintro ⟨hq, hne⟩
        exact ⟨hq, fun he => hne he.symm⟩
      · rintro ⟨hq, hne⟩
        exact ⟨hq, fun he => hne he.symm⟩

theorem pairwise_condIns {o : Option (PointType α β)} {c : Bool}
    {l : List (PointType α β)} (hl : l.Pairwise mxLt) :
    (condIns o c l).Pairwise mxLt := by
  cases o with
  | none => exact hl
  | some x => cases c with
    | false => exact hl
    | true => exact pairwise_mxInsert hl

theorem pairwise_condDel {o : Option (PointType α β)} {c : Bool}
    {l : List (PointType α β)} (hl : l.Pairwise mxLt) :
    (condDel o c l).Pairwise mxLt := by
  cases o with
  | none => exact hl
  | some x => cases c with
    | false => exact hl
    | true => exact pairwise_mxErase hl

theorem isMaxB_congr {l l' : List (PointType α β)} {q : PointType α β}
    (hL : leftNbr l q.arg = leftNbr l' q.arg)
    (hR : rightNbr l q.arg = rightNbr l' q.arg) :
    isMaxB l q = isMaxB l' q := by
  unfold isMaxB
  rw [hL, hR]

end FunctionMaxima

/-! ## Locality: a middle-segment swap at argument `b` leaves every other
point's neighbors unchanged -/

namespace FunctionMaxima

variable {α β : Type*} [LinearOrder α] [LinearOrder β]

theorem isMaxB_locality (l1 l2 mid mid' : List (PointType α β)) (b : α)
    (hl1 : l1.Pairwise argLt) (hl2 : l2.Pairwise argLt)
    (hb1 : ∀ y ∈ l1, y.arg < b) (hb2 : ∀ z ∈ l2, b < z.arg)
    (hmid : ∀ m ∈ mid, m.arg = b) (hmid' : ∀ m ∈ mid', m.arg = b)
    (q : PointType α β) (hq : q ∈ l1 ∨ q ∈ l2)
    (hqL : ∀ L, l1.getLast? = some L → q ≠ L)
    (hqR : ∀ R, l2.head? = some R → q ≠ R) :
    isMaxB (l1 ++ mid ++ l2) q = isMaxB (l1 ++ mid' ++ l2) q := by
  rcases hq with hq | hq
  · -- q sits strictly inside l1
    cases hgl : l1.getLast? with
    | none =>
      rw [List.getLast?_eq_none_iff] at hgl
      rw [hgl] at hq
      cases hq
    | some L =>
      obtain ⟨l1', hsplit⟩ := getLast?_decomp hgl
      have hql1' : q ∈ l1' := by
        rw [hsplit] at hq
        rcases List.mem_append.mp hq with h | h
        · exact h
        · rcases List.mem_cons.mp h with rfl | h
          · exact absurd rfl (hqL q hgl)
          · cases h
      have hqL' : q.arg < L.arg := by
        rw [hsplit] at hl1
        obtain ⟨-, -, hc⟩ := List.pairwise_append.mp hl1
        exact hc q hql1' L (List.mem_cons_self L [])
      have hqb : q.arg < b := hb1 q hq
      have hrest : ∀ z ∈ mid ++ l2, ¬ z.arg < q.arg := by
        intro z hz
        rcases List.mem_append.mp hz with h | h
        · rw [hmid z h]; exact fun hc => absurd (hqb.trans hc) (lt_irrefl _)
        · exact fun hc => absurd (hqb.trans ((hb2 z h).trans hc)) (lt_irrefl _)
      have hrest' : ∀ z ∈ mid' ++ l2, ¬ z.arg < q.arg := by
        intro z hz
        rcases List.mem_append.mp hz with h | h
        · rw [hmid' z h]; exact fun hc => absurd (hqb.trans hc) (lt_irrefl _)
        · exact fun hc => absurd (hqb.trans ((hb2 z h).trans hc)) (lt_irrefl _)
      refine isMaxB_congr ?_ ?_
      · rw [List.append_assoc, List.append_assoc,
          leftNbr_append_right_nil _ _ _ hrest, leftNbr_append_right_nil _ _ _ hrest']
      · rw [List.append_assoc, List.append_assoc,
          rightNbr_append_of_mem _ _ _ (getLast?_mem hgl) hqL',
          rightNbr_append_of_mem _ _ _ (getLast?_mem hgl) hqL']
  · -- q sits strictly inside l2
    cases hhd : l2.head? with
    | none =>
      rw [List.head?_eq_none_iff] at hhd
      rw [hhd] at hq
      cases hq
    | some R =>
      obtain ⟨l2', hsplit⟩ := head?_decomp hhd
      have hql2' : q ∈ l2' := by
        rw [hsplit] at hq
        rcases List.mem_cons.mp hq with rfl | h
        · exact absurd rfl (hqR q hhd)
        · exact h
      have hRq : R.arg < q.arg := by
        rw [hsplit] at hl2
        exact (List.pairwise_cons.mp hl2).1 q hql2'
      have hbq : b < q.arg := hb2 q hq
      have hleft : ∀ y ∈ l1 ++ mid, ¬ q.arg < y.arg := by
        intro y hy
        rcases List.mem_append.mp hy with h | h
        · exact fun hc => absurd ((hb1 y h).trans (hbq.trans hc)) (lt_irrefl _)
        · rw [hmid y h]; exact fun hc => absurd (hbq.trans hc) (lt_irrefl _)
      have hleft' : ∀ y ∈ l1 ++ mid', ¬ q.arg < y.arg := by
        intro y hy
        rcases List.mem_append.mp hy with h | h
        · exact fun hc => absurd ((hb1 y h).trans (hbq.trans hc)) (lt_irrefl _)
        · rw [hmid' y h]; exact fun hc => absurd (hbq.trans hc) (lt_irrefl _)
      refine isMaxB_congr ?_ ?_
      · rw [leftNbr_append_of_mem _ _ _ (head?_mem hhd) hRq,
          leftNbr_append_of_mem _ _ _ (head?_mem hhd) hRq]
      · rw [rightNbr_append_left_nil _ _ _ hleft, rightNbr_append_left_nil _ _ _ hleft']

end FunctionMaxima

/-! ## The update sequence of `set_value` preserves the invariant -/

namespace FunctionMaxima

variable {α β : Type*} [LinearOrder α] [LinearOrder β]

set_option maxHeartbeats 1600000 in
theorem set_value_aux_spec (s : FunctionMaxima α β) (hv : Valid s)
    (l1 l2 : List (PointType α β)) (old : Option (PointType α β))
    (np : PointType α β) (pI lnI rnI : Info α β)
    (hfp : s.function_points = l1 ++ old.toList ++ l2)
    (hb1 : ∀ y ∈ l1, y.arg < np.arg)
    (hb2 : ∀ z ∈ l2, np.arg < z.arg)
    (holdarg : ∀ p, old = some p → p.arg = np.arg)
    (holdne : ∀ p, old = some p → p ≠ np)
    (hpt : pI.pt = old)
    (hpw : ∀ p, old = some p → (pI.wasMax = true ↔ p ∈ s.local_maxima))
    (hpl : pI.willMax = isMaxB (l1 ++ np :: l2) np)
    (hlnpt : lnI.pt = l1.getLast?)
    (hlnw : ∀ L, l1.getLast? = some L → (lnI.wasMax = true ↔ L ∈ s.local_maxima))
    (hlnl : ∀ L, l1.getLast? = some L → lnI.willMax = isMaxB (l1 ++ np :: l2) L)
    (hrnpt : rnI.pt = l2.head?)
    (hrnw : ∀ R, l2.head? = some R → (rnI.wasMax = true ↔ R ∈ s.local_maxima))
    (hrnl : ∀ R, l2.head? = some R → rnI.willMax = isMaxB (l1 ++ np :: l2) R) :
    (set_value_aux s pI lnI rnI np).function_points = l1 ++ np :: l2 ∧
    Valid (set_value_aux s pI lnI rnI np) ∧
    ∀ q : PointType α β, q.arg ≠ np.arg →
      (∀ L, l1.getLast? = some L → q.arg ≠ L.arg) →
      (∀ R, l2.head? = some R → q.arg ≠ R.arg) →
      (q ∈ (set_value_aux s pI lnI rnI np).local_maxima ↔ q ∈ s.local_maxima) := by
  have hfps := hv.fp_sorted
  rw [hfp] at hfps
  have hl1 : l1.Pairwise argLt :=
    (List.pairwise_append.mp ((List.pairwise_append.mp hfps).1)).1
  have hl2 : l2.Pairwise argLt := (List.pairwise_append.mp hfps).2.1
  have hfp2s : (l1 ++ np :: l2).Pairwise argLt := by
    rw [List.pairwise_append]
    refine ⟨hl1, ?_, ?_⟩
    · rw [List.pairwise_cons]
      exact ⟨fun z hz => hb2 z hz, hl2⟩
    · intro y hy z hz
      rcases List.mem_cons.mp hz with rfl | hz
      · exact hb1 y hy
      · exact (hb1 y hy).trans (hb2 z hz)
  have hnp_l1 : np ∉ l1 := fun h => lt_irrefl _ (hb1 np h)
  have hnp_l2 : np ∉ l2 := fun h => lt_irrefl _ (hb2 np h)
  have hnp_old : np ∉ old.toList := by
    intro h
    cases old with
    | none => cases h
    | some p =>
      simp only [Option.toList_some, List.mem_singleton] at h
      exact holdne p rfl h.symm
  have hnp_fp : np ∉ s.function_points := by
    rw [hfp]
    intro h
    rcases List.mem_append.mp h with h | h
    · rcases List.mem_append.mp h with h | h
      · exact hnp_l1 h
      · exact hnp_old h
    · exact hnp_l2 h
  have hnp_mx : np ∉ s.local_maxima := fun h => hnp_fp ((hv.mem_iff np).mp h).1
  have hLfacts : ∀ L, l1.getLast? = some L → L ∈ l1 ∧ L.arg < np.arg :=
    fun L hL => ⟨getLast?_mem hL, hb1 L (getLast?_mem hL)⟩
  have hRfacts : ∀ R, l2.head? = some R → R ∈ l2 ∧ np.arg < R.arg :=
    fun R hR => ⟨head?_mem hR, hb2 R (head?_mem hR)⟩
  have hlnnp : lnI.pt ≠ some np := by
    rw [hlnpt]
    intro h
    exact lt_irrefl _ (hLfacts np h).2
  have hrnnp : rnI.pt ≠ some np := by
    rw [hrnpt]
    intro h
    exact lt_irrefl _ (hRfacts np h).2
  have hptnp : pI.pt ≠ some np := by
    rw [hpt]
    intro h
    exact holdne np h rfl
  -- the domain index after the call
  have hfp2 : (set_value_aux s pI lnI rnI np).function_points = l1 ++ np :: l2 := by
    show (match pI.pt with
      | some p => sErase fpLt p (sInsert fpLt np s.function_points)
      | none => sInsert fpLt np s.function_points) = l1 ++ np :: l2
    have hl1cmp : ∀ y ∈ l1, ¬ fpLt np y ∧ fpLt y np := by
      intro y hy
      refine ⟨?_, fpLt_of_argLt (hb1 y hy)⟩
      intro hc
      rcases fpLt_iff.mp hc with h | ⟨h, -⟩
      · exact absurd (h.trans (hb1 y hy)) (lt_irrefl _)
      · exact absurd (h ▸ hb1 y hy) (lt_irrefl _)
    have hinsl2 : sInsert fpLt np l2 = np :: l2 := by
      cases l2 with
      | nil => rfl
      | cons z l2' =>
        rw [sInsert_cons, if_pos (fpLt_of_argLt (hb2 z (List.mem_cons_self z l2')))]
    rw [hpt]
    cases hold : old with
    | none =>
      show sInsert fpLt np s.function_points = l1 ++ np :: l2
      rw [hfp, hold]
      simp only [Option.toList_none, List.append_nil]
      rw [sInsert_append np l1 l2 hl1cmp, hinsl2]
    | some p =>
      have hparg : p.arg = np.arg := holdarg p hold
      have hpne : p ≠ np := holdne p hold
      show sErase fpLt p (sInsert fpLt np s.function_points) = l1 ++ np :: l2
      rw [hfp, hold]
      have hmid : l1 ++ (some p).toList ++ l2 = l1 ++ p :: l2 := by simp
      rw [hmid, sInsert_append np l1 (p :: l2) hl1cmp,
        sErase_append p l1 _
          (fun y hy => Or.inr (fpLt_of_argLt (show y.arg < p.arg from hparg.symm ▸ hb1 y hy)))]
      congr 1
      by_cases hc : fpLt np p
      · rw [sInsert_cons, if_pos hc, sErase_cons,
          if_neg (fun hcc => hcc.2 hc), sErase_cons,
          if_pos ⟨fpLt_irrefl p, fpLt_irrefl p⟩]
      · have hc2 : fpLt p np := by
          rcases fpLt_total p np with h | h | h
          · exact h
          · exact absurd h hc
          · exact absurd h hpne
        rw [sInsert_cons, if_neg hc, if_pos hc2, hinsl2, sErase_cons,
          if_pos ⟨fpLt_irrefl p, fpLt_irrefl p⟩]
  -- the maxima index as a guarded chain
  have hmxeq : (set_value_aux s pI lnI rnI np).local_maxima =
      condDel rnI.pt (rnI.wasMax && !rnI.willMax)
        (condDel lnI.pt (lnI.wasMax && !lnI.willMax)
          (condDel pI.pt pI.wasMax
            (condIns rnI.pt (!rnI.wasMax && rnI.willMax)
              (condIns lnI.pt (!lnI.wasMax && lnI.willMax)
                (if pI.willMax then sInsert mxLt np s.local_maxima
                 else s.local_maxima))))) := rfl
  have pwA : (if pI.willMax then sInsert mxLt np s.local_maxima
      else s.local_maxima).Pairwise mxLt := by
    by_cases h : pI.willMax = true
    · rw [if_pos h]
      exact pairwise_mxInsert hv.mx_sorted
    · rw [if_neg h]
      exact hv.mx_sorted
  have hmemA : ∀ q : PointType α β,
      q ∈ (if pI.willMax then sInsert mxLt np s.local_maxima
        else s.local_maxima) ↔
      (pI.willMax = true ∧ q = np) ∨ q ∈ s.local_maxima := by
    intro q
    by_cases h : pI.willMax = true
    · rw [if_pos h, mem_mxInsert]
      simp [h]
    · rw [if_neg h]
      simp [h]
  have main : ∀ q : PointType α β,
      q ∈ (set_value_aux s pI lnI rnI np).local_maxima ↔
        (((pI.willMax = true ∧ q = np) ∨ q ∈ s.local_maxima ∨
          (lnI.pt = some q ∧ (!lnI.wasMax && lnI.willMax) = true) ∨
          (rnI.pt = some q ∧ (!rnI.wasMax && rnI.willMax) = true)) ∧
         ¬ (pI.pt = some q ∧ pI.wasMax = true) ∧
         ¬ (lnI.pt = some q ∧ (lnI.wasMax && !lnI.willMax) = true) ∧
         ¬ (rnI.pt = some q ∧ (rnI.wasMax && !rnI.willMax) = true)) := by
    intro q
    rw [hmxeq,
      mem_condDel (pairwise_condDel (pairwise_condDel
        (pairwise_condIns (pairwise_condIns pwA)))),
      mem_condDel (pairwise_condDel (pairwise_condIns (pairwise_condIns pwA))),
      mem_condDel (pairwise_condIns (pairwise_condIns pwA)),
      mem_condIns, mem_condIns, hmemA q]
    tauto
  -- membership in the maxima index matches the oracle on the new list
  have hmem_iff : ∀ q, q ∈ (set_value_aux s pI lnI rnI np).local_maxima ↔
      (q ∈ l1 ++ np :: l2 ∧ isMaxB (l1 ++ np :: l2) q = true) := by
    intro q
    rw [main q]
    by_cases hqnp : q = np
    · subst hqnp
      rw [hpl]
      constructor
      · rintro ⟨h1, -, -, -⟩
        rcases h1 with ⟨hwil, -⟩ | h1 | ⟨hc, -⟩ | ⟨hc, -⟩
        · exact ⟨List.mem_append_right _ (List.mem_cons_self q l2), hwil⟩
        · exact absurd h1 hnp_mx
        · exact absurd hc hlnnp
        · exact absurd hc hrnnp
      · rintro ⟨-, hmax⟩
        refine ⟨Or.inl ⟨hmax, rfl⟩, ?_, ?_, ?_⟩
        · rintro ⟨hc, -⟩; exact hptnp hc
        · rintro ⟨hc, -⟩; exact hlnnp hc
        · rintro ⟨hc, -⟩; exact hrnnp hc
    · by_cases hqold : pI.pt = some q
      · -- q is the replaced point
        rw [hpt] at hqold
        have hqarg : q.arg = np.arg := holdarg q hqold
        have hq_not_fp2 : q ∉ l1 ++ np :: l2 := by
          intro h
          rcases List.mem_append.mp h with h | h
          · exact absurd (hqarg ▸ hb1 q h) (lt_irrefl _)
          · rcases List.mem_cons.mp h with h | h
            · exact hqnp h
            · exact absurd (hqarg ▸ hb2 q h) (lt_irrefl _)
        constructor
        · rintro ⟨h1, h2, -, -⟩
          exfalso
          have hwasfalse : ¬ pI.wasMax = true := fun hw => h2 ⟨hpt.trans hqold, hw⟩
          have hqmx : q ∉ s.local_maxima := fun hm => hwasfalse ((hpw q hqold).mpr hm)
          rcases h1 with ⟨-, hqeq⟩ | h1 | ⟨hc, -⟩ | ⟨hc, -⟩
          · exact hqnp hqeq
          · exact hqmx h1
          · rw [hlnpt] at hc
            exact absurd (hqarg ▸ (hLfacts q hc).2) (lt_irrefl _)
          · rw [hrnpt] at hc
            exact absurd (hqarg ▸ (hRfacts q hc).2) (lt_irrefl _)
        · rintro ⟨hmem, -⟩
          exact absurd hmem hq_not_fp2
      · by_cases hqln : lnI.pt = some q
        · -- q is the left neighbor
          rw [hlnpt] at hqln
          have hqL := hLfacts q hqln
          have hnotrn : rnI.pt ≠ some q := by
            rw [hrnpt]
            intro hc
            exact absurd (hqL.2.trans (hRfacts q hc).2) (lt_irrefl _)
          have hql1 : q ∈ l1 ++ np :: l2 := List.mem_append_left _ hqL.1
          have hmaxeq := hlnl q hqln
          have hwas := hlnw q hqln
          constructor
          · rintro ⟨h1, -, h3, -⟩
            refine ⟨hql1, ?_⟩
            rw [← hmaxeq]
            have h3' : ¬ (lnI.wasMax && !lnI.willMax) = true :=
              fun hb => h3 ⟨hlnpt.trans hqln, hb⟩
            rcases h1 with ⟨-, hqeq⟩ | h1 | ⟨-, hb⟩ | ⟨hc, -⟩
            · exact absurd hqeq hqnp
            · have hw := hwas.mpr h1
              cases hwil : lnI.willMax
              · exact absurd (by rw [hw, hwil]; rfl) h3'
              · rfl
            · cases hwil : lnI.willMax
              · rw [hwil] at hb; simp at hb
              · rfl
            · exact absurd hc hnotrn
          · rintro ⟨-, hmax⟩
            have hwil : lnI.willMax = true := hmaxeq.trans hmax
            refine ⟨?_, ?_, ?_, ?_⟩
            · by_cases hw : lnI.wasMax = true
              · exact Or.inr (Or.inl (hwas.mp hw))
              · refine Or.inr (Or.inr (Or.inl ⟨hlnpt.trans hqln, ?_⟩))
                cases hwb : lnI.wasMax
                · rw [hwil]; rfl
                · exact absurd hwb hw
            · rintro ⟨hc, -⟩; exact hqold hc
            · rintro ⟨-, hb⟩
              rw [hwil] at hb
              simp at hb
            · rintro ⟨hc, -⟩; exact hnotrn hc
        · by_cases hqrn : rnI.pt = some q
          · -- q is the right neighbor
            rw [hrnpt] at hqrn
            have hqR := hRfacts q hqrn
            have hql2 : q ∈ l1 ++ np :: l2 :=
              List.mem_append_right _ (List.mem_cons_of_mem _ hqR.1)
            have hmaxeq := hrnl q hqrn
            have hwas := hrnw q hqrn
            constructor
            · rintro ⟨h1, -, -, h4⟩
              refine ⟨hql2, ?_⟩
              rw [← hmaxeq]
              have h4' : ¬ (rnI.wasMax && !rnI.willMax) = true :=
                fun hb => h4 ⟨hrnpt.trans hqrn, hb⟩
              rcases h1 with ⟨-, hqeq⟩ | h1 | ⟨hc, -⟩ | ⟨-, hb⟩
              · exact absurd hqeq hqnp
              · have hw := hwas.mpr h1
                cases hwil : rnI.willMax
                · exact absurd (by rw [hw, hwil]; rfl) h4'
                · rfl
              · exact absurd hc hqln
              · cases hwil : rnI.willMax
                · rw [hwil] at hb; simp at hb
                · rfl
            · rintro ⟨-, hmax⟩
              have hwil : rnI.willMax = true := hmaxeq.trans hmax
              refine ⟨?_, ?_, ?_, ?_⟩
              · by_cases hw : rnI.wasMax = true
                · exact Or.inr (Or.inl (hwas.mp hw))
                · refine Or.inr (Or.inr (Or.inr ⟨hrnpt.trans hqrn, ?_⟩))
                  cases hwb : rnI.wasMax
                  · rw [hwil]; rfl
                  · exact absurd hwb hw
              · rintro ⟨hc, -⟩; exact hqold hc
              · rintro ⟨hc, -⟩; exact hqln hc
              · rintro ⟨-, hb⟩
                rw [hwil] at hb
                simp at hb
          · -- q is none of the affected points
            have hF : (((pI.willMax = true ∧ q = np) ∨ q ∈ s.local_maxima ∨
                  (lnI.pt = some q ∧ (!lnI.wasMax && lnI.willMax) = true) ∨
                  (rnI.pt = some q ∧ (!rnI.wasMax && rnI.willMax) = true)) ∧
                 ¬ (pI.pt = some q ∧ pI.wasMax = true) ∧
                 ¬ (lnI.pt = some q ∧ (lnI.wasMax && !lnI.willMax) = true) ∧
                 ¬ (rnI.pt = some q ∧ (rnI.wasMax && !rnI.willMax) = true)) ↔
                q ∈ s.local_maxima := by
              constructor
              · rintro ⟨h1, -, -, -⟩
                rcases h1 with ⟨-, hqeq⟩ | h1 | ⟨hc, -⟩ | ⟨hc, -⟩
                · exact absurd hqeq hqnp
                · exact h1
                · exact absurd hc hqln
                · exact absurd hc hqrn
              · intro hm
                refine ⟨Or.inr (Or.inl hm), ?_, ?_, ?_⟩
                · rintro ⟨hc, -⟩; exact hqold hc
                · rintro ⟨hc, -⟩; exact hqln hc
                · rintro ⟨hc, -⟩; exact hqrn hc
            rw [hF, hv.mem_iff q]
            by_cases hqmem : q ∈ l1 ∨ q ∈ l2
            · have hfpm : q ∈ s.function_points := by
                rw [hfp]
                rcases hqmem with h | h
                · exact List.mem_append_left _ (List.mem_append_left _ h)
                · exact List.mem_append_right _ h
              have hfp2m : q ∈ l1 ++ np :: l2 := by
                rcases hqmem with h | h
                · exact List.mem_append_left _ h
                · exact List.mem_append_right _ (List.mem_cons_of_mem _ h)
              have hmidargs : ∀ m ∈ old.toList, m.arg = np.arg := by
                intro m hm
                cases old with
                | none => cases hm
                | some p =>
                  simp only [Option.toList_some, List.mem_singleton] at hm
                  exact hm ▸ holdarg p rfl
              have hmidargs' : ∀ m ∈ [np], m.arg = np.arg := by
                intro m hm
                simp only [List.mem_singleton] at hm
                exact hm ▸ rfl
              have hqLne : ∀ L, l1.getLast? = some L → q ≠ L := by
                intro L hL hqeq
                exact hqln (by rw [hlnpt, hL, hqeq])
              have hqRne : ∀ R, l2.head? = some R → q ≠ R := by
                intro R hR hqeq
                exact hqrn (by rw [hrnpt, hR, hqeq])
              have hloc : isMaxB s.function_points q = isMaxB (l1 ++ np :: l2) q := by
                rw [hfp]
                have hloc0 := isMaxB_locality l1 l2 old.toList [np] np.arg hl1 hl2 hb1 hb2
                  hmidargs hmidargs' q hqmem hqLne hqRne
                simpa using hloc0
              simp [hfpm, hfp2m, hloc]
            · push_neg at hqmem
              have h1 : q ∉ s.function_points := by
                rw [hfp]
                intro h
                rcases List.mem_append.mp h with h | h
                · rcases List.mem_append.mp h with h | h
                  · exact hqmem.1 h
                  · cases old with
                    | none => cases h
                    | some p =>
                      simp only [Option.toList_some, List.mem_singleton] at h
                      exact hqold (by rw [hpt, h])
                · exact hqmem.2 h
              have h2 : q ∉ l1 ++ np :: l2 := by
                intro h
                rcases List.mem_append.mp h with h | h
                · exact hqmem.1 h
                · rcases List.mem_cons.mp h with h | h
                  · exact hqnp h
                  · exact hqmem.2 h
              simp [h1, h2]
  refine ⟨hfp2, ⟨?_, ?_, ?_⟩, ?_⟩
  · rw [hfp2]
    exact hfp2s
  · rw [hmxeq]
    exact pairwise_condDel (pairwise_condDel (pairwise_condDel
      (pairwise_condIns (pairwise_condIns pwA))))
  · intro q
    rw [hfp2]
    exact hmem_iff q
  · intro q hqnp' hqLn hqRn
    rw [main q]
    have hqnp : q ≠ np := fun he => hqnp' (he ▸ rfl)
    have hqold : pI.pt ≠ some q := by
      rw [hpt]
      intro hc
      exact hqnp' (holdarg q hc)
    have hqln : lnI.pt ≠ some q := by
      rw [hlnpt]
      intro hc
      exact hqLn q hc rfl
    have hqrn : rnI.pt ≠ some q := by
      rw [hrnpt]
      intro hc
      exact hqRn q hc rfl
    constructor
    · rintro ⟨h1, -, -, -⟩
      rcases h1 with ⟨-, hqeq⟩ | h1 | ⟨hc, -⟩ | ⟨hc, -⟩
      · exact absurd hqeq hqnp
      · exact h1
      · exact absurd hc hqln
      · exact absurd hc hqrn
    · intro hm
      refine ⟨Or.inr (Or.inl hm), ?_, ?_, ?_⟩
      · rintro ⟨hc, -⟩; exact hqold hc
      · rintro ⟨hc, -⟩; exact hqln hc
      · rintro ⟨hc, -⟩; exact hqrn hc

end FunctionMaxima

/-! ## The classification booleans equal the oracle on the post-update list -/

@[simp] theorem PointType_arg_mk {α β : Type*} (a : α) (v : β) :
    (⟨a, v⟩ : PointType α β).arg = a := rfl

@[simp] theorem PointType_value_mk {α β : Type*} (a : α) (v : β) :
    (⟨a, v⟩ : PointType α β).value = v := rfl

namespace FunctionMaxima

variable {α β : Type*} [LinearOrder α] [LinearOrder β]

theorem wilP_eq (l1 l2 : List (PointType α β)) (a : α) (v : β)
    (hb1 : ∀ y ∈ l1, y.arg < a) (hb2 : ∀ z ∈ l2, a < z.arg) :
    ((match l1.getLast? with
      | none => true
      | some L => !decide (v < L.value)) &&
     (match l2.head? with
      | none => true
      | some R => !decide (v < R.value))) =
    isMaxB (l1 ++ ⟨a, v⟩ :: l2) ⟨a, v⟩ := by
  have hL : leftNbr (l1 ++ ⟨a, v⟩ :: l2) a = l1.getLast? := by
    refine leftNbr_eq l1 _ a hb1 ?_
    intro z hz
    rcases List.mem_cons.mp hz with rfl | hz
    · simp
    · exact not_lt.mpr (le_of_lt (hb2 z hz))
  have hR : rightNbr (l1 ++ ⟨a, v⟩ :: l2) a = l2.head? := by
    have hsp : l1 ++ ⟨a, v⟩ :: l2 = (l1 ++ [⟨a, v⟩]) ++ l2 := by simp
    rw [hsp]
    refine rightNbr_eq _ l2 a ?_ hb2
    intro y hy
    rcases List.mem_append.mp hy with hy | hy
    · exact not_lt.mpr (le_of_lt (hb1 y hy))
    · simp only [List.mem_singleton] at hy
      subst hy
      simp
  unfold isMaxB
  simp only [PointType_arg_mk, PointType_value_mk, hL, hR]
  cases l1.getLast? <;> cases l2.head? <;> simp [Option.all]

theorem wilLn_eq (l1 l2 mid : List (PointType α β)) (a : α) (v : β)
    (L : PointType α β)
    (hl1 : l1.Pairwise argLt)
    (hb1 : ∀ y ∈ l1, y.arg < a) (hb2 : ∀ z ∈ l2, a < z.arg)
    (hmid : ∀ m ∈ mid, m.arg = a)
    (hL : l1.getLast? = some L) :
    ((match itPred (l1 ++ mid ++ l2) L with
      | none => true
      | some LL => !decide (L.value < LL.value)) &&
     !decide (L.value < v)) =
    isMaxB (l1 ++ ⟨a, v⟩ :: l2) L := by
  obtain ⟨l1', hsp⟩ := getLast?_decomp hL
  have hl1x : ∀ y ∈ l1', y.arg < L.arg := by
    intro y hy
    rw [hsp] at hl1
    obtain ⟨-, -, hc⟩ := List.pairwise_append.mp hl1
    exact hc y hy L (List.mem_cons_self L [])
  have hLa : L.arg < a := hb1 L (getLast?_mem hL)
  have hne : ∀ y ∈ l1', y ≠ L :=
    fun y hy he => absurd (he ▸ hl1x y hy) (lt_irrefl _)
  have hitp : itPred (l1 ++ mid ++ l2) L = l1'.getLast? := by
    rw [hsp]
    have hx : (l1' ++ [L]) ++ mid ++ l2 = l1' ++ L :: (mid ++ l2) := by simp
    rw [hx, itPred_eq l1' (mid ++ l2) L hne]
  have hlft : leftNbr (l1 ++ ⟨a, v⟩ :: l2) L.arg = l1'.getLast? := by
    rw [hsp]
    have hx : (l1' ++ [L]) ++ ⟨a, v⟩ :: l2 = l1' ++ (L :: ⟨a, v⟩ :: l2) := by simp
    rw [hx]
    refine leftNbr_eq l1' _ L.arg hl1x ?_
    intro z hz
    rcases List.mem_cons.mp hz with rfl | hz
    · exact lt_irrefl _
    · rcases List.mem_cons.mp hz with rfl | hz
      · simp only [PointType_arg_mk]
        exact not_lt.mpr (le_of_lt hLa)
      · exact not_lt.mpr (le_of_lt (hLa.trans (hb2 z hz)))
  have hrgt : rightNbr (l1 ++ ⟨a, v⟩ :: l2) L.arg = some ⟨a, v⟩ := by
    have h2 : ∀ z ∈ (⟨a, v⟩ : PointType α β) :: l2, L.arg < z.arg := by
      intro z hz
      rcases List.mem_cons.mp hz with rfl | hz
      · simpa using hLa
      · exact hLa.trans (hb2 z hz)
    have h1 : ∀ y ∈ l1, ¬ L.arg < y.arg := by
      intro y hy
      rw [hsp] at hy
      rcases List.mem_append.mp hy with hy | hy
      · exact not_lt.mpr (le_of_lt (hl1x y hy))
      · simp only [List.mem_singleton] at hy
        subst hy
        exact lt_irrefl _
    rw [rightNbr_eq l1 _ L.arg h1 h2]
    rfl
  unfold isMaxB
  simp only [hitp, hlft, hrgt]
  cases l1'.getLast? <;> simp [Option.all]

theorem wilRn_eq (l1 l2 mid : List (PointType α β)) (a : α) (v : β)
    (R : PointType α β)
    (hl2 : l2.Pairwise argLt)
    (hb1 : ∀ y ∈ l1, y.arg < a) (hb2 : ∀ z ∈ l2, a < z.arg)
    (hmid : ∀ m ∈ mid, m.arg = a)
    (hR : l2.head? = some R) :
    ((!decide (R.value < v)) &&
     (match itSucc (l1 ++ mid ++ l2) R with
      | none => true
      | some RR => !decide (R.value < RR.value))) =
    isMaxB (l1 ++ ⟨a, v⟩ :: l2) R := by
  obtain ⟨l2', hsp⟩ := head?_decomp hR
  have hl2x : ∀ z ∈ l2', R.arg < z.arg := by
    rw [hsp] at hl2
    exact (List.pairwise_cons.mp hl2).1
  have haR : a < R.arg := hb2 R (head?_mem hR)
  have hits : itSucc (l1 ++ mid ++ l2) R = l2'.head? := by
    rw [hsp]
    have hx : l1 ++ mid ++ R :: l2' = (l1 ++ mid) ++ R :: l2' := by simp
    rw [hx, itSucc_eq (l1 ++ mid) l2' R ?_]
    intro y hy he
    rcases List.mem_append.mp hy with hy | hy
    · exact absurd (he ▸ hb1 y hy) (not_lt.mpr (le_of_lt haR))
    · exact absurd ((hmid y hy) ▸ he ▸ haR) (lt_irrefl _)
  have hlft : leftNbr (l1 ++ ⟨a, v⟩ :: l2) R.arg = some ⟨a, v⟩ := by
    rw [hsp]
    have hx : l1 ++ ⟨a, v⟩ :: R :: l2' = (l1 ++ [⟨a, v⟩]) ++ R :: l2' := by simp
    rw [hx]
    have h1 : ∀ y ∈ l1 ++ [⟨a, v⟩], y.arg < R.arg := by
      intro y hy
      rcases List.mem_append.mp hy with hy | hy
      · exact (hb1 y hy).trans haR
      · simp only [List.mem_singleton] at hy
        subst hy
        simpa using haR
    have h2 : ∀ z ∈ R :: l2', ¬ z.arg < R.arg := by
      intro z hz
      rcases List.mem_cons.mp hz with rfl | hz
      · exact lt_irrefl _
      · exact not_lt.mpr (le_of_lt (hl2x z hz))
    rw [leftNbr_eq _ _ R.arg h1 h2, List.getLast?_concat]
  have hrgt : rightNbr (l1 ++ ⟨a, v⟩ :: l2) R.arg = l2'.head? := by
    rw [hsp]
    have hx : l1 ++ ⟨a, v⟩ :: R :: l2' = (l1 ++ [⟨a, v⟩] ++ [R]) ++ l2' := by simp
    rw [hx]
    have h1 : ∀ y ∈ l1 ++ [⟨a, v⟩] ++ [R], ¬ R.arg < y.arg := by
      intro y hy
      rcases List.mem_append.mp hy with hy | hy
      · rcases List.mem_append.mp hy with hy | hy
        · exact not_lt.mpr (le_of_lt ((hb1 y hy).trans haR))
        · simp only [List.mem_singleton] at hy
          subst hy
          simp only [PointType_arg_mk]
          exact not_lt.mpr (le_of_lt haR)
      · simp only [List.mem_singleton] at hy
        subst hy
        exact lt_irrefl _
    rw [rightNbr_eq _ _ R.arg h1 hl2x]
  unfold isMaxB
  simp only [hits, hlft, hrgt]
  cases l2'.head? <;> simp [Option.all]

end FunctionMaxima

/-! ## Full specification of `set_value` on a valid state -/

namespace FunctionMaxima

variable {α β : Type*} [LinearOrder α] [LinearOrder β]

set_option maxHeartbeats 1600000 in
theorem set_value_spec (s : FunctionMaxima α β) (hv : Valid s) (a : α) (v : β) :
    Valid (set_value s a v) ∧
    (∀ q : PointType α β, q.arg ≠ a →
      (∀ L, (get_info_for_set_value s a v).2.1.pt = some L → q.arg ≠ L.arg) →
      (∀ R, (get_info_for_set_value s a v).2.2.pt = some R → q.arg ≠ R.arg) →
      (q ∈ (set_value s a v).local_maxima ↔ q ∈ s.local_maxima)) ∧
    (check_whether_the_same s a v = false →
      ∃ l1 l2, s.function_points = l1 ++ (findA a s.function_points).toList ++ l2 ∧
        (set_value s a v).function_points = l1 ++ ⟨a, v⟩ :: l2 ∧
        (∀ y ∈ l1, y.arg < a) ∧ (∀ z ∈ l2, a < z.arg)) := by
  by_cases hsame : check_whether_the_same s a v = true
  · have hs : set_value s a v = s := by unfold set_value; rw [if_pos hsame]
    rw [hs]
    exact ⟨hv, fun q _ _ _ => Iff.rfl, fun hf => absurd hsame (by rw [hf]; simp)⟩
  · have hsame' : check_whether_the_same s a v = false := by
      cases h : check_whether_the_same s a v
      · rfl
      · exact absurd h hsame
    have hsv : set_value s a v = set_value_aux s (get_info_for_set_value s a v).1
        (get_info_for_set_value s a v).2.1 (get_info_for_set_value s a v).2.2 ⟨a, v⟩ := by
      unfold set_value
      rw [if_neg hsame]
    cases hfind : findA a s.function_points with
    | some p0 =>
      obtain ⟨l1, l2, hdec, hparg, hb1, hb2, hip, his⟩ := findA_decomp hv.fp_sorted hfind
      have hl1 : l1.Pairwise argLt := by
        have h0 := hv.fp_sorted
        rw [hdec] at h0
        exact (List.pairwise_append.mp h0).1
      have hvne : p0.value ≠ v := by
        have hsame2 : (!decide (v < p0.value) && !decide (p0.value < v)) = false := by
          have h3 := hsame'
          unfold check_whether_the_same at h3
          rw [hfind] at h3
          exact h3
        intro he
        rw [he] at hsame2
        simp at hsame2
      have hinfo : get_info_for_set_value s a v =
        (⟨some p0, mxMem s.local_maxima p0,
          (match itPred s.function_points p0 with
            | none => true
            | some L => !decide (v < L.value)) &&
          (match itSucc s.function_points p0 with
            | none => true
            | some R => !decide (v < R.value))⟩,
         ⟨itPred s.function_points p0,
          (match itPred s.function_points p0 with
            | some L => mxMem s.local_maxima L
            | none => false),
          (match itPred s.function_points p0 with
            | none => false
            | some L =>
              (match itPred s.function_points L with
                | none => true
                | some LL => !decide (L.value < LL.value)) &&
              !decide (L.value < v))⟩,
         ⟨itSucc s.function_points p0,
          (match itSucc s.function_points p0 with
            | some R => mxMem s.local_maxima R
            | none => false),
          (match itSucc s.function_points p0 with
            | none => false
            | some R =>
              !decide (R.value < v) &&
              (match itSucc s.function_points R with
                | none => true
                | some RR => !decide (R.value < RR.value)))⟩) := by
        simp only [get_info_for_set_value, hfind]
        rfl
      have hmid1 : l1 ++ (some p0).toList ++ l2 = l1 ++ p0 :: l2 := by simp
      have hmidargs : ∀ m ∈ [p0], m.arg = a := by
        intro m hm
        simp only [List.mem_singleton] at hm
        exact hm ▸ hparg
      obtain ⟨hfp2, hvalid, hframe⟩ := set_value_aux_spec s hv l1 l2 (some p0) ⟨a, v⟩
        ⟨some p0, mxMem s.local_maxima p0,
          (match itPred s.function_points p0 with
            | none => true
            | some L => !decide (v < L.value)) &&
          (match itSucc s.function_points p0 with
            | none => true
            | some R => !decide (v < R.value))⟩
        ⟨itPred s.function_points p0,
          (match itPred s.function_points p0 with
            | some L => mxMem s.local_maxima L
            | none => false),
          (match itPred s.function_points p0 with
            | none => false
            | some L =>
              (match itPred s.function_points L with
                | none => true
                | some LL => !decide (L.value < LL.value)) &&
              !decide (L.value < v))⟩
        ⟨itSucc s.function_points p0,
          (match itSucc s.function_points p0 with
            | some R => mxMem s.local_maxima R
            | none => false),
          (match itSucc s.function_points p0 with
            | none => false
            | some R =>
              !decide (R.value < v) &&
              (match itSucc s.function_points R with
                | none => true
                | some RR => !decide (R.value < RR.value)))⟩
        (by rw [hmid1]; exact hdec)
        (by simpa using hb1) (by simpa using hb2)
        (by intro p h
            injection h with h2
            subst h2
            simpa using hparg)
        (by intro p h
            injection h with h2
            subst h2
            intro he
            exact hvne (by rw [he]))
        rfl
        (by intro p h
            injection h with h2
            subst h2
            exact mxMem_iff)
        (by rw [hip, his]
            exact wilP_eq l1 l2 a v hb1 hb2)
        hip
        (by intro L hL
            show (match itPred s.function_points p0 with
              | some L => mxMem s.local_maxima L
              | none => false) = true ↔ L ∈ s.local_maxima
            rw [hip, hL]
            exact mxMem_iff)
        (by intro L hL
            show (match itPred s.function_points p0 with
              | none => false
              | some L =>
                (match itPred s.function_points L with
                  | none => true
                  | some LL => !decide (L.value < LL.value)) &&
                !decide (L.value < v)) = isMaxB (l1 ++ ⟨a, v⟩ :: l2) L
            rw [hip, hL]
            have hx : s.function_points = l1 ++ [p0] ++ l2 := by
              rw [hdec]; simp
            rw [hx]
            exact wilLn_eq l1 l2 [p0] a v L hl1 hb1 hb2 hmidargs hL)
        his
        (by intro R hR
            show (match itSucc s.function_points p0 with
              | some R => mxMem s.local_maxima R
              | none => false) = true ↔ R ∈ s.local_maxima
            rw [his, hR]
            exact mxMem_iff)
        (by intro R hR
            show (match itSucc s.function_points p0 with
              | none => false
              | some R =>
                !decide (R.value < v) &&
                (match itSucc s.function_points R with
                  | none => true
                  | some RR => !decide (R.value < RR.value))) = isMaxB (l1 ++ ⟨a, v⟩ :: l2) R
            rw [his, hR]
            have hl2 : l2.Pairwise argLt := by
              have h0 := hv.fp_sorted
              rw [hdec] at h0
              exact (List.pairwise_cons.mp (List.pairwise_append.mp h0).2.1).2
            have hx : s.function_points = l1 ++ [p0] ++ l2 := by
              rw [hdec]; simp
            rw [hx]
            exact wilRn_eq l1 l2 [p0] a v R hl2 hb1 hb2 hmidargs hR)
      refine ⟨?_, ?_, ?_⟩
      · rw [hsv, hinfo]
        exact hvalid
      · intro q hq1 hq2 hq3
        rw [hsv, hinfo]
        refine hframe q (by simpa using hq1) ?_ ?_
        · intro L hL
          exact hq2 L (by rw [hinfo]
                          show itPred s.function_points p0 = some L
                          rw [hip]; exact hL)
        · intro R hR
          exact hq3 R (by rw [hinfo]
                          show itSucc s.function_points p0 = some R
                          rw [his]; exact hR)
      · intro _
        refine ⟨l1, l2, ?_, ?_, hb1, hb2⟩
        · rw [hmid1]
          exact hdec
        · rw [hsv, hinfo]
          exact hfp2
    | none =>
      obtain ⟨l1, l2, hsplit, hb1, hb2, hlb, hlbd⟩ := fresh_decomp v hv.fp_sorted hfind
      have hl1 : l1.Pairwise argLt := by
        have h0 := hv.fp_sorted
        rw [hsplit] at h0
        exact (List.pairwise_append.mp h0).1
      have hl2 : l2.Pairwise argLt := by
        have h0 := hv.fp_sorted
        rw [hsplit] at h0
        exact (List.pairwise_append.mp h0).2.1
      have hlneq : (if s.function_points = [] then none
          else lbPred s.function_points ⟨a, v⟩) = l1.getLast? := by
        by_cases h : s.function_points = []
        · rw [if_pos h]
          have hl1nil : l1 = [] := by
            rw [h] at hsplit
            exact (List.append_eq_nil.mp hsplit.symm).1
          rw [hl1nil]
          rfl
        · rw [if_neg h]
          exact hlb
      have hrneq : (if s.function_points = [] then none
          else lowerBoundFP s.function_points ⟨a, v⟩) = l2.head? := by
        by_cases h : s.function_points = []
        · rw [if_pos h]
          have hl2nil : l2 = [] := by
            rw [h] at hsplit
            exact (List.append_eq_nil.mp hsplit.symm).2
          rw [hl2nil]
          rfl
        · rw [if_neg h]
          exact hlbd
      have hinfo : get_info_for_set_value s a v =
        (⟨none, false,
          (match (if s.function_points = [] then none
              else lbPred s.function_points ⟨a, v⟩) with
            | none => true
            | some L => !decide (v < L.value)) &&
          (match (if s.function_points = [] then none
              else lowerBoundFP s.function_points ⟨a, v⟩) with
            | none => true
            | some R => !decide (v < R.value))⟩,
         ⟨(if s.function_points = [] then none
            else lbPred s.function_points ⟨a, v⟩),
          (match (if s.function_points = [] then none
              else lbPred s.function_points ⟨a, v⟩) with
            | some L => mxMem s.local_maxima L
            | none => false),
          (match (if s.function_points = [] then none
              else lbPred s.function_points ⟨a, v⟩) with
            | none => false
            | some L =>
              (match itPred s.function_points L with
                | none => true
                | some LL => !decide (L.value < LL.value)) &&
              !decide (L.value < v))⟩,
         ⟨(if s.function_points = [] then none
            else lowerBoundFP s.function_points ⟨a, v⟩),
          (match (if s.function_points = [] then none
              else lowerBoundFP s.function_points ⟨a, v⟩) with
            | some R => mxMem s.local_maxima R
            | none => false),
          (match (if s.function_points = [] then none
              else lowerBoundFP s.function_points ⟨a, v⟩) with
            | none => false
            | some R =>
              !decide (R.value < v) &&
              (match itSucc s.function_points R with
                | none => true
                | some RR => !decide (R.value < RR.value)))⟩) := by
        simp only [get_info_for_set_value, hfind]
      have hmid1 : l1 ++ (none : Option (PointType α β)).toList ++ l2 = l1 ++ l2 := by simp
      have hmidargs : ∀ m ∈ ([] : List (PointType α β)), m.arg = a := by
        intro m hm
        cases hm
      obtain ⟨hfp2, hvalid, hframe⟩ := set_value_aux_spec s hv l1 l2 none ⟨a, v⟩
        ⟨none, false,
          (match (if s.function_points = [] then none
              else lbPred s.function_points ⟨a, v⟩) with
            | none => true
            | some L => !decide (v < L.value)) &&
          (match (if s.function_points = [] then none
              else lowerBoundFP s.function_points ⟨a, v⟩) with
            | none => true
            | some R => !decide (v < R.value))⟩
        ⟨(if s.function_points = [] then none
            else lbPred s.function_points ⟨a, v⟩),
          (match (if s.function_points = [] then none
              else lbPred s.function_points ⟨a, v⟩) with
            | some L => mxMem s.local_maxima L
            | none => false),
          (match (if s.function_points = [] then none
              else lbPred s.function_points ⟨a, v⟩) with
            | none => false
            | some L =>
              (match itPred s.function_points L with
                | none => true
                | some LL => !decide (L.value < LL.value)) &&
              !decide (L.value < v))⟩
        ⟨(if s.function_points = [] then none
            else lowerBoundFP s.function_points ⟨a, v⟩),
          (match (if s.function_points = [] then none
              else lowerBoundFP s.function_points ⟨a, v⟩) with
            | some R => mxMem s.local_maxima R
            | none => false),
          (match (if s.function_points = [] then none
              else lowerBoundFP s.function_points ⟨a, v⟩) with
            | none => false
            | some R =>
              !decide (R.value < v) &&
              (match itSucc s.function_points R with
                | none => true
                | some RR => !decide (R.value < RR.value)))⟩
        (by rw [hmid1]; exact hsplit)
        (by simpa using hb1) (by simpa using hb2)
        (by rintro p h; cases h)
        (by rintro p h; cases h)
        rfl
        (by rintro p h; cases h)
        (by rw [hlneq, hrneq]
            exact wilP_eq l1 l2 a v hb1 hb2)
        hlneq
        (by intro L hL
            show (match (if s.function_points = [] then none
                else lbPred s.function_points ⟨a, v⟩) with
              | some L => mxMem s.local_maxima L
              | none => false) = true ↔ L ∈ s.local_maxima
            rw [hlneq, hL]
            exact mxMem_iff)
        (by intro L hL
            show (match (if s.function_points = [] then none
                else lbPred s.function_points ⟨a, v⟩) with
              | none => false
              | some L =>
                (match itPred s.function_points L with
                  | none => true
                  | some LL => !decide (L.value < LL.value)) &&
                !decide (L.value < v)) = isMaxB (l1 ++ ⟨a, v⟩ :: l2) L
            rw [hlneq, hL]
            have hx : s.function_points = l1 ++ [] ++ l2 := by
              rw [hsplit]; simp
            rw [hx]
            exact wilLn_eq l1 l2 [] a v L hl1 hb1 hb2 hmidargs hL)
        hrneq
        (by intro R hR
            show (match (if s.function_points = [] then none
                else lowerBoundFP s.function_points ⟨a, v⟩) with
              | some R => mxMem s.local_maxima R
              | none => false) = true ↔ R ∈ s.local_maxima
            rw [hrneq, hR]
            exact mxMem_iff)
        (by intro R hR
            show (match (if s.function_points = [] then none
                else lowerBoundFP s.function_points ⟨a, v⟩) with
              | none => false
              | some R =>
                !decide (R.value < v) &&
                (match itSucc s.function_points R with
                  | none => true
                  | some RR => !decide (R.value < RR.value))) = isMaxB (l1 ++ ⟨a, v⟩ :: l2) R
            rw [hrneq, hR]
            have hx : s.function_points = l1 ++ [] ++ l2 := by
              rw [hsplit]; simp
            rw [hx]
            exact wilRn_eq l1 l2 [] a v R hl2 hb1 hb2 hmidargs hR)
      refine ⟨?_, ?_, ?_⟩
      · rw [hsv, hinfo]
        exact hvalid
      · intro q hq1 hq2 hq3
        rw [hsv, hinfo]
        refine hframe q (by simpa using hq1) ?_ ?_
        · intro L hL
          exact hq2 L (by rw [hinfo]
                          show (if s.function_points = [] then none
                            else lbPred s.function_points ⟨a, v⟩) = some L
                          rw [hlneq]; exact hL)
        · intro R hR
          exact hq3 R (by rw [hinfo]
                          show (if s.function_points = [] then none
                            else lowerBoundFP s.function_points ⟨a, v⟩) = some R
                          rw [hrneq]; exact hR)
      · intro _
        refine ⟨l1, l2, ?_, ?_, hb1, hb2⟩
        · rw [hmid1]
          exact hsplit
        · rw [hsv, hinfo]
          exact hfp2

end FunctionMaxima

/-! ## The erase path: classification equals the oracle on the shortened list -/

namespace FunctionMaxima

variable {α β : Type*} [LinearOrder α] [LinearOrder β]

theorem eWilLn_eq (l1 l2 mid : List (PointType α β)) (a : α)
    (L : PointType α β)
    (hl1 : l1.Pairwise argLt)
    (hb1 : ∀ y ∈ l1, y.arg < a) (hb2 : ∀ z ∈ l2, a < z.arg)
    (hL : l1.getLast? = some L) :
    ((match itPred (l1 ++ mid ++ l2) L with
      | none => true
      | some LL => !decide (L.value < LL.value)) &&
     (match l2.head? with
      | none => true
      | some R => !decide (L.value < R.value))) =
    isMaxB (l1 ++ l2) L := by
  obtain ⟨l1', hsp⟩ := getLast?_decomp hL
  have hl1x : ∀ y ∈ l1', y.arg < L.arg := by
    intro y hy
    rw [hsp] at hl1
    obtain ⟨-, -, hc⟩ := List.pairwise_append.mp hl1
    exact hc y hy L (List.mem_cons_self L [])
  have hLa : L.arg < a := hb1 L (getLast?_mem hL)
  have hne : ∀ y ∈ l1', y ≠ L :=
    fun y hy he => absurd (he ▸ hl1x y hy) (lt_irrefl _)
  have hitp : itPred (l1 ++ mid ++ l2) L = l1'.getLast? := by
    rw [hsp]
    have hx : (l1' ++ [L]) ++ mid ++ l2 = l1' ++ L :: (mid ++ l2) := by simp
    rw [hx, itPred_eq l1' (mid ++ l2) L hne]
  have hlft : leftNbr (l1 ++ l2) L.arg = l1'.getLast? := by
    rw [hsp]
    have hx : (l1' ++ [L]) ++ l2 = l1' ++ (L :: l2) := by simp
    rw [hx]
    refine leftNbr_eq l1' _ L.arg hl1x ?_
    intro z hz
    rcases List.mem_cons.mp hz with rfl | hz
    · exact lt_irrefl _
    · exact not_lt.mpr (le_of_lt (hLa.trans (hb2 z hz)))
  have hrgt : rightNbr (l1 ++ l2) L.arg = l2.head? := by
    refine rightNbr_eq l1 l2 L.arg ?_ ?_
    · intro y hy
      rw [hsp] at hy
      rcases List.mem_append.mp hy with hy | hy
      · exact not_lt.mpr (le_of_lt (hl1x y hy))
      · simp only [List.mem_singleton] at hy
        subst hy
        exact lt_irrefl _
    · intro z hz
      exact hLa.trans (hb2 z hz)
  unfold isMaxB
  simp only [hitp, hlft, hrgt]
  cases l1'.getLast? <;> cases l2.head? <;> simp [Option.all]

theorem eWilRn_eq (l1 l2 mid : List (PointType α β)) (a : α)
    (R : PointType α β)
    (hl2 : l2.Pairwise argLt)
    (hb1 : ∀ y ∈ l1, y.arg < a) (hb2 : ∀ z ∈ l2, a < z.arg)
    (hmid : ∀ m ∈ mid, m.arg = a)
    (hR : l2.head? = some R) :
    ((match l1.getLast? with
      | none => true
      | some L => !decide (R.value < L.value)) &&
     (match itSucc (l1 ++ mid ++ l2) R with
      | none => true
      | some RR => !decide (R.value < RR.value))) =
    isMaxB (l1 ++ l2) R := by
  obtain ⟨l2', hsp⟩ := head?_decomp hR
  have hl2x : ∀ z ∈ l2', R.arg < z.arg := by
    rw [hsp] at hl2
    exact (List.pairwise_cons.mp hl2).1
  have haR : a < R.arg := hb2 R (head?_mem hR)
  have hits : itSucc (l1 ++ mid ++ l2) R = l2'.head? := by
    rw [hsp]
    have hx : l1 ++ mid ++ R :: l2' = (l1 ++ mid) ++ R :: l2' := by simp
    rw [hx, itSucc_eq (l1 ++ mid) l2' R ?_]
    intro y hy he
    rcases List.mem_append.mp hy with hy | hy
    · exact absurd (he ▸ hb1 y hy) (not_lt.mpr (le_of_lt haR))
    · exact absurd ((hmid y hy) ▸ he ▸ haR) (lt_irrefl _)
  have hlft : leftNbr (l1 ++ l2) R.arg = l1.getLast? := by
    rw [hsp]
    refine leftNbr_eq l1 _ R.arg (fun y hy => (hb1 y hy).trans haR) ?_
    intro z hz
    rcases List.mem_cons.mp hz with rfl | hz
    · exact lt_irrefl _
    · exact not_lt.mpr (le_of_lt (hl2x z hz))
  have hrgt : rightNbr (l1 ++ l2) R.arg = l2'.head? := by
    rw [hsp]
    have hx : l1 ++ R :: l2' = (l1 ++ [R]) ++ l2' := by simp
    rw [hx]
    refine rightNbr_eq _ l2' R.arg ?_ hl2x
    intro y hy
    rcases List.mem_append.mp hy with hy | hy
    · exact not_lt.mpr (le_of_lt ((hb1 y hy).trans haR))
    · simp only [List.mem_singleton] at hy
      subst hy
      exact lt_irrefl _
  unfold isMaxB
  simp only [hits, hlft, hrgt]
  cases l1.getLast? <;> cases l2'.head? <;> simp [Option.all]

end FunctionMaxima

/-! ## The update sequence of `erase` preserves the invariant -/

namespace FunctionMaxima

variable {α β : Type*} [LinearOrder α] [LinearOrder β]

set_option maxHeartbeats 1600000 in
theorem erase_aux_spec (s : FunctionMaxima α β) (hv : Valid s)
    (l1 l2 : List (PointType α β)) (p : PointType α β) (pI lnI rnI : Info α β)
    (hfp : s.function_points = l1 ++ p :: l2)
    (hb1 : ∀ y ∈ l1, y.arg < p.arg)
    (hb2 : ∀ z ∈ l2, p.arg < z.arg)
    (hpt : pI.pt = some p)
    (hpw : pI.wasMax = true ↔ p ∈ s.local_maxima)
    (hlnpt : lnI.pt = l1.getLast?)
    (hlnw : ∀ L, l1.getLast? = some L → (lnI.wasMax = true ↔ L ∈ s.local_maxima))
    (hlnl : ∀ L, l1.getLast? = some L → lnI.willMax = isMaxB (l1 ++ l2) L)
    (hrnpt : rnI.pt = l2.head?)
    (hrnw : ∀ R, l2.head? = some R → (rnI.wasMax = true ↔ R ∈ s.local_maxima))
    (hrnl : ∀ R, l2.head? = some R → rnI.willMax = isMaxB (l1 ++ l2) R) :
    (erase_aux s pI lnI rnI).function_points = l1 ++ l2 ∧
    Valid (erase_aux s pI lnI rnI) ∧
    ∀ q : PointType α β, q.arg ≠ p.arg →
      (∀ L, l1.getLast? = some L → q.arg ≠ L.arg) →
      (∀ R, l2.head? = some R → q.arg ≠ R.arg) →
      (q ∈ (erase_aux s pI lnI rnI).local_maxima ↔ q ∈ s.local_maxima) := by
  have hfps := hv.fp_sorted
  rw [hfp] at hfps
  obtain ⟨hl1, hrest, hcross⟩ := List.pairwise_append.mp hfps
  obtain ⟨hpl2, hl2⟩ := List.pairwise_cons.mp hrest
  have hfp2s : (l1 ++ l2).Pairwise argLt := by
    rw [List.pairwise_append]
    exact ⟨hl1, hl2, fun y hy z hz => (hb1 y hy).trans (hb2 z hz)⟩
  have hp_l1 : p ∉ l1 := fun h => lt_irrefl _ (hb1 p h)
  have hp_l2 : p ∉ l2 := fun h => lt_irrefl _ (hb2 p h)
  have hLfacts : ∀ L, l1.getLast? = some L → L ∈ l1 ∧ L.arg < p.arg :=
    fun L hL => ⟨getLast?_mem hL, hb1 L (getLast?_mem hL)⟩
  have hRfacts : ∀ R, l2.head? = some R → R ∈ l2 ∧ p.arg < R.arg :=
    fun R hR => ⟨head?_mem hR, hb2 R (head?_mem hR)⟩
  have hlnp : lnI.pt ≠ some p := by
    rw [hlnpt]
    intro h
    exact lt_irrefl _ (hLfacts p h).2
  have hrnp : rnI.pt ≠ some p := by
    rw [hrnpt]
    intro h
    exact lt_irrefl _ (hRfacts p h).2
  have hfp2 : (erase_aux s pI lnI rnI).function_points = l1 ++ l2 := by
    show (match pI.pt with
      | some x => sErase fpLt x s.function_points
      | none => s.function_points) = l1 ++ l2
    rw [hpt]
    show sErase fpLt p s.function_points = l1 ++ l2
    rw [hfp, sErase_append p l1 _
      (fun y hy => Or.inr (fpLt_of_argLt (hb1 y hy))),
      sErase_cons, if_pos ⟨fpLt_irrefl p, fpLt_irrefl p⟩]
  have hmxeq : (erase_aux s pI lnI rnI).local_maxima =
      condDel rnI.pt (rnI.wasMax && !rnI.willMax)
        (condDel lnI.pt (lnI.wasMax && !lnI.willMax)
          (condDel pI.pt pI.wasMax
            (condIns rnI.pt (!rnI.wasMax && rnI.willMax)
              (condIns lnI.pt (!lnI.wasMax && lnI.willMax)
                s.local_maxima)))) := rfl
  have main : ∀ q : PointType α β,
      q ∈ (erase_aux s pI lnI rnI).local_maxima ↔
        ((q ∈ s.local_maxima ∨
          (lnI.pt = some q ∧ (!lnI.wasMax && lnI.willMax) = true) ∨
          (rnI.pt = some q ∧ (!rnI.wasMax && rnI.willMax) = true)) ∧
         ¬ (pI.pt = some q ∧ pI.wasMax = true) ∧
         ¬ (lnI.pt = some q ∧ (lnI.wasMax && !lnI.willMax) = true) ∧
         ¬ (rnI.pt = some q ∧ (rnI.wasMax && !rnI.willMax) = true)) := by
    intro q
    rw [hmxeq,
      mem_condDel (pairwise_condDel (pairwise_condDel
        (pairwise_condIns (pairwise_condIns hv.mx_sorted)))),
      mem_condDel (pairwise_condDel (pairwise_condIns
        (pairwise_condIns hv.mx_sorted))),
      mem_condDel (pairwise_condIns (pairwise_condIns hv.mx_sorted)),
      mem_condIns, mem_condIns]
    tauto
  have hmem_iff : ∀ q, q ∈ (erase_aux s pI lnI rnI).local_maxima ↔
      (q ∈ l1 ++ l2 ∧ isMaxB (l1 ++ l2) q = true) := by
    intro q
    rw [main q]
    by_cases hqp : pI.pt = some q
    · -- q is the erased point
      rw [hpt] at hqp
      injection hqp with hqp
      subst hqp
      have hq_not : p ∉ l1 ++ l2 := by
        intro h
        rcases List.mem_append.mp h with h | h
        · exact hp_l1 h
        · exact hp_l2 h
      constructor
      · rintro ⟨h1, h2, -, -⟩
        exfalso
        have hwasfalse : ¬ pI.wasMax = true := fun hw => h2 ⟨hpt, hw⟩
        have hqmx : p ∉ s.local_maxima := fun hm => hwasfalse (hpw.mpr hm)
        rcases h1 with h1 | ⟨hc, -⟩ | ⟨hc, -⟩
        · exact hqmx h1
        · exact hlnp hc
        · exact hrnp hc
      · rintro ⟨hmem, -⟩
        exact absurd hmem hq_not
    · by_cases hqln : lnI.pt = some q
      · -- q is the left neighbor
        rw [hlnpt] at hqln
        have hqL := hLfacts q hqln
        have hnotrn : rnI.pt ≠ some q := by
          rw [hrnpt]
          intro hc
          exact absurd (hqL.2.trans (hRfacts q hc).2) (lt_irrefl _)
        have hql1 : q ∈ l1 ++ l2 := List.mem_append_left _ hqL.1
        have hmaxeq := hlnl q hqln
        have hwas := hlnw q hqln
        constructor
        · rintro ⟨h1, -, h3, -⟩
          refine ⟨hql1, ?_⟩
          rw [← hmaxeq]
          have h3' : ¬ (lnI.wasMax && !lnI.willMax) = true :=
            fun hb => h3 ⟨hlnpt.trans hqln, hb⟩
          rcases h1 with h1 | ⟨-, hb⟩ | ⟨hc, -⟩
          · have hw := hwas.mpr h1
            cases hwil : lnI.willMax
            · exact absurd (by rw [hw, hwil]; rfl) h3'
            · rfl
          · cases hwil : lnI.willMax
            · rw [hwil] at hb; simp at hb
            · rfl
          · exact absurd hc hnotrn
        · rintro ⟨-, hmax⟩
          have hwil : lnI.willMax = true := hmaxeq.trans hmax
          refine ⟨?_, ?_, ?_, ?_⟩
          · by_cases hw : lnI.wasMax = true
            · exact Or.inl (hwas.mp hw)
            · refine Or.inr (Or.inl ⟨hlnpt.trans hqln, ?_⟩)
              cases hwb : lnI.wasMax
              · rw [hwil]; rfl
              · exact absurd hwb hw
          · rintro ⟨hc, -⟩; exact hqp hc
          · rintro ⟨-, hb⟩
            rw [hwil] at hb
            simp at hb
          · rintro ⟨hc, -⟩; exact hnotrn hc
      · by_cases hqrn : rnI.pt = some q
        · -- q is the right neighbor
          rw [hrnpt] at hqrn
          have hqR := hRfacts q hqrn
          have hql2 : q ∈ l1 ++ l2 := List.mem_append_right _ hqR.1
          have hmaxeq := hrnl q hqrn
          have hwas := hrnw q hqrn
          constructor
          · rintro ⟨h1, -, -, h4⟩
            refine ⟨hql2, ?_⟩
            rw [← hmaxeq]
            have h4' : ¬ (rnI.wasMax && !rnI.willMax) = true :=
              fun hb => h4 ⟨hrnpt.trans hqrn, hb⟩
            rcases h1 with h1 | ⟨hc, -⟩ | ⟨-, hb⟩
            · have hw := hwas.mpr h1
              cases hwil : rnI.willMax
              · exact absurd (by rw [hw, hwil]; rfl) h4'
              · rfl
            · exact absurd hc hqln
            · cases hwil : rnI.willMax
              · rw [hwil] at hb; simp at hb
              · rfl
          · rintro ⟨-, hmax⟩
            have hwil : rnI.willMax = true := hmaxeq.trans hmax
            refine ⟨?_, ?_, ?_, ?_⟩
            · by_cases hw : rnI.wasMax = true
              · exact Or.inl (hwas.mp hw)
              · refine Or.inr (Or.inr ⟨hrnpt.trans hqrn, ?_⟩)
                cases hwb : rnI.wasMax
                · rw [hwil]; rfl
                · exact absurd hwb hw
            · rintro ⟨hc, -⟩; exact hqp hc
            · rintro ⟨hc, -⟩; exact hqln hc
            · rintro ⟨-, hb⟩
              rw [hwil] at hb
              simp at hb
        · -- q is none of the affected points
          have hF : ((q ∈ s.local_maxima ∨
                (lnI.pt = some q ∧ (!lnI.wasMax && lnI.willMax) = true) ∨
                (rnI.pt = some q ∧ (!rnI.wasMax && rnI.willMax) = true)) ∧
               ¬ (pI.pt = some q ∧ pI.wasMax = true) ∧
               ¬ (lnI.pt = some q ∧ (lnI.wasMax && !lnI.willMax) = true) ∧
               ¬ (rnI.pt = some q ∧ (rnI.wasMax && !rnI.willMax) = true)) ↔
              q ∈ s.local_maxima := by
            constructor
            · rintro ⟨h1, -, -, -⟩
              rcases h1 with h1 | ⟨hc, -⟩ | ⟨hc, -⟩
              · exact h1
              · exact absurd hc hqln
              · exact absurd hc hqrn
            · intro hm
              refine ⟨Or.inl hm, ?_, ?_, ?_⟩
              · rintro ⟨hc, -⟩; exact hqp hc
              · rintro ⟨hc, -⟩; exact hqln hc
              · rintro ⟨hc, -⟩; exact hqrn hc
          rw [hF, hv.mem_iff q]
          have hqnotp : q ≠ p := by
            intro he
            exact hqp (by rw [hpt, he])
          by_cases hqmem : q ∈ l1 ∨ q ∈ l2
          · have hfpm : q ∈ s.function_points := by
              rw [hfp]
              rcases hqmem with h | h
              · exact List.mem_append_left _ h
              · exact List.mem_append_right _ (List.mem_cons_of_mem _ h)
            have hfp2m : q ∈ l1 ++ l2 := by
              rcases hqmem with h | h
              · exact List.mem_append_left _ h
              · exact List.mem_append_right _ h
            have hqLne : ∀ L, l1.getLast? = some L → q ≠ L := by
              intro L hL hqeq
              exact hqln (by rw [hlnpt, hL, hqeq])
            have hqRne : ∀ R, l2.head? = some R → q ≠ R := by
              intro R hR hqeq
              exact hqrn (by rw [hrnpt, hR, hqeq])
            have hloc : isMaxB s.function_points q = isMaxB (l1 ++ l2) q := by
              rw [hfp]
              have hloc0 := isMaxB_locality l1 l2 [p] [] p.arg hl1 hl2 hb1 hb2
                (by intro m hm; simp only [List.mem_singleton] at hm; exact hm ▸ rfl)
                (by intro m hm; cases hm)
                q hqmem hqLne hqRne
              simpa using hloc0
            simp [hfpm, hfp2m, hloc]
          · push_neg at hqmem
            have h1 : q ∉ s.function_points := by
              rw [hfp]
              intro h
              rcases List.mem_append.mp h with h | h
              · exact hqmem.1 h
              · rcases List.mem_cons.mp h with h | h
                · exact hqnotp h
                · exact hqmem.2 h
            have h2 : q ∉ l1 ++ l2 := by
              intro h
              rcases List.mem_append.mp h with h | h
              · exact hqmem.1 h
              · exact hqmem.2 h
            simp [h1, h2]
  refine ⟨hfp2, ⟨?_, ?_, ?_⟩, ?_⟩
  · rw [hfp2]
    exact hfp2s
  · rw [hmxeq]
    exact pairwise_condDel (pairwise_condDel (pairwise_condDel
      (pairwise_condIns (pairwise_condIns hv.mx_sorted))))
  · intro q
    rw [hfp2]
    exact hmem_iff q
  · intro q hqp' hqLn hqRn
    rw [main q]
    have hqp : pI.pt ≠ some q := by
      rw [hpt]
      intro hc
      injection hc with hc
      exact hqp' (by rw [hc])
    have hqln : lnI.pt ≠ some q := by
      rw [hlnpt]
      intro hc
      exact hqLn q hc rfl
    have hqrn : rnI.pt ≠ some q := by
      rw [hrnpt]
      intro hc
      exact hqRn q hc rfl
    constructor
    · rintro ⟨h1, -, -, -⟩
      rcases h1 with h1 | ⟨hc, -⟩ | ⟨hc, -⟩
      · exact h1
      · exact absurd hc hqln
      · exact absurd hc hqrn
    · intro hm
      refine ⟨Or.inl hm, ?_, ?_, ?_⟩
      · rintro ⟨hc, -⟩; exact hqp hc
      · rintro ⟨hc, -⟩; exact hqln hc
      · rintro ⟨hc, -⟩; exact hqrn hc

end FunctionMaxima

/-! ## Full specification of `erase` on a valid state -/

namespace FunctionMaxima

variable {α β : Type*} [LinearOrder α] [LinearOrder β]

set_option maxHeartbeats 1600000 in
theorem erase_spec (s : FunctionMaxima α β) (hv : Valid s) (a : α) :
    Valid (erase s a) ∧
    (∀ q : PointType α β, q.arg ≠ a →
      (∀ p L, findA a s.function_points = some p →
        (get_info_for_erase s p).2.1.pt = some L → q.arg ≠ L.arg) →
      (∀ p R, findA a s.function_points = some p →
        (get_info_for_erase s p).2.2.pt = some R → q.arg ≠ R.arg) →
      (q ∈ (erase s a).local_maxima ↔ q ∈ s.local_maxima)) ∧
    (∀ p, findA a s.function_points = some p →
      ∃ l1 l2, s.function_points = l1 ++ p :: l2 ∧
        (erase s a).function_points = l1 ++ l2 ∧
        (∀ y ∈ l1, y.arg < a) ∧ (∀ z ∈ l2, a < z.arg)) ∧
    (findA a s.function_points = none → erase s a = s) := by
  cases hfind : findA a s.function_points with
  | none =>
    have herase : erase s a = s := by
      unfold erase
      rw [hfind]
    rw [herase]
    exact ⟨hv, fun q _ _ _ => Iff.rfl,
      fun p hp => Option.noConfusion hp, fun _ => rfl⟩
  | some p =>
    obtain ⟨l1, l2, hdec, hparg, hb1, hb2, hip, his⟩ := findA_decomp hv.fp_sorted hfind
    have hl1 : l1.Pairwise argLt := by
      have h0 := hv.fp_sorted
      rw [hdec] at h0
      exact (List.pairwise_append.mp h0).1
    have hl2 : l2.Pairwise argLt := by
      have h0 := hv.fp_sorted
      rw [hdec] at h0
      exact (List.pairwise_cons.mp (List.pairwise_append.mp h0).2.1).2
    have hfpne : s.function_points ≠ [] := by
      rw [hdec]
      intro h
      simp at h
    have herase : erase s a = erase_aux s (get_info_for_erase s p).1
        (get_info_for_erase s p).2.1 (get_info_for_erase s p).2.2 := by
      unfold erase
      rw [hfind]
    have hlneq : (if s.function_points = [] then none
        else itPred s.function_points p) = l1.getLast? := by
      rw [if_neg hfpne]
      exact hip
    have hrneq : (if s.function_points = [] then none
        else itSucc s.function_points p) = l2.head? := by
      rw [if_neg hfpne]
      exact his
    have hinfo : get_info_for_erase s p =
      (⟨some p, mxMem s.local_maxima p, false⟩,
       ⟨(if s.function_points = [] then none else itPred s.function_points p),
        (match (if s.function_points = [] then none
            else itPred s.function_points p) with
          | some L => mxMem s.local_maxima L
          | none => false),
        (match (if s.function_points = [] then none
            else itPred s.function_points p) with
          | none => false
          | some L =>
            (match itPred s.function_points L with
              | none => true
              | some LL => !decide (L.value < LL.value)) &&
            (match (if s.function_points = [] then none
                else itSucc s.function_points p) with
              | none => true
              | some R => !decide (L.value < R.value)))⟩,
       ⟨(if s.function_points = [] then none else itSucc s.function_points p),
        (match (if s.function_points = [] then none
            else itSucc s.function_points p) with
          | some R => mxMem s.local_maxima R
          | none => false),
        (match (if s.function_points = [] then none
            else itSucc s.function_points p) with
          | none => false
          | some R =>
            (match (if s.function_points = [] then none
                else itPred s.function_points p) with
              | none => true
              | some L => !decide (R.value < L.value)) &&
            (match itSucc s.function_points R with
              | none => true
              | some RR => !decide (R.value < RR.value)))⟩) := by
      simp only [get_info_for_erase]
      rfl
    have hmidargs : ∀ m ∈ [p], m.arg = a := by
      intro m hm
      simp only [List.mem_singleton] at hm
      exact hm ▸ hparg
    have hfpx : s.function_points = l1 ++ [p] ++ l2 := by
      rw [hdec]
      simp
    have hb1' : ∀ y ∈ l1, y.arg < p.arg := by
      intro y hy
      rw [hparg]
      exact hb1 y hy
    have hb2' : ∀ z ∈ l2, p.arg < z.arg := by
      intro z hz
      rw [hparg]
      exact hb2 z hz
    obtain ⟨hfp2, hvalid, hframe⟩ := erase_aux_spec s hv l1 l2 p
      ⟨some p, mxMem s.local_maxima p, false⟩
      ⟨(if s.function_points = [] then none else itPred s.function_points p),
        (match (if s.function_points = [] then none
            else itPred s.function_points p) with
          | some L => mxMem s.local_maxima L
          | none => false),
        (match (if s.function_points = [] then none
            else itPred s.function_points p) with
          | none => false
          | some L =>
            (match itPred s.function_points L with
              | none => true
              | some LL => !decide (L.value < LL.value)) &&
            (match (if s.function_points = [] then none
                else itSucc s.function_points p) with
              | none => true
              | some R => !decide (L.value < R.value)))⟩
      ⟨(if s.function_points = [] then none else itSucc s.function_points p),
        (match (if s.function_points = [] then none
            else itSucc s.function_points p) with
          | some R => mxMem s.local_maxima R
          | none => false),
        (match (if s.function_points = [] then none
            else itSucc s.function_points p) with
          | none => false
          | some R =>
            (match (if s.function_points = [] then none
                else itPred s.function_points p) with
              | none => true
              | some L => !decide (R.value < L.value)) &&
            (match itSucc s.function_points R with
              | none => true
              | some RR => !decide (R.value < RR.value)))⟩
      hdec hb1' hb2' rfl mxMem_iff
      hlneq
      (by intro L hL
          show (match (if s.function_points = [] then none
              else itPred s.function_points p) with
            | some L => mxMem s.local_maxima L
            | none => false) = true ↔ L ∈ s.local_maxima
          rw [hlneq, hL]
          exact mxMem_iff)
      (by intro L hL
          show (match (if s.function_points = [] then none
              else itPred s.function_points p) with
            | none => false
            | some L =>
              (match itPred s.function_points L with
                | none => true
                | some LL => !decide (L.value < LL.value)) &&
              (match (if s.function_points = [] then none
                  else itSucc s.function_points p) with
                | none => true
                | some R => !decide (L.value < R.value))) = isMaxB (l1 ++ l2) L
          rw [hlneq, hL, hrneq]
          rw [hfpx]
          exact eWilLn_eq l1 l2 [p] a L hl1 hb1 hb2 hL)
      hrneq
      (by intro R hR
          show (match (if s.function_points = [] then none
              else itSucc s.function_points p) with
            | some R => mxMem s.local_maxima R
            | none => false) = true ↔ R ∈ s.local_maxima
          rw [hrneq, hR]
          exact mxMem_iff)
      (by intro R hR
          show (match (if s.function_points = [] then none
              else itSucc s.function_points p) with
            | none => false
            | some R =>
              (match (if s.function_points = [] then none
                  else itPred s.function_points p) with
                | none => true
                | some L => !decide (R.value < L.value)) &&
              (match itSucc s.function_points R with
                | none => true
                | some RR => !decide (R.value < RR.value))) = isMaxB (l1 ++ l2) R
          rw [hrneq, hR, hlneq]
          rw [hfpx]
          exact eWilRn_eq l1 l2 [p] a R hl2 hb1 hb2 hmidargs hR)
    refine ⟨?_, ?_, ?_, ?_⟩
    · rw [herase, hinfo]
      exact hvalid
    · intro q hq1 hq2 hq3
      rw [herase, hinfo]
      refine hframe q (by rw [hparg]; exact hq1) ?_ ?_
      · intro L hL
        refine hq2 p L rfl ?_
        rw [hinfo]
        show (if s.function_points = [] then none
          else itPred s.function_points p) = some L
        rw [hlneq]
        exact hL
      · intro R hR
        refine hq3 p R rfl ?_
        rw [hinfo]
        show (if s.function_points = [] then none
          else itSucc s.function_points p) = some R
        rw [hrneq]
        exact hR
    · intro p' hp'
      injection hp' with hp'
      subst hp'
      refine ⟨l1, l2, hdec, ?_, hb1, hb2⟩
      rw [herase, hinfo]
      exact hfp2
    · intro h
      cases h

end FunctionMaxima

/-! ## Reachable states satisfy the invariant -/

namespace FunctionMaxima

variable {α β : Type*} [LinearOrder α] [LinearOrder β]

theorem valid_empty : Valid (mkEmpty α β) := by
  refine ⟨List.Pairwise.nil, List.Pairwise.nil, ?_⟩
  intro q
  simp [mkEmpty]

theorem reachable_valid {s : FunctionMaxima α β} (h : Reachable s) : Valid s := by
  induction h with
  | base => exact valid_empty
  | step_set s a v _ ih => exact (set_value_spec s ih a v).1
  | step_erase s a _ ih => exact (erase_spec s ih a).1

/-- The local-maximum test spelled out on the two neighbor options. -/
theorem isMaxB_iff {l : List (PointType α β)} {p : PointType α β} :
    isMaxB l p = true ↔
      ((∀ L, leftNbr l p.arg = some L → ¬ p.value < L.value) ∧
       (∀ R, rightNbr l p.arg = some R → ¬ p.value < R.value)) := by
  unfold isMaxB
  cases hL : leftNbr l p.arg <;> cases hR : rightNbr l p.arg <;>
    simp [Option.all]

theorem check_same_spec {s : FunctionMaxima α β} {a : α} {v : β}
    (h : check_whether_the_same s a v = true) :
    ∃ p, findA a s.function_points = some p ∧ p.value = v := by
  unfold check_whether_the_same at h
  cases hf : findA a s.function_points with
  | none => rw [hf] at h; cases h
  | some p =>
    rw [hf] at h
    simp only [Bool.and_eq_true, Bool.not_eq_true', decide_eq_false_iff_not] at h
    exact ⟨p, rfl, le_antisymm (not_lt.mp h.1) (not_lt.mp h.2)⟩

/-! ## Scenario states from the specification (section 8) -/

/-- Scenario A: insert (1,10), (2,20), (3,15) in order. -/
def sA : FunctionMaxima Nat Nat :=
  set_value (set_value (set_value (mkEmpty Nat Nat) 1 10) 2 20) 3 15

/-- Scenario B: insert (1,10), (2,10), (3,5) in order. -/
def sB : FunctionMaxima Nat Nat :=
  set_value (set_value (set_value (mkEmpty Nat Nat) 1 10) 2 10) 3 5

/-- Scenario C: a single point (5,5). -/
def sC : FunctionMaxima Nat Nat := set_value (mkEmpty Nat Nat) 5 5

theorem reachable_sA : Reachable sA :=
  Reachable.step_set _ 3 15 (Reachable.step_set _ 2 20
    (Reachable.step_set _ 1 10 Reachable.base))

theorem reachable_sB : Reachable sB :=
  Reachable.step_set _ 3 5 (Reachable.step_set _ 2 10
    (Reachable.step_set _ 1 10 Reachable.base))

end FunctionMaxima

/-! ## Claims -/

namespace FunctionMaxima

variable {α β : Type*} [LinearOrder α] [LinearOrder β]

/-- C1: after any sequence of `set_value` and `erase` operations, a point is in
the maxima sequence iff it is in the domain sequence and satisfies the
local-maximum predicate of spec section 4.3 against its current domain
neighbors; in particular the maxima set is a subset of the domain set. -/
theorem C1_maxima_exact {s : FunctionMaxima α β} (h : Reachable s) :
    (∀ q, q ∈ s.local_maxima ↔
      q ∈ s.function_points ∧ isMaxB s.function_points q = true) ∧
    (∀ q ∈ s.local_maxima, q ∈ s.function_points) := by
  have hv := reachable_valid h
  exact ⟨hv.mem_iff, fun q hq => ((hv.mem_iff q).mp hq).1⟩

/-- Witness for C1 at the concrete reachable Scenario-A state. -/
theorem C1_maxima_exact_witness :
    (⟨2, 20⟩ : PointType Nat Nat) ∈ sA.local_maxima ↔
      (⟨2, 20⟩ : PointType Nat Nat) ∈ sA.function_points ∧
      isMaxB sA.function_points ⟨2, 20⟩ = true :=
  (C1_maxima_exact reachable_sA).1 ⟨2, 20⟩

/-- C3: a mapped point is a local maximum iff its left neighbor is absent or
not greater and its right neighbor is absent or not greater; equality still
counts (Scenario B), and a sole point is a maximum (Scenario C). -/
theorem C3_predicate {s : FunctionMaxima α β} (h : Reachable s) :
    (∀ p ∈ s.function_points,
      (p ∈ s.local_maxima ↔
        ((∀ L, leftNbr s.function_points p.arg = some L → ¬ p.value < L.value) ∧
         (∀ R, rightNbr s.function_points p.arg = some R → ¬ p.value < R.value)))) ∧
    sB.local_maxima = [⟨1, 10⟩, ⟨2, 10⟩] ∧
    sC.local_maxima = [⟨5, 5⟩] := by
  have hv := reachable_valid h
  refine ⟨?_, by decide, by decide⟩
  intro p hp
  rw [hv.mem_iff p, ← isMaxB_iff]
  simp [hp]

/-- Witness for C3 at the concrete reachable Scenario-B state. -/
theorem C3_predicate_witness :
    ((⟨1, 10⟩ : PointType Nat Nat) ∈ sB.local_maxima ↔
      ((∀ L, leftNbr sB.function_points 1 = some L → ¬ 10 < L.value) ∧
       (∀ R, rightNbr sB.function_points 1 = some R → ¬ 10 < R.value))) ∧
    sB.local_maxima = [⟨1, 10⟩, ⟨2, 10⟩] ∧
    sC.local_maxima = [⟨5, 5⟩] :=
  ⟨(C3_predicate reachable_sB).1 ⟨1, 10⟩ (by decide),
   (C3_predicate reachable_sB).2.1, (C3_predicate reachable_sB).2.2⟩

/-- C4 counterexample: starting from Scenario A (maxima exactly {(2,20)}),
erasing argument 2 does not leave an empty maxima sequence — the code leaves
(3,15) as a maximum, contradicting spec Scenario D. -/
theorem C4_counterexample :
    sA.local_maxima = [⟨2, 20⟩] ∧
    (FunctionMaxima.erase sA 2).local_maxima ≠ [] := by
  exact ⟨by decide, by decide⟩

/-- C4 amended: starting from Scenario A, erasing argument 2 yields maxima
exactly {(3,15)} — after the erase, (3,15) has no right neighbor and its left
neighbor (1,10) has a smaller value, so it is a local maximum, while (1,10)
is dominated by (3,15). -/
theorem C4_amended_thm :
    sA.local_maxima = [⟨2, 20⟩] ∧
    (FunctionMaxima.erase sA 2).local_maxima = [⟨3, 15⟩] ∧
    (FunctionMaxima.erase sA 2).function_points = [⟨1, 10⟩, ⟨3, 15⟩] := by
  exact ⟨by decide, by decide, by decide⟩

/-- C5: when `a` is already mapped to a value equal to `v` (neither `<` the
other), `set_value a v` returns without touching either index: the whole
state is unchanged. -/
theorem C5_idempotent (s : FunctionMaxima α β) (a : α) (v : β)
    (p : PointType α β) (hfind : findA a s.function_points = some p)
    (h1 : ¬ v < p.value) (h2 : ¬ p.value < v) :
    set_value s a v = s := by
  have hc : check_whether_the_same s a v = true := by
    unfold check_whether_the_same
    rw [hfind]
    simp [h1, h2]
  unfold set_value
  rw [if_pos hc]

/-- Witness for C5 at a concrete state. -/
theorem C5_idempotent_witness :
    findA 2 sA.function_points = some ⟨2, 20⟩ ∧ set_value sA 2 20 = sA :=
  ⟨by decide, C5_idempotent sA 2 20 ⟨2, 20⟩ (by decide) (by decide) (by decide)⟩

end FunctionMaxima

namespace FunctionMaxima

variable {α β : Type*} [LinearOrder α] [LinearOrder β]

/-- C6: `value_at` returns the associated value when the argument is mapped,
fails (modelled as `none`, the thrown `InvalidArg` / spec `NotFound`) exactly
when it is not mapped, and Scenario E: a fresh argument fails, after
`set_value a v` it returns `v`, and after a subsequent `erase a` it fails
again.  `value_at` is a pure function of the state, so it can mutate
neither index. -/
theorem C6_value_at {s : FunctionMaxima α β} (h : Reachable s) (a : α) (v : β) :
    (value_at s a = none ↔ ∀ q ∈ s.function_points, q.arg ≠ a) ∧
    (∀ q ∈ s.function_points, q.arg = a → value_at s a = some q.value) ∧
    value_at (set_value s a v) a = some v ∧
    value_at (FunctionMaxima.erase (set_value s a v) a) a = none := by
  have hv := reachable_valid h
  have hv' := (set_value_spec s hv a v).1
  have hfind' : findA a (set_value s a v).function_points = some ⟨a, v⟩ := by
    by_cases hsame : check_whether_the_same s a v = true
    · obtain ⟨p, hp, hpv⟩ := check_same_spec hsame
      have heq : set_value s a v = s := by
        unfold set_value
        rw [if_pos hsame]
      rw [heq]
      have hparg := (findA_some hp).2
      have hpeq : p = ⟨a, v⟩ := by
        ext
        · exact hparg
        · exact hpv
      rw [← hpeq]
      exact hp
    · have hsame' : check_whether_the_same s a v = false := by
        cases hcc : check_whether_the_same s a v
        · rfl
        · exact absurd hcc hsame
      obtain ⟨l1, l2, -, hshape, hb1, hb2⟩ := (set_value_spec s hv a v).2.2 hsame'
      rw [hshape]
      refine findA_of_mem ?_ ?_ rfl
      · rw [← hshape]
        exact hv'.fp_sorted
      · exact List.mem_append_right _ (List.mem_cons_self _ _)
  refine ⟨?_, ?_, ?_, ?_⟩
  · unfold value_at
    rw [Option.map_eq_none']
    exact findA_none
  · intro q hq ha
    unfold value_at
    rw [findA_of_mem hv.fp_sorted hq ha]
    rfl
  · unfold value_at
    rw [hfind']
    rfl
  · obtain ⟨-, -, hshape2, hnone2⟩ := erase_spec (set_value s a v) hv' a
    cases hfind2 : findA a (set_value s a v).function_points with
    | none =>
      rw [hnone2 hfind2]
      unfold value_at
      rw [Option.map_eq_none']
      exact hfind2
    | some p =>
      obtain ⟨l1, l2, -, hsh, hb1, hb2⟩ := hshape2 p hfind2
      unfold value_at
      rw [hsh, Option.map_eq_none', findA_none]
      intro q hq
      rcases List.mem_append.mp hq with hq | hq
      · exact ne_of_lt (hb1 q hq)
      · exact ne_of_gt (hb2 q hq)

/-- Witness for C6: Scenario E on the concrete Scenario-A state. -/
theorem C6_value_at_witness :
    value_at (set_value sA 7 42) 7 = some 42 ∧
    value_at (FunctionMaxima.erase (set_value sA 7 42) 7) 7 = none :=
  ⟨(C6_value_at reachable_sA 7 42).2.2.1, (C6_value_at reachable_sA 7 42).2.2.2⟩

/-- C7: a single `set_value` or `erase` call can change maxima-membership only
for the target argument and its two domain neighbors at the time of the call;
every other point's membership is unchanged. -/
theorem C7_frame {s : FunctionMaxima α β} (h : Reachable s) (a : α) (v : β)
    (q : PointType α β) (hqa : q.arg ≠ a)
    (hL1 : ∀ L, (get_info_for_set_value s a v).2.1.pt = some L → q.arg ≠ L.arg)
    (hR1 : ∀ R, (get_info_for_set_value s a v).2.2.pt = some R → q.arg ≠ R.arg)
    (hL2 : ∀ p L, findA a s.function_points = some p →
      (get_info_for_erase s p).2.1.pt = some L → q.arg ≠ L.arg)
    (hR2 : ∀ p R, findA a s.function_points = some p →
      (get_info_for_erase s p).2.2.pt = some R → q.arg ≠ R.arg) :
    (q ∈ (set_value s a v).local_maxima ↔ q ∈ s.local_maxima) ∧
    (q ∈ (FunctionMaxima.erase s a).local_maxima ↔ q ∈ s.local_maxima) := by
  have hv := reachable_valid h
  exact ⟨(set_value_spec s hv a v).2.1 q hqa hL1 hR1,
         (erase_spec s hv a).2.1 q hqa hL2 hR2⟩

/-- Witness for C7: the point (7,7) is not argument 2 or one of its neighbors
1 and 3, so both the set and the erase at 2 leave its membership unchanged. -/
theorem C7_frame_witness :
    ((⟨7, 7⟩ : PointType Nat Nat) ∈ (set_value sA 2 99).local_maxima ↔
      (⟨7, 7⟩ : PointType Nat Nat) ∈ sA.local_maxima) ∧
    ((⟨7, 7⟩ : PointType Nat Nat) ∈ (FunctionMaxima.erase sA 2).local_maxima ↔
      (⟨7, 7⟩ : PointType Nat Nat) ∈ sA.local_maxima) := by
  refine C7_frame reachable_sA 2 99 ⟨7, 7⟩ (by decide) ?_ ?_ ?_ ?_
  · intro L hL
    have hc : (get_info_for_set_value sA 2 99).2.1.pt = some ⟨1, 10⟩ := by decide
    rw [hc] at hL
    injection hL with h2
    subst h2
    decide
  · intro R hR
    have hc : (get_info_for_set_value sA 2 99).2.2.pt = some ⟨3, 15⟩ := by decide
    rw [hc] at hR
    injection hR with h2
    subst h2
    decide
  · intro p L hp hL
    have hcp : findA 2 sA.function_points = some ⟨2, 20⟩ := by decide
    rw [hcp] at hp
    injection hp with h2
    subst h2
    have hc : (get_info_for_erase sA ⟨2, 20⟩).2.1.pt = some ⟨1, 10⟩ := by decide
    rw [hc] at hL
    injection hL with h3
    subst h3
    decide
  · intro p R hp hR
    have hcp : findA 2 sA.function_points = some ⟨2, 20⟩ := by decide
    rw [hcp] at hp
    injection hp with h2
    subst h2
    have hc : (get_info_for_erase sA ⟨2, 20⟩).2.2.pt = some ⟨3, 15⟩ := by decide
    rw [hc] at hR
    injection hR with h3
    subst h3
    decide

/-- C8: iterating the domain index enumerates the current points in strictly
ascending argument order (each mapped argument exactly once), and iterating
the maxima index enumerates exactly the current local maxima in descending
value order with ties broken by ascending argument. -/
theorem C8_order {s : FunctionMaxima α β} (h : Reachable s) :
    s.function_points.Pairwise (fun p q => p.arg < q.arg) ∧
    s.local_maxima.Pairwise
      (fun p q => q.value < p.value ∨ (p.value = q.value ∧ p.arg < q.arg)) ∧
    (∀ q, q ∈ s.local_maxima ↔
      q ∈ s.function_points ∧ isMaxB s.function_points q = true) := by
  have hv := reachable_valid h
  refine ⟨hv.fp_sorted.imp (fun hab => hab), ?_, hv.mem_iff⟩
  exact hv.mx_sorted.imp (fun hab => mxLt_iff.mp hab)

/-- Witness for C8 at the concrete reachable Scenario-A state. -/
theorem C8_order_witness :
    sA.function_points.Pairwise (fun p q => p.arg < q.arg) ∧
    sA.local_maxima.Pairwise
      (fun p q => q.value < p.value ∨ (p.value = q.value ∧ p.arg < q.arg)) :=
  ⟨(C8_order reachable_sA).1, (C8_order reachable_sA).2.1⟩

/-- C10: `find` returns the end iterator (`none`) exactly when the argument is
unmapped, and otherwise the unique domain point with that argument; it is a
pure function of the state. -/
theorem C10_find {s : FunctionMaxima α β} (h : Reachable s) (a : α) :
    (find s a = none ↔ ∀ q ∈ s.function_points, q.arg ≠ a) ∧
    (∀ p, find s a = some p → p.arg = a ∧ p ∈ s.function_points ∧
      ∀ r ∈ s.function_points, r.arg = a → r = p) := by
  have hv := reachable_valid h
  constructor
  · exact findA_none
  · intro p hp
    obtain ⟨hmem, harg⟩ := findA_some hp
    exact ⟨harg, hmem, fun r hr hra =>
      arg_inj_of_pairwise hv.fp_sorted hr hmem (by rw [hra, harg])⟩

/-- Witness for C10 at the concrete Scenario-A state and argument 2. -/
theorem C10_find_witness :
    find sA 2 = some ⟨2, 20⟩ ∧
    ((⟨2, 20⟩ : PointType Nat Nat).arg = 2 ∧
      (⟨2, 20⟩ : PointType Nat Nat) ∈ sA.function_points ∧
      ∀ r ∈ sA.function_points, r.arg = 2 → r = ⟨2, 20⟩) :=
  ⟨by decide, (C10_find reachable_sA 2).2 ⟨2, 20⟩ (by decide)⟩

end FunctionMaxima

/-! ## Instrumented model: counting comparisons / copies and logging events

Every `<` on the caller-supplied argument or value type and every copy of such
a value may throw (spec section 7).  The instrumented model threads an
invocation counter: the `N`-th fallible invocation throws (`N = 0` never
throws), and appends an event per primitive to a trace.  Mutations of the two
indexes log events but cannot fail (`std::set::erase(iterator)` and the
linking step of an insert perform no comparisons). -/

/-- Observable primitive events. -/
inductive Ev
  | cmp
  | copy
  | mutFP
  | mutMX
deriving DecidableEq, Repr

/-- Instrumented computation: from an invocation counter, either an exception
(`Except.error`) or a value together with the new counter and the events
emitted (delta-style, so traces concatenate under `bind`). -/
def M (A : Type) : Type := Nat → Except Unit (A × Nat × List Ev)

instance : Monad M where
  pure a := fun c => .ok (a, c, [])
  bind m f := fun c =>
    match m c with
    | .error e => .error e
    | .ok (a, c', t1) =>
      match f a c' with
      | .error e => .error e
      | .ok (b, c'', t2) => .ok (b, c'', t1 ++ t2)

theorem M_bind_def {A B : Type} (m : M A) (f : A → M B) (c : Nat) :
    (m >>= f) c =
      (match m c with
      | .error e => .error e
      | .ok (a, c', t1) =>
        match f a c' with
        | .error e => .error e
        | .ok (b, c'', t2) => .ok (b, c'', t1 ++ t2)) := rfl

theorem M_pure_def {A : Type} (a : A) (c : Nat) :
    (pure a : M A) c = .ok (a, c, []) := rfl

/-- A fallible primitive (a comparison or a copy of a caller-supplied value):
the `N`-th invocation throws. -/
def fallible (N : Nat) (e : Ev) : M Unit := fun c =>
  if c + 1 = N then .error () else .ok ((), c + 1, [e])

/-- A mutation of one of the indexes: logged, never throws, does not count as
a fallible invocation. -/
def logMut (e : Ev) : M Unit := fun c => .ok ((), c, [e])

/-- One `<` comparison on a caller-supplied ordered type. -/
def cmpI (N : Nat) {γ : Type} [LinearOrder γ] (x y : γ) : M Bool := do
  fallible N .cmp
  pure (decide (x < y))

/-- One copy of a caller-supplied value. -/
def copyI (N : Nat) : M Unit := fallible N .copy

variable {α β : Type} [LinearOrder α] [LinearOrder β]

/-- Instrumented `FunctionPointsComparator::operator()` (lines 141-148): the
`||` and the final `return` each re-evaluate a `<`. -/
def fpLtI (N : Nat) (p q : PointType α β) : M Bool := do
  let b1 ← cmpI N q.arg p.arg
  let b2 ← if b1 then pure true else cmpI N p.arg q.arg
  if b1 || b2 then cmpI N p.arg q.arg else cmpI N p.value q.value

/-- Instrumented `LocalMaximaComparator::operator()` (lines 156-163). -/
def mxLtI (N : Nat) (p q : PointType α β) : M Bool := do
  let b1 ← cmpI N q.value p.value
  let b2 ← if b1 then pure true else cmpI N p.value q.value
  if b1 || b2 then cmpI N q.value p.value else cmpI N p.arg q.arg

/-- Instrumented transparent `function_points.find(a)` on the list model:
each visited element is compared with the key through the two heterogeneous
comparator overloads. -/
def findAI (N : Nat) (a : α) : List (PointType α β) → M (Option (PointType α β))
  | [] => pure none
  | q :: l => do
    let b1 ← cmpI N q.arg a
    if b1 then findAI N a l
    else
      let b2 ← cmpI N a q.arg
      if b2 then findAI N a l else pure (some q)

/-- Instrumented `local_maxima.find(x)` on the list model. -/
def sFindI (N : Nat) (x : PointType α β) :
    List (PointType α β) → M (Option (PointType α β))
  | [] => pure none
  | q :: l => do
    let b1 ← mxLtI N x q
    if b1 then sFindI N x l
    else
      let b2 ← mxLtI N q x
      if b2 then sFindI N x l else pure (some q)

/-- Instrumented `lower_bound(new_point)` together with its predecessor (the
source's `aux` iterator and `--aux`, lines 415-417). -/
def lowerBoundWithPredI (N : Nat) (x : PointType α β) :
    Option (PointType α β) → List (PointType α β) →
    M (Option (PointType α β) × Option (PointType α β))
  | prev, [] => pure (prev, none)
  | prev, q :: l => do
    let b ← fpLtI N q x
    if b then lowerBoundWithPredI N x (some q) l else pure (prev, some q)

/-- Instrumented `create_point` / `PointType` constructor (lines 287-293): a
copy of the argument, then a copy of the value; a failure of the second copy
is cleaned up by `PointConstructionGuard` with no observable effect. -/
def createPointI (N : Nat) (a : α) (v : β) : M (PointType α β) := do
  copyI N
  copyI N
  pure (⟨a, v⟩ : PointType α β)

/-- Instrumented `std::set::insert` on the list model: comparisons walk to
the insertion point; the final linking step is the logged mutation and cannot
itself fail (so a throwing insert leaves the set unchanged). -/
def sInsertI (ltI : PointType α β → PointType α β → M Bool) (mutEv : Ev)
    (x : PointType α β) : List (PointType α β) → M (List (PointType α β))
  | [] => do
    logMut mutEv
    pure [x]
  | y :: l => do
    let b1 ← ltI x y
    if b1 then do
      logMut mutEv
      pure (x :: y :: l)
    else
      let b2 ← ltI y x
      if b2 then do
        let r ← sInsertI ltI mutEv x l
        pure (y :: r)
      else pure (y :: l)

/-- Instrumented `check_whether_the_same` (lines 443-451). -/
def check_same_I (N : Nat) (s : FunctionMaxima α β) (a : α) (v : β) :
    M Bool := do
  let aux ← findAI N a s.function_points
  match aux with
  | none => pure false
  | some p => do
    let b1 ← cmpI N v p.value
    if b1 then pure false
    else do
      let b2 ← cmpI N p.value v
      pure (!b2)

/-- Instrumented `get_info_for_set_value` (lines 400-440), in source order:
find the point at `a`; locate the neighbors (constructing a probe point and
calling `lower_bound` when `a` is fresh); the three was-maximum lookups
(lines 421-423); the three will-be-maximum comparison chains (lines 424-435);
the three repeated `local_maxima.find` calls for `get<3>` (lines 437-439). -/
def get_info_for_set_value_I (N : Nat) (s : FunctionMaxima α β) (a : α)
    (v : β) : M (FunctionMaxima.Info α β × FunctionMaxima.Info α β ×
      FunctionMaxima.Info α β) := do
  let pOpt ← findAI N a s.function_points
  let lnrn ← (match pOpt with
    | some p => pure (itPred s.function_points p, itSucc s.function_points p)
    | none =>
      if s.function_points = [] then pure (none, none)
      else do
        let np ← createPointI N a v
        lowerBoundWithPredI N np none s.function_points)
  let wasP ← (match pOpt with
    | some p => do
        let f ← sFindI N p s.local_maxima
        pure f.isSome
    | none => pure false)
  let wasLn ← (match lnrn.1 with
    | some L => do
        let f ← sFindI N L s.local_maxima
        pure f.isSome
    | none => pure false)
  let wasRn ← (match lnrn.2 with
    | some R => do
        let f ← sFindI N R s.local_maxima
        pure f.isSome
    | none => pure false)
  let wilP1 ← (match lnrn.1 with
    | none => pure true
    | some L => do
        let b ← cmpI N v L.value
        pure (!b))
  let wilP ← (if wilP1 then
      match lnrn.2 with
      | none => pure true
      | some R => do
          let b ← cmpI N v R.value
          pure (!b)
    else pure false)
  let wilLn ← (match lnrn.1 with
    | none => pure false
    | some L => do
        let c1 ← (match itPred s.function_points L with
          | none => pure true
          | some LL => do
              let b ← cmpI N L.value LL.value
              pure (!b))
        if c1 then do
          let b ← cmpI N L.value v
          pure (!b)
        else pure false)
  let wilRn ← (match lnrn.2 with
    | none => pure false
    | some R => do
        let b ← cmpI N R.value v
        if !b then
          match itSucc s.function_points R with
          | none => pure true
          | some RR => do
              let b2 ← cmpI N R.value RR.value
              pure (!b2)
        else pure false)
  _ ← (match pOpt with
    | some p => do
        let _ ← sFindI N p s.local_maxima
        pure ()
    | none => pure ())
  _ ← (match lnrn.1 with
    | some L => do
        let _ ← sFindI N L s.local_maxima
        pure ()
    | none => pure ())
  _ ← (match lnrn.2 with
    | some R => do
        let _ ← sFindI N R s.local_maxima
        pure ()
    | none => pure ())
  pure (⟨pOpt, wasP, wilP⟩, ⟨lnrn.1, wasLn, wilLn⟩, ⟨lnrn.2, wasRn, wilRn⟩)

/-- Instrumented `get_info_for_erase` (lines 453-485), in source order: the
`get<3>` find for the point (line 459), the neighbor iterators, the `get<3>`
finds and membership finds for the neighbors (lines 468-471), then the two
will-be-maximum comparison chains (lines 473-484). -/
def get_info_for_erase_I (N : Nat) (s : FunctionMaxima α β)
    (p : PointType α β) : M (FunctionMaxima.Info α β ×
      FunctionMaxima.Info α β × FunctionMaxima.Info α β) := do
  let f ← sFindI N p s.local_maxima
  let wasP := f.isSome
  let ln := if s.function_points = [] then none else itPred s.function_points p
  let rn := if s.function_points = [] then none else itSucc s.function_points p
  _ ← (match ln with
    | some L => do
        let _ ← sFindI N L s.local_maxima
        pure ()
    | none => pure ())
  _ ← (match rn with
    | some R => do
        let _ ← sFindI N R s.local_maxima
        pure ()
    | none => pure ())
  let wasLn ← (match ln with
    | some L => do
        let f2 ← sFindI N L s.local_maxima
        pure f2.isSome
    | none => pure false)
  let wasRn ← (match rn with
    | some R => do
        let f2 ← sFindI N R s.local_maxima
        pure f2.isSome
    | none => pure false)
  let wilLn ← (match ln with
    | none => pure false
    | some L => do
        let c1 ← (match itPred s.function_points L with
          | none => pure true
          | some LL => do
              let b ← cmpI N L.value LL.value
              pure (!b))
        if c1 then
          match rn with
          | none => pure true
          | some R => do
              let b ← cmpI N L.value R.value
              pure (!b)
        else pure false)
  let wilRn ← (match rn with
    | none => pure false
    | some R => do
        let c1 ← (match ln with
          | none => pure true
          | some L => do
              let b ← cmpI N R.value L.value
              pure (!b))
        if c1 then
          match itSucc s.function_points R with
          | none => pure true
          | some RR => do
              let b ← cmpI N R.value RR.value
              pure (!b)
        else pure false)
  pure (⟨some p, wasP, false⟩, ⟨ln, wasLn, wilLn⟩, ⟨rn, wasRn, wilRn⟩)

/-- One guarded `local_maxima.insert` of the mutation sequences (the
`if (...) insert` steps): instrumented counterpart of `condIns`. -/
def condInsI (N : Nat) (o : Option (PointType α β)) (b : Bool)
    (l : List (PointType α β)) : M (List (PointType α β)) :=
  match o, b with
  | some L, true => sInsertI (mxLtI N) Ev.mutMX L l
  | _, _ => pure l

/-- Instrumented `set_value_aux` (lines 514-547).  Each of the four inserts
may throw; on a throw the guards' destructors run (in reverse construction
order) and the `Except.error` carries the rolled-back state they leave:
`PointInsertionGuard` erases the new point from `function_points` once that
insert succeeded, and `LocalMaximaUpdateGuard` erases whatever maxima
iterators were recorded so far (`point_it`, then `ln_it`; `rn_it` is recorded
by the last insert, after which nothing can throw).  The trailing erases
(lines 533-546) perform no comparisons and cannot throw. -/
def set_value_aux_I (N : Nat) (s : FunctionMaxima α β)
    (pI lnI rnI : FunctionMaxima.Info α β) (np : PointType α β) (c : Nat) :
    Except (FunctionMaxima α β) (FunctionMaxima α β × Nat × List Ev) :=
  match sInsertI (fpLtI N) Ev.mutFP np s.function_points c with
  | .error _ => .error s
  | .ok (fp1, c1, t1) =>
    match (if pI.willMax then sInsertI (mxLtI N) Ev.mutMX np s.local_maxima
           else (pure s.local_maxima : M _)) c1 with
    | .error _ => .error ⟨sErase fpLt np fp1, s.local_maxima⟩
    | .ok (mx1, c2, t2) =>
      match condInsI N lnI.pt (!lnI.wasMax && lnI.willMax) mx1 c2 with
      | .error _ =>
        .error ⟨sErase fpLt np fp1,
                if pI.willMax then sErase mxLt np mx1 else mx1⟩
      | .ok (mx2, c3, t3) =>
        match condInsI N rnI.pt (!rnI.wasMax && rnI.willMax) mx2 c3 with
        | .error _ =>
          .error ⟨sErase fpLt np fp1,
                  FunctionMaxima.condDel lnI.pt (!lnI.wasMax && lnI.willMax)
                    (if pI.willMax then sErase mxLt np mx2 else mx2)⟩
        | .ok (mx3, c4, t4) =>
          .ok (⟨(match pI.pt with
                 | some p => sErase fpLt p fp1
                 | none => fp1),
                FunctionMaxima.condDel rnI.pt (rnI.wasMax && !rnI.willMax)
                  (FunctionMaxima.condDel lnI.pt (lnI.wasMax && !lnI.willMax)
                    (FunctionMaxima.condDel pI.pt pI.wasMax mx3))⟩, c4,
            t1 ++ t2 ++ t3 ++ t4 ++
            (match pI.pt with | some _ => [Ev.mutFP] | none => []) ++
            (match pI.pt, pI.wasMax with
             | some _, true => [Ev.mutMX] | _, _ => []) ++
            (match lnI.pt, lnI.wasMax && !lnI.willMax with
             | some _, true => [Ev.mutMX] | _, _ => []) ++
            (match rnI.pt, rnI.wasMax && !rnI.willMax with
             | some _, true => [Ev.mutMX] | _, _ => []))

/-- Instrumented `set_value` (lines 343-353): result state, whether an
exception escaped, and the event trace of a completed call (a throwing call
reports an empty trace together with the guard-rolled-back state). -/
def set_value_I (N : Nat) (s : FunctionMaxima α β) (a : α) (v : β) :
    FunctionMaxima α β × Bool × List Ev :=
  match check_same_I N s a v 0 with
  | .error _ => (s, true, [])
  | .ok (true, _, t0) => (s, false, t0)
  | .ok (false, c0, t0) =>
    match get_info_for_set_value_I N s a v c0 with
    | .error _ => (s, true, [])
    | .ok (info, c1, t1) =>
      match createPointI N a v c1 with
      | .error _ => (s, true, [])
      | .ok (np, c2, t2) =>
        match set_value_aux_I N s info.1 info.2.1 info.2.2 np c2 with
        | .error sR => (sR, true, [])
        | .ok (sR, _, t3) => (sR, false, t0 ++ t1 ++ t2 ++ t3)

/-- Instrumented `erase_aux` (lines 488-512).  Both conditional neighbor
inserts record their iterator into the guard's single `point_it` slot via
`set_point_it`, so after a throw of the second insert the guard erases only
the first insert's point.  The trailing erases cannot throw. -/
def erase_aux_I (N : Nat) (s : FunctionMaxima α β)
    (pI lnI rnI : FunctionMaxima.Info α β) (c : Nat) :
    Except (FunctionMaxima α β) (FunctionMaxima α β × Nat × List Ev) :=
  match condInsI N lnI.pt (!lnI.wasMax && lnI.willMax) s.local_maxima c with
  | .error _ => .error s
  | .ok (mx1, c1, t1) =>
    match condInsI N rnI.pt (!rnI.wasMax && rnI.willMax) mx1 c1 with
    | .error _ =>
      .error ⟨s.function_points,
              FunctionMaxima.condDel lnI.pt (!lnI.wasMax && lnI.willMax) mx1⟩
    | .ok (mx2, c2, t2) =>
      .ok (⟨(match pI.pt with
             | some p => sErase fpLt p s.function_points
             | none => s.function_points),
            FunctionMaxima.condDel rnI.pt (rnI.wasMax && !rnI.willMax)
              (FunctionMaxima.condDel lnI.pt (lnI.wasMax && !lnI.willMax)
                (FunctionMaxima.condDel pI.pt pI.wasMax mx2))⟩, c2,
        t1 ++ t2 ++ [Ev.mutFP] ++
        (match pI.pt, pI.wasMax with
         | some _, true => [Ev.mutMX] | _, _ => []) ++
        (match lnI.pt, lnI.wasMax && !lnI.willMax with
         | some _, true => [Ev.mutMX] | _, _ => []) ++
        (match rnI.pt, rnI.wasMax && !rnI.willMax with
         | some _, true => [Ev.mutMX] | _, _ => []))

/-- Instrumented `erase` (lines 356-367). -/
def erase_I (N : Nat) (s : FunctionMaxima α β) (a : α) :
    FunctionMaxima α β × Bool × List Ev :=
  match findAI N a s.function_points 0 with
  | .error _ => (s, true, [])
  | .ok (none, _, t0) => (s, false, t0)
  | .ok (some p, c0, t0) =>
    match get_info_for_erase_I N s p c0 with
    | .error _ => (s, true, [])
    | .ok (info, c1, t1) =>
      match erase_aux_I N s info.1 info.2.1 info.2.2 c1 with
      | .error sR => (sR, true, [])
      | .ok (sR, _, t2) => (sR, false, t0 ++ t1 ++ t2)

/-! ## Runs of the instrumented model -/

theorem M_bind_ok {A B : Type} {m : M A} {f : A → M B} {c : Nat}
    {r : B × Nat × List Ev} (h : (m >>= f) c = .ok r) :
    ∃ a c1 t1 t2, m c = .ok (a, c1, t1) ∧ f a c1 = .ok (r.1, r.2.1, t2) ∧
      r.2.2 = t1 ++ t2 := by
  rw [M_bind_def] at h
  cases hm : m c with
  | error e => rw [hm] at h; cases h
  | ok x =>
    obtain ⟨a, c1, t1⟩ := x
    rw [hm] at h
    cases hf : f a c1 with
    | error e => simp only [hf] at h; cases h
    | ok y =>
      obtain ⟨b, c2, t2⟩ := y
      simp only [hf] at h
      cases h
      exact ⟨a, c1, t1, t2, rfl, hf, rfl⟩

theorem M_bind_ok_of {A B : Type} {m : M A} {f : A → M B} {c : Nat}
    {a : A} {c1 : Nat} {t1 : List Ev} (h1 : m c = .ok (a, c1, t1))
    {b : B} {c2 : Nat} {t2 : List Ev} (h2 : f a c1 = .ok (b, c2, t2)) :
    (m >>= f) c = .ok (b, c2, t1 ++ t2) := by
  rw [M_bind_def]
  simp only [h1, h2]

theorem M_pure_ok {A : Type} {a : A} {c : Nat} {r : A × Nat × List Ev}
    (h : (pure a : M A) c = .ok r) : r = (a, c, []) := by
  rw [M_pure_def] at h
  cases h
  rfl

theorem M_bind_tot {A B : Type} {m : M A} {f : A → M B} (c : Nat)
    (hm : ∃ r, m c = .ok r) (hf : ∀ a c1, ∃ r, f a c1 = .ok r) :
    ∃ r, (m >>= f) c = .ok r := by
  obtain ⟨⟨a, c1, t1⟩, hm⟩ := hm
  obtain ⟨⟨b, c2, t2⟩, hf⟩ := hf a c1
  exact ⟨(b, c2, t1 ++ t2), M_bind_ok_of hm hf⟩

theorem M_pure_tot {A : Type} (a : A) (c : Nat) :
    ∃ r, (pure a : M A) c = .ok r := ⟨(a, c, []), M_pure_def a c⟩

theorem fallible_ok {N : Nat} {e : Ev} {c : Nat} {r : Unit × Nat × List Ev}
    (h : fallible N e c = .ok r) : r = ((), c + 1, [e]) := by
  unfold fallible at h
  by_cases hc : c + 1 = N
  · rw [if_pos hc] at h; cases h
  · rw [if_neg hc] at h; cases h; rfl

theorem fallible_tot0 (e : Ev) (c : Nat) :
    fallible 0 e c = .ok ((), c + 1, [e]) := by
  unfold fallible
  rw [if_neg (Nat.succ_ne_zero c)]

theorem cmpI_ok {γ : Type} [LinearOrder γ] {N : Nat} {x y : γ} {c : Nat}
    {r : Bool × Nat × List Ev} (h : cmpI N x y c = .ok r) :
    r = (decide (x < y), c + 1, [Ev.cmp]) := by
  unfold cmpI at h
  obtain ⟨u, c1, t1, t2, h1, h2, h3⟩ := M_bind_ok h
  have e1 := fallible_ok h1
  have e2 := M_pure_ok h2
  obtain ⟨r1, c2, t⟩ := r
  simp_all

theorem cmpI_tot0 {γ : Type} [LinearOrder γ] (x y : γ) (c : Nat) :
    cmpI 0 x y c = .ok (decide (x < y), c + 1, [Ev.cmp]) := by
  unfold cmpI
  exact M_bind_ok_of (fallible_tot0 Ev.cmp c) (M_pure_def _ _)

theorem copyI_ok {N : Nat} {c : Nat} {r : Unit × Nat × List Ev}
    (h : copyI N c = .ok r) : r = ((), c + 1, [Ev.copy]) := fallible_ok h

theorem copyI_tot0 (c : Nat) : copyI 0 c = .ok ((), c + 1, [Ev.copy]) :=
  fallible_tot0 Ev.copy c

variable {α β : Type} [LinearOrder α] [LinearOrder β]

/-- On success the instrumented comparator computes `fpLt` and emits only
comparison events. -/
theorem fpLtI_ok {N : Nat} {p q : PointType α β} {c : Nat}
    {r : Bool × Nat × List Ev} (h : fpLtI N p q c = .ok r) :
    r.1 = decide (fpLt p q) ∧ ∀ e ∈ r.2.2, e = Ev.cmp := by
  unfold fpLtI at h
  obtain ⟨b1, c1, t1, t2, h1, h2, h3⟩ := M_bind_ok h
  have e1 := cmpI_ok h1
  have e1b : b1 = decide (q.arg < p.arg) := congrArg Prod.fst e1
  have e1t : t1 = [Ev.cmp] := congrArg (fun z => z.2.2) e1
  subst e1b
  by_cases hb : q.arg < p.arg
  · rw [decide_eq_true hb] at h2
    simp only [if_true, ite_true, Bool.true_or] at h2
    obtain ⟨b2, c2, t2a, t2b, h2a, h2b, h2c⟩ := M_bind_ok h2
    have h2c' : t2 = t2a ++ t2b := h2c
    have e2 := M_pure_ok h2a
    have e2t : t2a = [] := congrArg (fun z => z.2.2) e2
    have e3 := cmpI_ok h2b
    have e3b : r.1 = decide (p.arg < q.arg) := congrArg Prod.fst e3
    have e3t : t2b = [Ev.cmp] := congrArg (fun z => z.2.2) e3
    refine ⟨by rw [e3b]; simp [fpLt, hb], ?_⟩
    intro e he
    rw [h3, h2c', e1t, e2t, e3t] at he
    simpa using he
  · rw [decide_eq_false hb] at h2
    simp only [Bool.false_eq_true, if_false, ite_false, Bool.false_or] at h2
    obtain ⟨b2, c2, t2a, t2b, h2a, h2b, h2c⟩ := M_bind_ok h2
    have h2c' : t2 = t2a ++ t2b := h2c
    have e2 := cmpI_ok h2a
    have e2b : b2 = decide (p.arg < q.arg) := congrArg Prod.fst e2
    have e2t : t2a = [Ev.cmp] := congrArg (fun z => z.2.2) e2
    subst e2b
    by_cases hb2 : p.arg < q.arg
    · rw [decide_eq_true hb2] at h2b
      simp only [if_true, ite_true] at h2b
      have e3 := cmpI_ok h2b
      have e3b : r.1 = decide (p.arg < q.arg) := congrArg Prod.fst e3
      have e3t : t2b = [Ev.cmp] := congrArg (fun z => z.2.2) e3
      refine ⟨by rw [e3b]; simp [fpLt, hb, hb2], ?_⟩
      intro e he
      rw [h3, h2c', e1t, e2t, e3t] at he
      simpa using he
    · rw [decide_eq_false hb2] at h2b
      simp only [Bool.false_eq_true, if_false, ite_false] at h2b
      have e3 := cmpI_ok h2b
      have e3b : r.1 = decide (p.value < q.value) := congrArg Prod.fst e3
      have e3t : t2b = [Ev.cmp] := congrArg (fun z => z.2.2) e3
      refine ⟨by rw [e3b]; simp [fpLt, hb, hb2], ?_⟩
      intro e he
      rw [h3, h2c', e1t, e2t, e3t] at he
      simpa using he

theorem fpLtI_tot0 (p q : PointType α β) (c : Nat) :
    ∃ r, fpLtI 0 p q c = .ok r := by
  unfold fpLtI
  refine M_bind_tot c ⟨_, cmpI_tot0 _ _ _⟩ (fun b1 c1 => ?_)
  cases b1
  · simp only [Bool.false_eq_true, if_false, ite_false, Bool.false_or]
    refine M_bind_tot c1 ⟨_, cmpI_tot0 _ _ _⟩ (fun b2 c2 => ?_)
    cases b2
    · simp only [Bool.false_eq_true, if_false, ite_false]
      exact ⟨_, cmpI_tot0 _ _ _⟩
    · simp only [if_true, ite_true]
      exact ⟨_, cmpI_tot0 _ _ _⟩
  · simp only [if_true, ite_true, Bool.true_or]
    refine M_bind_tot c1 (M_pure_tot _ _) (fun b2 c2 => ?_)
    exact ⟨_, cmpI_tot0 _ _ _⟩

/-- On success the instrumented maxima comparator computes `mxLt` and emits
only comparison events. -/
theorem mxLtI_ok {N : Nat} {p q : PointType α β} {c : Nat}
    {r : Bool × Nat × List Ev} (h : mxLtI N p q c = .ok r) :
    r.1 = decide (mxLt p q) ∧ ∀ e ∈ r.2.2, e = Ev.cmp := by
  unfold mxLtI at h
  obtain ⟨b1, c1, t1, t2, h1, h2, h3⟩ := M_bind_ok h
  have e1 := cmpI_ok h1
  have e1b : b1 = decide (q.value < p.value) := congrArg Prod.fst e1
  have e1t : t1 = [Ev.cmp] := congrArg (fun z => z.2.2) e1
  subst e1b
  by_cases hb : q.value < p.value
  · rw [decide_eq_true hb] at h2
    simp only [if_true, ite_true, Bool.true_or] at h2
    obtain ⟨b2, c2, t2a, t2b, h2a, h2b, h2c⟩ := M_bind_ok h2
    have h2c' : t2 = t2a ++ t2b := h2c
    have e2 := M_pure_ok h2a
    have e2t : t2a = [] := congrArg (fun z => z.2.2) e2
    have e3 := cmpI_ok h2b
    have e3b : r.1 = decide (q.value < p.value) := congrArg Prod.fst e3
    have e3t : t2b = [Ev.cmp] := congrArg (fun z => z.2.2) e3
    refine ⟨by rw [e3b]; simp [mxLt, hb], ?_⟩
    intro e he
    rw [h3, h2c', e1t, e2t, e3t] at he
    simpa using he
  · rw [decide_eq_false hb] at h2
    simp only [Bool.false_eq_true, if_false, ite_false, Bool.false_or] at h2
    obtain ⟨b2, c2, t2a, t2b, h2a, h2b, h2c⟩ := M_bind_ok h2
    have h2c' : t2 = t2a ++ t2b := h2c
    have e2 := cmpI_ok h2a
    have e2b : b2 = decide (p.value < q.value) := congrArg Prod.fst e2
    have e2t : t2a = [Ev.cmp] := congrArg (fun z => z.2.2) e2
    subst e2b
    by_cases hb2 : p.value < q.value
    · rw [decide_eq_true hb2] at h2b
      simp only [if_true, ite_true] at h2b
      have e3 := cmpI_ok h2b
      have e3b : r.1 = decide (q.value < p.value) := congrArg Prod.fst e3
      have e3t : t2b = [Ev.cmp] := congrArg (fun z => z.2.2) e3
      refine ⟨by rw [e3b]; simp [mxLt, hb, hb2], ?_⟩
      intro e he
      rw [h3, h2c', e1t, e2t, e3t] at he
      simpa using he
    · rw [decide_eq_false hb2] at h2b
      simp only [Bool.false_eq_true, if_false, ite_false] at h2b
      have e3 := cmpI_ok h2b
      have e3b : r.1 = decide (p.arg < q.arg) := congrArg Prod.fst e3
      have e3t : t2b = [Ev.cmp] := congrArg (fun z => z.2.2) e3
      refine ⟨by rw [e3b]; simp [mxLt, hb, hb2], ?_⟩
      intro e he
      rw [h3, h2c', e1t, e2t, e3t] at he
      simpa using he

theorem mxLtI_tot0 (p q : PointType α β) (c : Nat) :
    ∃ r, mxLtI 0 p q c = .ok r := by
  unfold mxLtI
  refine M_bind_tot c ⟨_, cmpI_tot0 _ _ _⟩ (fun b1 c1 => ?_)
  cases b1
  · simp only [Bool.false_eq_true, if_false, ite_false, Bool.false_or]
    refine M_bind_tot c1 ⟨_, cmpI_tot0 _ _ _⟩ (fun b2 c2 => ?_)
    cases b2
    · simp only [Bool.false_eq_true, if_false, ite_false]
      exact ⟨_, cmpI_tot0 _ _ _⟩
    · simp only [if_true, ite_true]
      exact ⟨_, cmpI_tot0 _ _ _⟩
  · simp only [if_true, ite_true, Bool.true_or]
    refine M_bind_tot c1 (M_pure_tot _ _) (fun b2 c2 => ?_)
    exact ⟨_, cmpI_tot0 _ _ _⟩


variable {α β : Type} [LinearOrder α] [LinearOrder β]

theorem getLast?_cons_or {P : Type} (q : P) (t : List P) (prev : Option P) :
    ((q :: t).getLast?).or prev = t.getLast?.or (some q) := by
  induction t generalizing q with
  | nil => rfl
  | cons z t ih =>
    rw [List.getLast?_cons_cons,
      List.getLast?_eq_getLast (z :: t) (by simp)]
    rfl

/-- On success the instrumented transparent find computes `findA` and emits
only comparison events. -/
theorem findAI_ok {N : Nat} {a : α} {l : List (PointType α β)} {c : Nat}
    {r : Option (PointType α β) × Nat × List Ev}
    (h : findAI N a l c = .ok r) :
    r.1 = findA a l ∧ ∀ e ∈ r.2.2, e = Ev.cmp := by
  induction l generalizing c r with
  | nil =>
    unfold findAI at h
    have := M_pure_ok h
    subst this
    exact ⟨rfl, by simp⟩
  | cons q l ih =>
    unfold findAI at h
    obtain ⟨b1, c1, t1, t2, h1, h2, h3⟩ := M_bind_ok h
    have e1 := cmpI_ok h1
    have e1b : b1 = decide (q.arg < a) := congrArg Prod.fst e1
    have e1t : t1 = [Ev.cmp] := congrArg (fun z => z.2.2) e1
    subst e1b
    by_cases hq : q.arg < a
    · rw [decide_eq_true hq] at h2
      simp only [if_true, ite_true] at h2
      obtain ⟨ihv, iht⟩ := ih h2
      refine ⟨?_, ?_⟩
      · rw [ihv]
        unfold findA
        rw [List.find?_cons_of_neg]
        simp [hq]
      · intro e he
        rw [h3, e1t] at he
        rcases List.mem_append.mp he with he | he
        · simpa using he
        · exact iht e he
    · rw [decide_eq_false hq] at h2
      simp only [Bool.false_eq_true, if_false, ite_false] at h2
      obtain ⟨b2, c2, t2a, t2b, h2a, h2b, h2c⟩ := M_bind_ok h2
      have h2c' : t2 = t2a ++ t2b := h2c
      have e2 := cmpI_ok h2a
      have e2b : b2 = decide (a < q.arg) := congrArg Prod.fst e2
      have e2t : t2a = [Ev.cmp] := congrArg (fun z => z.2.2) e2
      subst e2b
      by_cases hq2 : a < q.arg
      · rw [decide_eq_true hq2] at h2b
        simp only [if_true, ite_true] at h2b
        obtain ⟨ihv, iht⟩ := ih h2b
        refine ⟨?_, ?_⟩
        · rw [show r.1 = findA a l from ihv]
          unfold findA
          rw [List.find?_cons_of_neg]
          simp [hq2]
        · intro e he
          rw [h3, h2c', e1t, e2t] at he
          rcases List.mem_append.mp he with he | he
          · simpa using he
          · rcases List.mem_append.mp he with he | he
            · simpa using he
            · exact iht e he
      · rw [decide_eq_false hq2] at h2b
        simp only [Bool.false_eq_true, if_false, ite_false] at h2b
        have e3 := M_pure_ok h2b
        have e3v : r.1 = some q := congrArg Prod.fst e3
        have e3t : t2b = [] := congrArg (fun z => z.2.2) e3
        refine ⟨?_, ?_⟩
        · rw [e3v]
          unfold findA
          rw [List.find?_cons_of_pos]
          simp [hq, hq2]
        · intro e he
          rw [h3, h2c', e1t, e2t, e3t] at he
          simp only [List.append_nil] at he
          rcases List.mem_append.mp he with he | he <;> simpa using he

theorem findAI_tot0 (a : α) (l : List (PointType α β)) (c : Nat) :
    ∃ r, findAI 0 a l c = .ok r := by
  induction l generalizing c with
  | nil => exact M_pure_tot _ _
  | cons q l ih =>
    unfold findAI
    refine M_bind_tot c ⟨_, cmpI_tot0 _ _ _⟩ (fun b1 c1 => ?_)
    cases b1
    · simp only [Bool.false_eq_true, if_false, ite_false]
      refine M_bind_tot c1 ⟨_, cmpI_tot0 _ _ _⟩ (fun b2 c2 => ?_)
      cases b2
      · simp only [Bool.false_eq_true, if_false, ite_false]
        exact M_pure_tot _ _
      · simp only [if_true, ite_true]
        exact ih c2
    · simp only [if_true, ite_true]
      exact ih c1

/-- On success the instrumented maxima find computes `sFind mxLt` and emits
only comparison events. -/
theorem sFindI_ok {N : Nat} {x : PointType α β} {l : List (PointType α β)}
    {c : Nat} {r : Option (PointType α β) × Nat × List Ev}
    (h : sFindI N x l c = .ok r) :
    r.1 = sFind mxLt x l ∧ ∀ e ∈ r.2.2, e = Ev.cmp := by
  induction l generalizing c r with
  | nil =>
    unfold sFindI at h
    have := M_pure_ok h
    subst this
    exact ⟨rfl, by simp⟩
  | cons q l ih =>
    unfold sFindI at h
    obtain ⟨b1, c1, t1, t2, h1, h2, h3⟩ := M_bind_ok h
    obtain ⟨e1b0, e1t⟩ := mxLtI_ok h1
    have e1b : b1 = decide (mxLt x q) := e1b0
    rw [e1b] at h2
    by_cases hq : mxLt x q
    · rw [decide_eq_true hq] at h2
      simp only [if_true, ite_true] at h2
      obtain ⟨ihv, iht⟩ := ih h2
      refine ⟨?_, ?_⟩
      · rw [ihv]
        unfold sFind
        rw [List.find?_cons_of_neg]
        simp [hq]
      · intro e he
        rw [h3] at he
        rcases List.mem_append.mp he with he | he
        · exact e1t e he
        · exact iht e he
    · rw [decide_eq_false hq] at h2
      simp only [Bool.false_eq_true, if_false, ite_false] at h2
      obtain ⟨b2, c2, t2a, t2b, h2a, h2b, h2c⟩ := M_bind_ok h2
      have h2c' : t2 = t2a ++ t2b := h2c
      obtain ⟨e2b0, e2t⟩ := mxLtI_ok h2a
      have e2b : b2 = decide (mxLt q x) := e2b0
      rw [e2b] at h2b
      by_cases hq2 : mxLt q x
      · rw [decide_eq_true hq2] at h2b
        simp only [if_true, ite_true] at h2b
        obtain ⟨ihv, iht⟩ := ih h2b
        refine ⟨?_, ?_⟩
        · rw [show r.1 = sFind mxLt x l from ihv]
          unfold sFind
          rw [List.find?_cons_of_neg]
          simp [hq, hq2]
        · intro e he
          rw [h3, h2c'] at he
          rcases List.mem_append.mp he with he | he
          · exact e1t e he
          · rcases List.mem_append.mp he with he | he
            · exact e2t e he
            · exact iht e he
      · rw [decide_eq_false hq2] at h2b
        simp only [Bool.false_eq_true, if_false, ite_false] at h2b
        have e3 := M_pure_ok h2b
        have e3v : r.1 = some q := congrArg Prod.fst e3
        have e3t : t2b = [] := congrArg (fun z => z.2.2) e3
        refine ⟨?_, ?_⟩
        · rw [e3v]
          unfold sFind
          rw [List.find?_cons_of_pos]
          simp [hq, hq2]
        · intro e he
          rw [h3, h2c', e3t] at he
          simp only [List.append_nil] at he
          rcases List.mem_append.mp he with he | he
          · exact e1t e he
          · exact e2t e he

theorem sFindI_tot0 (x : PointType α β) (l : List (PointType α β)) (c : Nat) :
    ∃ r, sFindI 0 x l c = .ok r := by
  induction l generalizing c with
  | nil => exact M_pure_tot _ _
  | cons q l ih =>
    unfold sFindI
    refine M_bind_tot c (mxLtI_tot0 _ _ _) (fun b1 c1 => ?_)
    cases b1
    · simp only [Bool.false_eq_true, if_false, ite_false]
      refine M_bind_tot c1 (mxLtI_tot0 _ _ _) (fun b2 c2 => ?_)
      cases b2
      · simp only [Bool.false_eq_true, if_false, ite_false]
        exact M_pure_tot _ _
      · simp only [if_true, ite_true]
        exact ih c2
    · simp only [if_true, ite_true]
      exact ih c1

/-- On success the instrumented `lower_bound`-with-predecessor walk computes
the pure `lbPred` / `lowerBoundFP` pair (relative to the accumulated
predecessor) and emits only comparison events. -/
theorem lowerBoundWithPredI_ok {N : Nat} {x : PointType α β}
    {prev : Option (PointType α β)} {l : List (PointType α β)} {c : Nat}
    {r : (Option (PointType α β) × Option (PointType α β)) × Nat × List Ev}
    (h : lowerBoundWithPredI N x prev l c = .ok r) :
    r.1 = (((l.takeWhile fun q => decide (fpLt q x)).getLast?).or prev,
      (l.dropWhile fun q => decide (fpLt q x)).head?) ∧
    ∀ e ∈ r.2.2, e = Ev.cmp := by
  induction l generalizing prev c r with
  | nil =>
    unfold lowerBoundWithPredI at h
    have := M_pure_ok h
    subst this
    exact ⟨by simp [Option.or], by simp⟩
  | cons q l ih =>
    unfold lowerBoundWithPredI at h
    obtain ⟨b, c1, t1, t2, h1, h2, h3⟩ := M_bind_ok h
    obtain ⟨e1b0, e1t⟩ := fpLtI_ok h1
    have e1b : b = decide (fpLt q x) := e1b0
    rw [e1b] at h2
    by_cases hq : fpLt q x
    · rw [decide_eq_true hq] at h2
      simp only [if_true, ite_true] at h2
      obtain ⟨ihv, iht⟩ := ih h2
      refine ⟨?_, ?_⟩
      · rw [ihv]
        rw [List.takeWhile_cons_of_pos (by simp [hq]),
          List.dropWhile_cons_of_pos (by simp [hq])]
        rw [getLast?_cons_or]
      · intro e he
        rw [h3] at he
        rcases List.mem_append.mp he with he | he
        · exact e1t e he
        · exact iht e he
    · rw [decide_eq_false hq] at h2
      simp only [Bool.false_eq_true, if_false, ite_false] at h2
      have e2 := M_pure_ok h2
      have e2v : r.1 = (prev, some q) := congrArg Prod.fst e2
      have e2t : t2 = [] := congrArg (fun z => z.2.2) e2
      refine ⟨?_, ?_⟩
      · rw [e2v]
        rw [List.takeWhile_cons_of_neg (by simp [hq]),
          List.dropWhile_cons_of_neg (by simp [hq])]
        simp [Option.or]
      · intro e he
        rw [h3, e2t] at he
        simp only [List.append_nil] at he
        exact e1t e he

theorem lowerBoundWithPredI_tot0 (x : PointType α β)
    (prev : Option (PointType α β)) (l : List (PointType α β)) (c : Nat) :
    ∃ r, lowerBoundWithPredI 0 x prev l c = .ok r := by
  induction l generalizing prev c with
  | nil => exact M_pure_tot _ _
  | cons q l ih =>
    unfold lowerBoundWithPredI
    refine M_bind_tot c (fpLtI_tot0 _ _ _) (fun b c1 => ?_)
    cases b
    · simp only [Bool.false_eq_true, if_false, ite_false]
      exact M_pure_tot _ _
    · simp only [if_true, ite_true]
      exact ih (some q) c1

/-- On success the instrumented point construction yields `⟨a, v⟩`, advances
the counter by two and emits exactly the two copy events. -/
theorem createPointI_ok {N : Nat} {a : α} {v : β} {c : Nat}
    {r : PointType α β × Nat × List Ev} (h : createPointI N a v c = .ok r) :
    r = (⟨a, v⟩, c + 2, [Ev.copy, Ev.copy]) := by
  unfold createPointI at h
  obtain ⟨u1, c1, t1, t2, h1, h2, h3⟩ := M_bind_ok h
  have e1 := copyI_ok h1
  obtain ⟨u2, c2, t2a, t2b, h2a, h2b, h2c⟩ := M_bind_ok h2
  have h2c' : t2 = t2a ++ t2b := h2c
  have e2 := copyI_ok h2a
  have e3 := M_pure_ok h2b
  obtain ⟨rp, rc, rt⟩ := r
  have e1c : c1 = c + 1 := congrArg (fun z => z.2.1) e1
  have e1t : t1 = [Ev.copy] := congrArg (fun z => z.2.2) e1
  have e2c : c2 = c1 + 1 := congrArg (fun z => z.2.1) e2
  have e2t : t2a = [Ev.copy] := congrArg (fun z => z.2.2) e2
  have e3p : rp = ⟨a, v⟩ := congrArg Prod.fst e3
  have e3c : rc = c2 := congrArg (fun z => z.2.1) e3
  have e3t : t2b = [] := congrArg (fun z => z.2.2) e3
  have h3' : rt = t1 ++ t2 := h3
  subst e1c e2c e3c e1t e2t e3t e3p
  rw [h3', h2c']
  rfl

theorem createPointI_tot0 (a : α) (v : β) (c : Nat) :
    createPointI 0 a v c = .ok (⟨a, v⟩, c + 2, [Ev.copy, Ev.copy]) := by
  unfold createPointI
  exact M_bind_ok_of (copyI_tot0 c)
    (M_bind_ok_of (copyI_tot0 (c + 1)) (M_pure_def _ _))

/-- On success the instrumented same-value check computes
`check_whether_the_same` and emits only comparison events. -/
theorem check_same_I_ok {N : Nat} {s : FunctionMaxima α β} {a : α} {v : β}
    {c : Nat} {r : Bool × Nat × List Ev} (h : check_same_I N s a v c = .ok r) :
    r.1 = FunctionMaxima.check_whether_the_same s a v ∧
    ∀ e ∈ r.2.2, e = Ev.cmp := by
  unfold check_same_I at h
  obtain ⟨o, c1, t1, t2, h1, h2, h3⟩ := M_bind_ok h
  obtain ⟨e1v, e1t⟩ := findAI_ok h1
  unfold FunctionMaxima.check_whether_the_same
  rw [← e1v]
  cases o with
  | none =>
    have e2 := M_pure_ok h2
    have e2v : r.1 = false := congrArg Prod.fst e2
    have e2t : t2 = [] := congrArg (fun z => z.2.2) e2
    refine ⟨e2v, ?_⟩
    intro e he
    rw [h3, e2t] at he
    simp only [List.append_nil] at he
    exact e1t e he
  | some p =>
    obtain ⟨b1, c2, t2a, t2b, h2a, h2b, h2c⟩ := M_bind_ok h2
    have h2c' : t2 = t2a ++ t2b := h2c
    have e2 := cmpI_ok h2a
    have e2b : b1 = decide (v < p.value) := congrArg Prod.fst e2
    have e2t : t2a = [Ev.cmp] := congrArg (fun z => z.2.2) e2
    subst e2b
    by_cases hv : v < p.value
    · rw [decide_eq_true hv] at h2b
      simp only [if_true, ite_true] at h2b
      have e3 := M_pure_ok h2b
      have e3v : r.1 = false := congrArg Prod.fst e3
      have e3t : t2b = [] := congrArg (fun z => z.2.2) e3
      refine ⟨by rw [e3v]; simp [hv], ?_⟩
      intro e he
      rw [h3, h2c', e2t, e3t] at he
      simp only [List.append_nil] at he
      rcases List.mem_append.mp he with he | he
      · exact e1t e he
      · simpa using he
    · rw [decide_eq_false hv] at h2b
      simp only [Bool.false_eq_true, if_false, ite_false] at h2b
      obtain ⟨b2, c3, t2c, t2d, h2d, h2e, h2f⟩ := M_bind_ok h2b
      have h2f' : t2b = t2c ++ t2d := h2f
      have e3 := cmpI_ok h2d
      have e3b : b2 = decide (p.value < v) := congrArg Prod.fst e3
      have e3t : t2c = [Ev.cmp] := congrArg (fun z => z.2.2) e3
      have e4 := M_pure_ok h2e
      have e4v : r.1 = !b2 := congrArg Prod.fst e4
      have e4t : t2d = [] := congrArg (fun z => z.2.2) e4
      refine ⟨by rw [e4v, e3b]; simp [hv], ?_⟩
      intro e he
      rw [h3, h2c', e2t, h2f', e3t, e4t] at he
      simp only [List.append_nil] at he
      rcases List.mem_append.mp he with he | he
      · exact e1t e he
      · rcases List.mem_append.mp he with he | he <;> simpa using he

theorem check_same_I_tot0 (s : FunctionMaxima α β) (a : α) (v : β) (c : Nat) :
    ∃ r, check_same_I 0 s a v c = .ok r := by
  unfold check_same_I
  refine M_bind_tot c (findAI_tot0 _ _ _) (fun o c1 => ?_)
  cases o with
  | none => exact M_pure_tot _ _
  | some p =>
    refine M_bind_tot c1 ⟨_, cmpI_tot0 _ _ _⟩ (fun b1 c2 => ?_)
    cases b1
    · simp only [Bool.false_eq_true, if_false, ite_false]
      refine M_bind_tot c2 ⟨_, cmpI_tot0 _ _ _⟩ (fun b2 c3 => ?_)
      exact M_pure_tot _ _
    · simp only [if_true, ite_true]
      exact M_pure_tot _ _

theorem trace_app {t1 t2 : List Ev} {Q : Ev → Prop}
    (h1 : ∀ e ∈ t1, Q e) (h2 : ∀ e ∈ t2, Q e) : ∀ e ∈ t1 ++ t2, Q e := by
  intro e he
  rcases List.mem_append.mp he with h | h
  · exact h1 e h
  · exact h2 e h

/-- The was-maximum flag for an optional point: `local_maxima.find != end`. -/
def wasVal (mx : List (PointType α β)) : Option (PointType α β) → Bool
  | some L => FunctionMaxima.mxMem mx L
  | none => false

/-- `o == end || !(x < o value)`: the building block of the will-be-maximum
classifications. -/
def notLtVal (x : β) : Option (PointType α β) → Bool
  | none => true
  | some L => !decide (x < L.value)

/-- The will-be-maximum flag of the left neighbor in `set_value` (lines
428-431). -/
def wilLnSvVal (fp : List (PointType α β)) (v : β) :
    Option (PointType α β) → Bool
  | none => false
  | some L => notLtVal L.value (itPred fp L) && !decide (L.value < v)

/-- The will-be-maximum flag of the right neighbor in `set_value` (lines
432-435). -/
def wilRnSvVal (fp : List (PointType α β)) (v : β) :
    Option (PointType α β) → Bool
  | none => false
  | some R => !decide (R.value < v) && notLtVal R.value (itSucc fp R)

/-- The will-be-maximum flag of the left neighbor in `erase` (lines
473-478). -/
def wilLnErVal (fp : List (PointType α β)) (rn : Option (PointType α β)) :
    Option (PointType α β) → Bool
  | none => false
  | some L => notLtVal L.value (itPred fp L) && notLtVal L.value rn

/-- The will-be-maximum flag of the right neighbor in `erase` (lines
479-484). -/
def wilRnErVal (fp : List (PointType α β)) (ln : Option (PointType α β)) :
    Option (PointType α β) → Bool
  | none => false
  | some R => notLtVal R.value ln && notLtVal R.value (itSucc fp R)

/-- The was-maximum lookup step (`get<1>`, lines 421-423 / 459-471): a
`local_maxima.find` on the neighbor, when present. -/
theorem wasStep_ok {N : Nat} {mx : List (PointType α β)}
    {o : Option (PointType α β)} {c : Nat} {r : Bool × Nat × List Ev}
    (h : (match o with
      | some L => do
          let f ← sFindI N L mx
          pure f.isSome
      | none => (pure false : M Bool)) c = .ok r) :
    r.1 = wasVal mx o ∧ ∀ e ∈ r.2.2, e = Ev.cmp := by
  cases o with
  | none =>
    have e := M_pure_ok h
    have ev : r.1 = false := congrArg Prod.fst e
    have et : r.2.2 = [] := congrArg (fun z => z.2.2) e
    exact ⟨ev, by rw [et]; simp⟩
  | some L =>
    obtain ⟨f, c1, t1, t2, h1, h2, h3⟩ := M_bind_ok h
    obtain ⟨e1v0, e1t⟩ := sFindI_ok h1
    have e1v : f = sFind mxLt L mx := e1v0
    have e2 := M_pure_ok h2
    have e2v : r.1 = f.isSome := congrArg Prod.fst e2
    have e2t : t2 = [] := congrArg (fun z => z.2.2) e2
    refine ⟨by rw [e2v, e1v]; rfl, ?_⟩
    intro e he
    rw [h3, e2t] at he
    simp only [List.append_nil] at he
    exact e1t e he

theorem wasStep_tot0 (mx : List (PointType α β))
    (o : Option (PointType α β)) (c : Nat) :
    ∃ r : Bool × Nat × List Ev, (match o with
      | some L => do
          let f ← sFindI 0 L mx
          pure f.isSome
      | none => (pure false : M Bool)) c = .ok r := by
  cases o with
  | none => exact M_pure_tot _ _
  | some L => exact M_bind_tot c (sFindI_tot0 _ _ _) (fun f c1 => M_pure_tot _ _)

/-- The repeated `local_maxima.find` of the `get<3>` components
(lines 437-439 / 468-469). -/
theorem g3Step_ok {N : Nat} {mx : List (PointType α β)}
    {o : Option (PointType α β)} {c : Nat} {r : Unit × Nat × List Ev}
    (h : (match o with
      | some L => do
          let _ ← sFindI N L mx
          pure ()
      | none => (pure () : M Unit)) c = .ok r) :
    ∀ e ∈ r.2.2, e = Ev.cmp := by
  cases o with
  | none =>
    have e := M_pure_ok h
    have et : r.2.2 = [] := congrArg (fun z => z.2.2) e
    rw [et]
    simp
  | some L =>
    obtain ⟨f, c1, t1, t2, h1, h2, h3⟩ := M_bind_ok h
    obtain ⟨-, e1t⟩ := sFindI_ok h1
    have e2 := M_pure_ok h2
    have e2t : t2 = [] := congrArg (fun z => z.2.2) e2
    intro e he
    rw [h3, e2t] at he
    simp only [List.append_nil] at he
    exact e1t e he

theorem g3Step_tot0 (mx : List (PointType α β))
    (o : Option (PointType α β)) (c : Nat) :
    ∃ r : Unit × Nat × List Ev, (match o with
      | some L => do
          let _ ← sFindI 0 L mx
          pure ()
      | none => (pure () : M Unit)) c = .ok r := by
  cases o with
  | none => exact M_pure_tot _ _
  | some L => exact M_bind_tot c (sFindI_tot0 _ _ _) (fun f c1 => M_pure_tot _ _)

/-- The not-less comparison against an optional neighbor
(`o == end || !(x < o value)`). -/
theorem notLtStep_ok {N : Nat} {x : β} {o : Option (PointType α β)} {c : Nat}
    {r : Bool × Nat × List Ev}
    (h : (match o with
      | none => (pure true : M Bool)
      | some L => do
          let b ← cmpI N x L.value
          pure (!b)) c = .ok r) :
    r.1 = notLtVal x o ∧ ∀ e ∈ r.2.2, e = Ev.cmp := by
  cases o with
  | none =>
    have e := M_pure_ok h
    have ev : r.1 = true := congrArg Prod.fst e
    have et : r.2.2 = [] := congrArg (fun z => z.2.2) e
    exact ⟨ev, by rw [et]; simp⟩
  | some L =>
    obtain ⟨b, c1, t1, t2, h1, h2, h3⟩ := M_bind_ok h
    have e1 := cmpI_ok h1
    have e1b : b = decide (x < L.value) := congrArg Prod.fst e1
    have e1t : t1 = [Ev.cmp] := congrArg (fun z => z.2.2) e1
    have e2 := M_pure_ok h2
    have e2v : r.1 = !b := congrArg Prod.fst e2
    have e2t : t2 = [] := congrArg (fun z => z.2.2) e2
    refine ⟨by rw [e2v, e1b]; rfl, ?_⟩
    intro e he
    rw [h3, e1t, e2t] at he
    simpa using he

theorem notLtStep_tot0 (x : β) (o : Option (PointType α β)) (c : Nat) :
    ∃ r : Bool × Nat × List Ev, (match o with
      | none => (pure true : M Bool)
      | some L => do
          let b ← cmpI 0 x L.value
          pure (!b)) c = .ok r := by
  cases o with
  | none => exact M_pure_tot _ _
  | some L => exact M_bind_tot c ⟨_, cmpI_tot0 _ _ _⟩ (fun b c1 => M_pure_tot _ _)

/-- The will-be-maximum chain for the left neighbor in `set_value`
classification (lines 428-431). -/
theorem wilLnSvStep_ok {N : Nat} {fp : List (PointType α β)} {v : β}
    {o : Option (PointType α β)} {c : Nat} {r : Bool × Nat × List Ev}
    (h : (match o with
      | none => (pure false : M Bool)
      | some L => do
          let c1 ← (match itPred fp L with
            | none => pure true
            | some LL => do
                let b ← cmpI N L.value LL.value
                pure (!b))
          if c1 then do
            let b ← cmpI N L.value v
            pure (!b)
          else pure false) c = .ok r) :
    r.1 = wilLnSvVal fp v o ∧ ∀ e ∈ r.2.2, e = Ev.cmp := by
  cases o with
  | none =>
    have e := M_pure_ok h
    have ev : r.1 = false := congrArg Prod.fst e
    have et : r.2.2 = [] := congrArg (fun z => z.2.2) e
    exact ⟨ev, by rw [et]; simp⟩
  | some L =>
    obtain ⟨c1v, c1c, t1, t2, h1, h2, h3⟩ := M_bind_ok h
    obtain ⟨e1v0, e1t⟩ := notLtStep_ok h1
    have e1v : c1v = notLtVal L.value (itPred fp L) := e1v0
    rw [e1v] at h2
    cases hd : notLtVal L.value (itPred fp L) with
    | false =>
      rw [hd] at h2
      simp only [Bool.false_eq_true, if_false, ite_false] at h2
      have e2 := M_pure_ok h2
      have e2v : r.1 = false := congrArg Prod.fst e2
      have e2t : t2 = [] := congrArg (fun z => z.2.2) e2
      refine ⟨by rw [e2v]; simp [wilLnSvVal, hd], ?_⟩
      intro e he
      rw [h3, e2t] at he
      simp only [List.append_nil] at he
      exact e1t e he
    | true =>
      rw [hd] at h2
      simp only [if_true, ite_true] at h2
      obtain ⟨b, c2, t2a, t2b, h2a, h2b, h2c⟩ := M_bind_ok h2
      have h2c' : t2 = t2a ++ t2b := h2c
      have e2 := cmpI_ok h2a
      have e2b : b = decide (L.value < v) := congrArg Prod.fst e2
      have e2t : t2a = [Ev.cmp] := congrArg (fun z => z.2.2) e2
      have e3 := M_pure_ok h2b
      have e3v : r.1 = !b := congrArg Prod.fst e3
      have e3t : t2b = [] := congrArg (fun z => z.2.2) e3
      refine ⟨by rw [e3v, e2b]; simp [wilLnSvVal, hd], ?_⟩
      intro e he
      rw [h3, h2c', e2t, e3t] at he
      simp only [List.append_nil] at he
      rcases List.mem_append.mp he with he | he
      · exact e1t e he
      · simpa using he

theorem wilLnSvStep_tot0 (fp : List (PointType α β)) (v : β)
    (o : Option (PointType α β)) (c : Nat) :
    ∃ r : Bool × Nat × List Ev, (match o with
      | none => (pure false : M Bool)
      | some L => do
          let c1 ← (match itPred fp L with
            | none => pure true
            | some LL => do
                let b ← cmpI 0 L.value LL.value
                pure (!b))
          if c1 then do
            let b ← cmpI 0 L.value v
            pure (!b)
          else pure false) c = .ok r := by
  cases o with
  | none => exact M_pure_tot _ _
  | some L =>
    refine M_bind_tot c (notLtStep_tot0 _ _ _) (fun c1 c1c => ?_)
    cases c1
    · simp only [Bool.false_eq_true, if_false, ite_false]
      exact M_pure_tot _ _
    · simp only [if_true, ite_true]
      exact M_bind_tot c1c ⟨_, cmpI_tot0 _ _ _⟩ (fun b c2 => M_pure_tot _ _)

/-- The will-be-maximum chain for the right neighbor in `set_value`
classification (lines 432-435). -/
theorem wilRnSvStep_ok {N : Nat} {fp : List (PointType α β)} {v : β}
    {o : Option (PointType α β)} {c : Nat} {r : Bool × Nat × List Ev}
    (h : (match o with
      | none => (pure false : M Bool)
      | some R => do
          let b ← cmpI N R.value v
          if !b then
            match itSucc fp R with
            | none => pure true
            | some RR => do
                let b2 ← cmpI N R.value RR.value
                pure (!b2)
          else pure false) c = .ok r) :
    r.1 = wilRnSvVal fp v o ∧ ∀ e ∈ r.2.2, e = Ev.cmp := by
  cases o with
  | none =>
    have e := M_pure_ok h
    have ev : r.1 = false := congrArg Prod.fst e
    have et : r.2.2 = [] := congrArg (fun z => z.2.2) e
    exact ⟨ev, by rw [et]; simp⟩
  | some R =>
    obtain ⟨b, c1, t1, t2, h1, h2, h3⟩ := M_bind_ok h
    have e1 := cmpI_ok h1
    have e1b : b = decide (R.value < v) := congrArg Prod.fst e1
    have e1t : t1 = [Ev.cmp] := congrArg (fun z => z.2.2) e1
    subst e1b
    by_cases hv : R.value < v
    · rw [decide_eq_true hv] at h2
      simp only [Bool.not_true, Bool.false_eq_true, if_false, ite_false] at h2
      have e2 := M_pure_ok h2
      have e2v : r.1 = false := congrArg Prod.fst e2
      have e2t : t2 = [] := congrArg (fun z => z.2.2) e2
      refine ⟨by rw [e2v]; simp [wilRnSvVal, hv], ?_⟩
      intro e he
      rw [h3, e1t, e2t] at he
      simpa using he
    · rw [decide_eq_false hv] at h2
      simp only [Bool.not_false, if_true, ite_true] at h2
      obtain ⟨e2v0, e2t⟩ := notLtStep_ok h2
      have e2v : r.1 = notLtVal R.value (itSucc fp R) := e2v0
      refine ⟨by rw [e2v]; simp [wilRnSvVal, hv], ?_⟩
      intro e he
      rw [h3, e1t] at he
      rcases List.mem_append.mp he with he | he
      · simpa using he
      · exact e2t e he

theorem wilRnSvStep_tot0 (fp : List (PointType α β)) (v : β)
    (o : Option (PointType α β)) (c : Nat) :
    ∃ r : Bool × Nat × List Ev, (match o with
      | none => (pure false : M Bool)
      | some R => do
          let b ← cmpI 0 R.value v
          if !b then
            match itSucc fp R with
            | none => pure true
            | some RR => do
                let b2 ← cmpI 0 R.value RR.value
                pure (!b2)
          else pure false) c = .ok r := by
  cases o with
  | none => exact M_pure_tot _ _
  | some R =>
    refine M_bind_tot c ⟨_, cmpI_tot0 _ _ _⟩ (fun b c1 => ?_)
    cases b
    · simp only [Bool.not_false, if_true, ite_true]
      exact notLtStep_tot0 _ _ _
    · simp only [Bool.not_true, Bool.false_eq_true, if_false, ite_false]
      exact M_pure_tot _ _

/-- The will-be-maximum chain for the left neighbor in `erase` classification
(lines 473-478). -/
theorem wilLnErStep_ok {N : Nat} {fp : List (PointType α β)}
    {rn : Option (PointType α β)} {o : Option (PointType α β)} {c : Nat}
    {r : Bool × Nat × List Ev}
    (h : (match o with
      | none => (pure false : M Bool)
      | some L => do
          let c1 ← (match itPred fp L with
            | none => pure true
            | some LL => do
                let b ← cmpI N L.value LL.value
                pure (!b))
          if c1 then
            match rn with
            | none => pure true
            | some R => do
                let b ← cmpI N L.value R.value
                pure (!b)
          else pure false) c = .ok r) :
    r.1 = wilLnErVal fp rn o ∧ ∀ e ∈ r.2.2, e = Ev.cmp := by
  cases o with
  | none =>
    have e := M_pure_ok h
    have ev : r.1 = false := congrArg Prod.fst e
    have et : r.2.2 = [] := congrArg (fun z => z.2.2) e
    exact ⟨ev, by rw [et]; simp⟩
  | some L =>
    obtain ⟨c1v, c1c, t1, t2, h1, h2, h3⟩ := M_bind_ok h
    obtain ⟨e1v0, e1t⟩ := notLtStep_ok h1
    have e1v : c1v = notLtVal L.value (itPred fp L) := e1v0
    rw [e1v] at h2
    cases hd : notLtVal L.value (itPred fp L) with
    | false =>
      rw [hd] at h2
      simp only [Bool.false_eq_true, if_false, ite_false] at h2
      have e2 := M_pure_ok h2
      have e2v : r.1 = false := congrArg Prod.fst e2
      have e2t : t2 = [] := congrArg (fun z => z.2.2) e2
      refine ⟨by rw [e2v]; simp [wilLnErVal, hd], ?_⟩
      intro e he
      rw [h3, e2t] at he
      simp only [List.append_nil] at he
      exact e1t e he
    | true =>
      rw [hd] at h2
      simp only [if_true, ite_true] at h2
      obtain ⟨e2v0, e2t⟩ := notLtStep_ok h2
      have e2v : r.1 = notLtVal L.value rn := e2v0
      refine ⟨by rw [e2v]; simp [wilLnErVal, hd], ?_⟩
      intro e he
      rw [h3] at he
      rcases List.mem_append.mp he with he | he
      · exact e1t e he
      · exact e2t e he

theorem wilLnErStep_tot0 (fp : List (PointType α β))
    (rn : Option (PointType α β)) (o : Option (PointType α β)) (c : Nat) :
    ∃ r : Bool × Nat × List Ev, (match o with
      | none => (pure false : M Bool)
      | some L => do
          let c1 ← (match itPred fp L with
            | none => pure true
            | some LL => do
                let b ← cmpI 0 L.value LL.value
                pure (!b))
          if c1 then
            match rn with
            | none => pure true
            | some R => do
                let b ← cmpI 0 L.value R.value
                pure (!b)
          else pure false) c = .ok r := by
  cases o with
  | none => exact M_pure_tot _ _
  | some L =>
    refine M_bind_tot c (notLtStep_tot0 _ _ _) (fun c1 c1c => ?_)
    cases c1
    · simp only [Bool.false_eq_true, if_false, ite_false]
      exact M_pure_tot _ _
    · simp only [if_true, ite_true]
      exact notLtStep_tot0 _ _ _

/-- The will-be-maximum chain for the right neighbor in `erase` classification
(lines 479-484). -/
theorem wilRnErStep_ok {N : Nat} {fp : List (PointType α β)}
    {ln : Option (PointType α β)} {o : Option (PointType α β)} {c : Nat}
    {r : Bool × Nat × List Ev}
    (h : (match o with
      | none => (pure false : M Bool)
      | some R => do
          let c1 ← (match ln with
            | none => pure true
            | some L => do
                let b ← cmpI N R.value L.value
                pure (!b))
          if c1 then
            match itSucc fp R with
            | none => pure true
            | some RR => do
                let b ← cmpI N R.value RR.value
                pure (!b)
          else pure false) c = .ok r) :
    r.1 = wilRnErVal fp ln o ∧ ∀ e ∈ r.2.2, e = Ev.cmp := by
  cases o with
  | none =>
    have e := M_pure_ok h
    have ev : r.1 = false := congrArg Prod.fst e
    have et : r.2.2 = [] := congrArg (fun z => z.2.2) e
    exact ⟨ev, by rw [et]; simp⟩
  | some R =>
    obtain ⟨c1v, c1c, t1, t2, h1, h2, h3⟩ := M_bind_ok h
    obtain ⟨e1v0, e1t⟩ := notLtStep_ok h1
    have e1v : c1v = notLtVal R.value ln := e1v0
    rw [e1v] at h2
    cases hd : notLtVal R.value ln with
    | false =>
      rw [hd] at h2
      simp only [Bool.false_eq_true, if_false, ite_false] at h2
      have e2 := M_pure_ok h2
      have e2v : r.1 = false := congrArg Prod.fst e2
      have e2t : t2 = [] := congrArg (fun z => z.2.2) e2
      refine ⟨by rw [e2v]; simp [wilRnErVal, hd], ?_⟩
      intro e he
      rw [h3, e2t] at he
      simp only [List.append_nil] at he
      exact e1t e he
    | true =>
      rw [hd] at h2
      simp only [if_true, ite_true] at h2
      obtain ⟨e2v0, e2t⟩ := notLtStep_ok h2
      have e2v : r.1 = notLtVal R.value (itSucc fp R) := e2v0
      refine ⟨by rw [e2v]; simp [wilRnErVal, hd], ?_⟩
      intro e he
      rw [h3] at he
      rcases List.mem_append.mp he with he | he
      · exact e1t e he
      · exact e2t e he

theorem wilRnErStep_tot0 (fp : List (PointType α β))
    (ln : Option (PointType α β)) (o : Option (PointType α β)) (c : Nat) :
    ∃ r : Bool × Nat × List Ev, (match o with
      | none => (pure false : M Bool)
      | some R => do
          let c1 ← (match ln with
            | none => pure true
            | some L => do
                let b ← cmpI 0 R.value L.value
                pure (!b))
          if c1 then
            match itSucc fp R with
            | none => pure true
            | some RR => do
                let b ← cmpI 0 R.value RR.value
                pure (!b)
          else pure false) c = .ok r := by
  cases o with
  | none => exact M_pure_tot _ _
  | some R =>
    refine M_bind_tot c (notLtStep_tot0 _ _ _) (fun c1 c1c => ?_)
    cases c1
    · simp only [Bool.false_eq_true, if_false, ite_false]
      exact M_pure_tot _ _
    · simp only [if_true, ite_true]
      exact notLtStep_tot0 _ _ _

/-- The neighbor pair located by `get_info_for_set_value` (lines 404-419):
iterator neighbors of the found point, or `lower_bound` around the probe
point for a fresh argument. -/
def lnrnVal (fp : List (PointType α β)) (a : α) (v : β) :
    Option (PointType α β) → Option (PointType α β) × Option (PointType α β)
  | some p => (itPred fp p, itSucc fp p)
  | none =>
    if fp = [] then (none, none)
    else (lbPred fp ⟨a, v⟩, lowerBoundFP fp ⟨a, v⟩)

theorem lnrnStep_ok {N : Nat} {s : FunctionMaxima α β} {a : α} {v : β}
    {o : Option (PointType α β)} {c : Nat}
    {r : (Option (PointType α β) × Option (PointType α β)) × Nat × List Ev}
    (h : (match o with
      | some p => pure (itPred s.function_points p, itSucc s.function_points p)
      | none =>
        if s.function_points = [] then pure (none, none)
        else do
          let np ← createPointI N a v
          lowerBoundWithPredI N np none s.function_points) c = .ok r) :
    r.1 = lnrnVal s.function_points a v o ∧
    ∀ e ∈ r.2.2, e = Ev.cmp ∨ e = Ev.copy := by
  cases o with
  | some p =>
    have e := M_pure_ok h
    have ev : r.1 = (itPred s.function_points p, itSucc s.function_points p) :=
      congrArg Prod.fst e
    have et : r.2.2 = [] := congrArg (fun z => z.2.2) e
    exact ⟨ev, by rw [et]; simp⟩
  | none =>
    by_cases hfp : s.function_points = []
    · rw [if_pos hfp] at h
      have e := M_pure_ok h
      have ev : r.1 = (none, none) := congrArg Prod.fst e
      have et : r.2.2 = [] := congrArg (fun z => z.2.2) e
      refine ⟨by rw [ev]; simp [lnrnVal, hfp], by rw [et]; simp⟩
    · rw [if_neg hfp] at h
      obtain ⟨np, c1, t1, t2, h1, h2, h3⟩ := M_bind_ok h
      have e1 := createPointI_ok h1
      have e1p : np = ⟨a, v⟩ := congrArg Prod.fst e1
      have e1t : t1 = [Ev.copy, Ev.copy] := congrArg (fun z => z.2.2) e1
      subst e1p
      obtain ⟨e2v0, e2t⟩ := lowerBoundWithPredI_ok h2
      have e2v : r.1 = (((s.function_points.takeWhile fun q =>
          decide (fpLt q (⟨a, v⟩ : PointType α β))).getLast?).or none,
        (s.function_points.dropWhile fun q =>
          decide (fpLt q (⟨a, v⟩ : PointType α β))).head?) := e2v0
      refine ⟨?_, ?_⟩
      · rw [e2v]
        simp [lnrnVal, hfp, lbPred, lowerBoundFP, Option.or_none]
      · intro e he
        rw [h3, e1t] at he
        rcases List.mem_append.mp he with he | he
        · simp only [List.mem_cons, List.mem_singleton] at he
          rcases he with rfl | rfl | hf
          · exact Or.inr rfl
          · exact Or.inr rfl
          · cases hf
        · exact Or.inl (e2t e he)

theorem lnrnStep_tot0 (s : FunctionMaxima α β) (a : α) (v : β)
    (o : Option (PointType α β)) (c : Nat) :
    ∃ r : (Option (PointType α β) × Option (PointType α β)) × Nat × List Ev,
      (match o with
      | some p => pure (itPred s.function_points p, itSucc s.function_points p)
      | none =>
        if s.function_points = [] then pure (none, none)
        else do
          let np ← createPointI 0 a v
          lowerBoundWithPredI 0 np none s.function_points) c = .ok r := by
  cases o with
  | some p => exact M_pure_tot _ _
  | none =>
    by_cases hfp : s.function_points = []
    · rw [if_pos hfp]
      exact M_pure_tot _ _
    · rw [if_neg hfp]
      exact M_bind_tot c ⟨_, createPointI_tot0 a v c⟩
        (fun np c1 => lowerBoundWithPredI_tot0 _ _ _ _)

/-- The value computed by `get_info_for_set_value`, component-wise. -/
def infoSvVal (s : FunctionMaxima α β) (a : α) (v : β) :
    FunctionMaxima.Info α β × FunctionMaxima.Info α β ×
      FunctionMaxima.Info α β :=
  let fp := s.function_points
  let mx := s.local_maxima
  let pO := findA a fp
  let lr := lnrnVal fp a v pO
  (⟨pO, wasVal mx pO, notLtVal v lr.1 && notLtVal v lr.2⟩,
   ⟨lr.1, wasVal mx lr.1, wilLnSvVal fp v lr.1⟩,
   ⟨lr.2, wasVal mx lr.2, wilRnSvVal fp v lr.2⟩)

/-- On success the instrumented `set_value` classification computes exactly
the component values of the pure one and emits only comparisons and copies:
no index mutation happens during classification. -/
theorem get_info_sv_I_ok {N : Nat} {s : FunctionMaxima α β} {a : α} {v : β}
    {c : Nat} {r : (FunctionMaxima.Info α β × FunctionMaxima.Info α β ×
      FunctionMaxima.Info α β) × Nat × List Ev}
    (h : get_info_for_set_value_I N s a v c = .ok r) :
    r.1 = infoSvVal s a v ∧ ∀ e ∈ r.2.2, e = Ev.cmp ∨ e = Ev.copy := by
  unfold get_info_for_set_value_I at h
  obtain ⟨pOv, c1, t1, u2, h1, h, htr1⟩ := M_bind_ok h
  have htr1' : r.2.2 = t1 ++ u2 := htr1
  obtain ⟨e1v0, e1t⟩ := findAI_ok h1
  have e1v : pOv = findA a s.function_points := e1v0
  obtain ⟨lr, c2, t2, u3, h2, h, htr2⟩ := M_bind_ok h
  have htr2' : u2 = t2 ++ u3 := htr2
  obtain ⟨e2v0, e2t⟩ := lnrnStep_ok h2
  have e2v : lr = lnrnVal s.function_points a v pOv := e2v0
  obtain ⟨wasPv, c3, t3, u4, h3, h, htr3⟩ := M_bind_ok h
  have htr3' : u3 = t3 ++ u4 := htr3
  obtain ⟨e3v0, e3t⟩ := wasStep_ok h3
  have e3v : wasPv = wasVal s.local_maxima pOv := e3v0
  obtain ⟨wasLnv, c4, t4, u5, h4, h, htr4⟩ := M_bind_ok h
  have htr4' : u4 = t4 ++ u5 := htr4
  obtain ⟨e4v0, e4t⟩ := wasStep_ok h4
  have e4v : wasLnv = wasVal s.local_maxima lr.1 := e4v0
  obtain ⟨wasRnv, c5, t5, u6, h5, h, htr5⟩ := M_bind_ok h
  have htr5' : u5 = t5 ++ u6 := htr5
  obtain ⟨e5v0, e5t⟩ := wasStep_ok h5
  have e5v : wasRnv = wasVal s.local_maxima lr.2 := e5v0
  obtain ⟨wilP1v, c6, t6, u7, h6, h, htr6⟩ := M_bind_ok h
  have htr6' : u6 = t6 ++ u7 := htr6
  obtain ⟨e6v0, e6t⟩ := notLtStep_ok h6
  have e6v : wilP1v = notLtVal v lr.1 := e6v0
  obtain ⟨wilPv, c7, t7, u8, h7, h, htr7⟩ := M_bind_ok h
  have htr7' : u7 = t7 ++ u8 := htr7
  rw [e6v] at h7
  have step7 : wilPv = (notLtVal v lr.1 && notLtVal v lr.2) ∧
      ∀ e ∈ t7, e = Ev.cmp := by
    cases hd : notLtVal v lr.1 with
    | false =>
      rw [hd] at h7
      simp only [Bool.false_eq_true, if_false, ite_false] at h7
      have e7 := M_pure_ok h7
      have e7v : wilPv = false := congrArg Prod.fst e7
      have e7t : t7 = [] := congrArg (fun z => z.2.2) e7
      exact ⟨by rw [e7v]; simp, by rw [e7t]; simp⟩
    | true =>
      rw [hd] at h7
      simp only [if_true, ite_true] at h7
      obtain ⟨e7v0, e7t⟩ := notLtStep_ok h7
      have e7v : wilPv = notLtVal v lr.2 := e7v0
      exact ⟨by rw [e7v]; simp, e7t⟩
  obtain ⟨wilLnv, c8, t8, u9, h8, h, htr8⟩ := M_bind_ok h
  have htr8' : u8 = t8 ++ u9 := htr8
  obtain ⟨e8v0, e8t⟩ := wilLnSvStep_ok h8
  have e8v : wilLnv = wilLnSvVal s.function_points v lr.1 := e8v0
  obtain ⟨wilRnv, c9, t9, u10, h9, h, htr9⟩ := M_bind_ok h
  have htr9' : u9 = t9 ++ u10 := htr9
  obtain ⟨e9v0, e9t⟩ := wilRnSvStep_ok h9
  have e9v : wilRnv = wilRnSvVal s.function_points v lr.2 := e9v0
  obtain ⟨g1, c10, t10, u11, h10, h, htr10⟩ := M_bind_ok h
  have htr10' : u10 = t10 ++ u11 := htr10
  have e10t := g3Step_ok h10
  obtain ⟨g2, c11, t11, u12, h11, h, htr11⟩ := M_bind_ok h
  have htr11' : u11 = t11 ++ u12 := htr11
  have e11t := g3Step_ok h11
  obtain ⟨g3, c12, t12, u13, h12, h, htr12⟩ := M_bind_ok h
  have htr12' : u12 = t12 ++ u13 := htr12
  have e12t := g3Step_ok h12
  have efin := M_pure_ok h
  have efinv : r.1 = (⟨pOv, wasPv, wilPv⟩, ⟨lr.1, wasLnv, wilLnv⟩,
      ⟨lr.2, wasRnv, wilRnv⟩) := congrArg Prod.fst efin
  have efint : u13 = [] := congrArg (fun z => z.2.2) efin
  constructor
  · rw [efinv, e3v, e4v, e5v, step7.1, e8v, e9v, e2v, e1v]
    rfl
  · have p13 : ∀ e ∈ (u13 : List Ev), e = Ev.cmp ∨ e = Ev.copy := by
      rw [efint]; simp
    have p12 : ∀ e ∈ u12, e = Ev.cmp ∨ e = Ev.copy := by
      rw [htr12']
      exact trace_app (fun e he => Or.inl (e12t e he)) p13
    have p11 : ∀ e ∈ u11, e = Ev.cmp ∨ e = Ev.copy := by
      rw [htr11']
      exact trace_app (fun e he => Or.inl (e11t e he)) p12
    have p10 : ∀ e ∈ u10, e = Ev.cmp ∨ e = Ev.copy := by
      rw [htr10']
      exact trace_app (fun e he => Or.inl (e10t e he)) p11
    have p9 : ∀ e ∈ u9, e = Ev.cmp ∨ e = Ev.copy := by
      rw [htr9']
      exact trace_app (fun e he => Or.inl (e9t e he)) p10
    have p8 : ∀ e ∈ u8, e = Ev.cmp ∨ e = Ev.copy := by
      rw [htr8']
      exact trace_app (fun e he => Or.inl (e8t e he)) p9
    have p7 : ∀ e ∈ u7, e = Ev.cmp ∨ e = Ev.copy := by
      rw [htr7']
      exact trace_app (fun e he => Or.inl (step7.2 e he)) p8
    have p6 : ∀ e ∈ u6, e = Ev.cmp ∨ e = Ev.copy := by
      rw [htr6']
      exact trace_app (fun e he => Or.inl (e6t e he)) p7
    have p5 : ∀ e ∈ u5, e = Ev.cmp ∨ e = Ev.copy := by
      rw [htr5']
      exact trace_app (fun e he => Or.inl (e5t e he)) p6
    have p4 : ∀ e ∈ u4, e = Ev.cmp ∨ e = Ev.copy := by
      rw [htr4']
      exact trace_app (fun e he => Or.inl (e4t e he)) p5
    have p3 : ∀ e ∈ u3, e = Ev.cmp ∨ e = Ev.copy := by
      rw [htr3']
      exact trace_app (fun e he => Or.inl (e3t e he)) p4
    have p2 : ∀ e ∈ u2, e = Ev.cmp ∨ e = Ev.copy := by
      rw [htr2']
      exact trace_app e2t p3
    rw [htr1']
    exact trace_app (fun e he => Or.inl (e1t e he)) p2

theorem get_info_sv_I_tot0 (s : FunctionMaxima α β) (a : α) (v : β) (c : Nat) :
    ∃ r, get_info_for_set_value_I 0 s a v c = .ok r := by
  unfold get_info_for_set_value_I
  refine M_bind_tot c (findAI_tot0 _ _ _) (fun pOv c1 => ?_)
  refine M_bind_tot c1 (lnrnStep_tot0 s a v pOv c1) (fun lr c2 => ?_)
  refine M_bind_tot c2 (wasStep_tot0 _ _ _) (fun wasPv c3 => ?_)
  refine M_bind_tot c3 (wasStep_tot0 _ _ _) (fun wasLnv c4 => ?_)
  refine M_bind_tot c4 (wasStep_tot0 _ _ _) (fun wasRnv c5 => ?_)
  refine M_bind_tot c5 (notLtStep_tot0 _ _ _) (fun wilP1v c6 => ?_)
  refine M_bind_tot c6 ?_ (fun wilPv c7 => ?_)
  · cases wilP1v
    · simp only [Bool.false_eq_true, if_false, ite_false]
      exact M_pure_tot _ _
    · simp only [if_true, ite_true]
      exact notLtStep_tot0 _ _ _
  refine M_bind_tot c7 (wilLnSvStep_tot0 _ _ _ _) (fun wilLnv c8 => ?_)
  refine M_bind_tot c8 (wilRnSvStep_tot0 _ _ _ _) (fun wilRnv c9 => ?_)
  refine M_bind_tot c9 (g3Step_tot0 _ _ _) (fun g1 c10 => ?_)
  refine M_bind_tot c10 (g3Step_tot0 _ _ _) (fun g2 c11 => ?_)
  refine M_bind_tot c11 (g3Step_tot0 _ _ _) (fun g3 c12 => ?_)
  exact M_pure_tot _ _

/-- The value computed by `get_info_for_erase`, component-wise. -/
def infoErVal (s : FunctionMaxima α β) (p : PointType α β) :
    FunctionMaxima.Info α β × FunctionMaxima.Info α β ×
      FunctionMaxima.Info α β :=
  let fp := s.function_points
  let mx := s.local_maxima
  let ln := if fp = [] then none else itPred fp p
  let rn := if fp = [] then none else itSucc fp p
  (⟨some p, FunctionMaxima.mxMem mx p, false⟩,
   ⟨ln, wasVal mx ln, wilLnErVal fp rn ln⟩,
   ⟨rn, wasVal mx rn, wilRnErVal fp ln rn⟩)

/-- On success the instrumented `erase` classification computes exactly the
component values of the pure one and emits only comparisons. -/
theorem get_info_er_I_ok {N : Nat} {s : FunctionMaxima α β}
    {p : PointType α β} {c : Nat}
    {r : (FunctionMaxima.Info α β × FunctionMaxima.Info α β ×
      FunctionMaxima.Info α β) × Nat × List Ev}
    (h : get_info_for_erase_I N s p c = .ok r) :
    r.1 = infoErVal s p ∧ ∀ e ∈ r.2.2, e = Ev.cmp := by
  unfold get_info_for_erase_I at h
  obtain ⟨f, c1, t1, u2, h1, h, htr1⟩ := M_bind_ok h
  have htr1' : r.2.2 = t1 ++ u2 := htr1
  obtain ⟨e1v0, e1t⟩ := sFindI_ok h1
  have e1v : f = sFind mxLt p s.local_maxima := e1v0
  obtain ⟨g1, c2, t2, u3, h2, h, htr2⟩ := M_bind_ok h
  have htr2' : u2 = t2 ++ u3 := htr2
  have e2t := g3Step_ok h2
  obtain ⟨g2, c3, t3, u4, h3, h, htr3⟩ := M_bind_ok h
  have htr3' : u3 = t3 ++ u4 := htr3
  have e3t := g3Step_ok h3
  obtain ⟨wasLnv, c4, t4, u5, h4, h, htr4⟩ := M_bind_ok h
  have htr4' : u4 = t4 ++ u5 := htr4
  obtain ⟨e4v0, e4t⟩ := wasStep_ok h4
  have e4v : wasLnv = wasVal s.local_maxima
      (if s.function_points = [] then none
       else itPred s.function_points p) := e4v0
  obtain ⟨wasRnv, c5, t5, u6, h5, h, htr5⟩ := M_bind_ok h
  have htr5' : u5 = t5 ++ u6 := htr5
  obtain ⟨e5v0, e5t⟩ := wasStep_ok h5
  have e5v : wasRnv = wasVal s.local_maxima
      (if s.function_points = [] then none
       else itSucc s.function_points p) := e5v0
  obtain ⟨wilLnv, c6, t6, u7, h6, h, htr6⟩ := M_bind_ok h
  have htr6' : u6 = t6 ++ u7 := htr6
  obtain ⟨e6v0, e6t⟩ := wilLnErStep_ok h6
  have e6v : wilLnv = wilLnErVal s.function_points
      (if s.function_points = [] then none else itSucc s.function_points p)
      (if s.function_points = [] then none
       else itPred s.function_points p) := e6v0
  obtain ⟨wilRnv, c7, t7, u8, h7, h, htr7⟩ := M_bind_ok h
  have htr7' : u7 = t7 ++ u8 := htr7
  obtain ⟨e7v0, e7t⟩ := wilRnErStep_ok h7
  have e7v : wilRnv = wilRnErVal s.function_points
      (if s.function_points = [] then none else itPred s.function_points p)
      (if s.function_points = [] then none
       else itSucc s.function_points p) := e7v0
  have efin := M_pure_ok h
  have efinv : r.1 = (⟨some p, f.isSome, false⟩,
      ⟨(if s.function_points = [] then none
        else itPred s.function_points p), wasLnv, wilLnv⟩,
      ⟨(if s.function_points = [] then none
        else itSucc s.function_points p), wasRnv, wilRnv⟩) :=
    congrArg Prod.fst efin
  have efint : u8 = [] := congrArg (fun z => z.2.2) efin
  constructor
  · rw [efinv, e1v, e4v, e5v, e6v, e7v]
    rfl
  · have p8 : ∀ e ∈ (u8 : List Ev), e = Ev.cmp := by
      rw [efint]; simp
    have p7 : ∀ e ∈ u7, e = Ev.cmp := by
      rw [htr7']; exact trace_app e7t p8
    have p6 : ∀ e ∈ u6, e = Ev.cmp := by
      rw [htr6']; exact trace_app e6t p7
    have p5 : ∀ e ∈ u5, e = Ev.cmp := by
      rw [htr5']; exact trace_app e5t p6
    have p4 : ∀ e ∈ u4, e = Ev.cmp := by
      rw [htr4']; exact trace_app e4t p5
    have p3 : ∀ e ∈ u3, e = Ev.cmp := by
      rw [htr3']; exact trace_app e3t p4
    have p2 : ∀ e ∈ u2, e = Ev.cmp := by
      rw [htr2']; exact trace_app e2t p3
    rw [htr1']
    exact trace_app e1t p2

theorem get_info_er_I_tot0 (s : FunctionMaxima α β) (p : PointType α β)
    (c : Nat) : ∃ r, get_info_for_erase_I 0 s p c = .ok r := by
  unfold get_info_for_erase_I
  refine M_bind_tot c (sFindI_tot0 _ _ _) (fun f c1 => ?_)
  refine M_bind_tot c1 (g3Step_tot0 _ _ _) (fun g1 c2 => ?_)
  refine M_bind_tot c2 (g3Step_tot0 _ _ _) (fun g2 c3 => ?_)
  refine M_bind_tot c3 (wasStep_tot0 _ _ _) (fun wasLnv c4 => ?_)
  refine M_bind_tot c4 (wasStep_tot0 _ _ _) (fun wasRnv c5 => ?_)
  refine M_bind_tot c5 (wilLnErStep_tot0 _ _ _ _) (fun wilLnv c6 => ?_)
  refine M_bind_tot c6 (wilRnErStep_tot0 _ _ _ _) (fun wilRnv c7 => ?_)
  exact M_pure_tot _ _

theorem logMut_ok {e : Ev} {c : Nat} {r : Unit × Nat × List Ev}
    (h : logMut e c = .ok r) : r = ((), c, [e]) := by
  unfold logMut at h
  cases h
  rfl

/-- On success the instrumented `std::set::insert` computes the pure
`sInsert` for the corresponding order and emits only comparisons plus its
mutation event; a failing insert has not yet linked the node. -/
theorem sInsertI_ok {ltI : PointType α β → PointType α β → M Bool}
    {lt : PointType α β → PointType α β → Prop} [DecidableRel lt] {ev : Ev}
    (hlt : ∀ p q (c : Nat) r, ltI p q c = .ok r →
      r.1 = decide (lt p q) ∧ ∀ e ∈ r.2.2, e = Ev.cmp)
    {x : PointType α β} {l : List (PointType α β)} {c : Nat}
    {r : List (PointType α β) × Nat × List Ev}
    (h : sInsertI ltI ev x l c = .ok r) :
    r.1 = sInsert lt x l ∧ ∀ e ∈ r.2.2, e = Ev.cmp ∨ e = ev := by
  induction l generalizing c r with
  | nil =>
    unfold sInsertI at h
    obtain ⟨u, c1, t1, t2, h1, h2, h3⟩ := M_bind_ok h
    have e1 := logMut_ok h1
    have e1t : t1 = [ev] := congrArg (fun z => z.2.2) e1
    have e2 := M_pure_ok h2
    have e2v : r.1 = [x] := congrArg Prod.fst e2
    have e2t : t2 = [] := congrArg (fun z => z.2.2) e2
    refine ⟨by rw [e2v]; rfl, ?_⟩
    intro e he
    rw [h3, e1t, e2t] at he
    simp only [List.append_nil, List.mem_singleton] at he
    exact Or.inr he
  | cons y l ih =>
    unfold sInsertI at h
    obtain ⟨b1, c1, t1, t2, h1, h2, h3⟩ := M_bind_ok h
    obtain ⟨e1b0, e1t⟩ := hlt x y c _ h1
    have e1b : b1 = decide (lt x y) := e1b0
    rw [e1b] at h2
    by_cases hxy : lt x y
    · rw [decide_eq_true hxy] at h2
      simp only [if_true, ite_true] at h2
      obtain ⟨u, c2, t2a, t2b, h2a, h2b, h2c⟩ := M_bind_ok h2
      have h2c' : t2 = t2a ++ t2b := h2c
      have e2 := logMut_ok h2a
      have e2t : t2a = [ev] := congrArg (fun z => z.2.2) e2
      have e3 := M_pure_ok h2b
      have e3v : r.1 = x :: y :: l := congrArg Prod.fst e3
      have e3t : t2b = [] := congrArg (fun z => z.2.2) e3
      refine ⟨by rw [e3v, sInsert_cons, if_pos hxy], ?_⟩
      intro e he
      rw [h3, h2c', e2t, e3t] at he
      simp only [List.append_nil] at he
      rcases List.mem_append.mp he with he | he
      · exact Or.inl (e1t e he)
      · simp only [List.mem_singleton] at he
        exact Or.inr he
    · rw [decide_eq_false hxy] at h2
      simp only [Bool.false_eq_true, if_false, ite_false] at h2
      obtain ⟨b2, c2, t2a, t2b, h2a, h2b, h2c⟩ := M_bind_ok h2
      have h2c' : t2 = t2a ++ t2b := h2c
      obtain ⟨e2b0, e2t⟩ := hlt y x c1 _ h2a
      have e2b : b2 = decide (lt y x) := e2b0
      rw [e2b] at h2b
      by_cases hyx : lt y x
      · rw [decide_eq_true hyx] at h2b
        simp only [if_true, ite_true] at h2b
        obtain ⟨rv, c3, t2c, t2d, h2d, h2e, h2f⟩ := M_bind_ok h2b
        have h2f' : t2b = t2c ++ t2d := h2f
        obtain ⟨ihv0, iht⟩ := ih h2d
        have ihv : rv = sInsert lt x l := ihv0
        have e4 := M_pure_ok h2e
        have e4v : r.1 = y :: rv := congrArg Prod.fst e4
        have e4t : t2d = [] := congrArg (fun z => z.2.2) e4
        refine ⟨by rw [e4v, ihv, sInsert_cons, if_neg hxy, if_pos hyx], ?_⟩
        intro e he
        rw [h3, h2c', h2f', e4t] at he
        simp only [List.append_nil] at he
        rcases List.mem_append.mp he with he | he
        · exact Or.inl (e1t e he)
        · rcases List.mem_append.mp he with he | he
          · exact Or.inl (e2t e he)
          · exact iht e he
      · rw [decide_eq_false hyx] at h2b
        simp only [Bool.false_eq_true, if_false, ite_false] at h2b
        have e4 := M_pure_ok h2b
        have e4v : r.1 = y :: l := congrArg Prod.fst e4
        have e4t : t2b = [] := congrArg (fun z => z.2.2) e4
        refine ⟨by rw [e4v, sInsert_cons, if_neg hxy, if_neg hyx], ?_⟩
        intro e he
        rw [h3, h2c', e4t] at he
        simp only [List.append_nil] at he
        rcases List.mem_append.mp he with he | he
        · exact Or.inl (e1t e he)
        · exact Or.inl (e2t e he)

theorem sInsertI_tot0 {ltI : PointType α β → PointType α β → M Bool}
    (hlt : ∀ p q (c : Nat), ∃ r, ltI p q c = .ok r) (ev : Ev)
    (x : PointType α β) (l : List (PointType α β)) (c : Nat) :
    ∃ r, sInsertI ltI ev x l c = .ok r := by
  induction l generalizing c with
  | nil =>
    unfold sInsertI
    exact M_bind_tot c ⟨_, rfl⟩ (fun u c1 => M_pure_tot _ _)
  | cons y l ih =>
    unfold sInsertI
    refine M_bind_tot c (hlt x y c) (fun b1 c1 => ?_)
    cases b1
    · simp only [Bool.false_eq_true, if_false, ite_false]
      refine M_bind_tot c1 (hlt y x c1) (fun b2 c2 => ?_)
      cases b2
      · simp only [Bool.false_eq_true, if_false, ite_false]
        exact M_pure_tot _ _
      · simp only [if_true, ite_true]
        exact M_bind_tot c2 (ih c2) (fun rv c3 => M_pure_tot _ _)
    · simp only [if_true, ite_true]
      exact M_bind_tot c1 ⟨_, rfl⟩ (fun u c2 => M_pure_tot _ _)

theorem fpInsertI_ok {N : Nat} {x : PointType α β}
    {l : List (PointType α β)} {c : Nat}
    {r : List (PointType α β) × Nat × List Ev}
    (h : sInsertI (fpLtI N) Ev.mutFP x l c = .ok r) :
    r.1 = sInsert fpLt x l ∧ ∀ e ∈ r.2.2, e = Ev.cmp ∨ e = Ev.mutFP :=
  sInsertI_ok (fun p q c r hr => fpLtI_ok hr) h

theorem mxInsertI_ok {N : Nat} {x : PointType α β}
    {l : List (PointType α β)} {c : Nat}
    {r : List (PointType α β) × Nat × List Ev}
    (h : sInsertI (mxLtI N) Ev.mutMX x l c = .ok r) :
    r.1 = sInsert mxLt x l ∧ ∀ e ∈ r.2.2, e = Ev.cmp ∨ e = Ev.mutMX :=
  sInsertI_ok (fun p q c r hr => mxLtI_ok hr) h

theorem fpInsertI_tot0 (x : PointType α β) (l : List (PointType α β))
    (c : Nat) : ∃ r, sInsertI (fpLtI 0) Ev.mutFP x l c = .ok r :=
  sInsertI_tot0 (fun p q c => fpLtI_tot0 p q c) Ev.mutFP x l c

theorem mxInsertI_tot0 (x : PointType α β) (l : List (PointType α β))
    (c : Nat) : ∃ r, sInsertI (mxLtI 0) Ev.mutMX x l c = .ok r :=
  sInsertI_tot0 (fun p q c => mxLtI_tot0 p q c) Ev.mutMX x l c

/-- On success the instrumented conditional maxima insert computes the pure
`condIns` and emits only comparisons plus maxima-mutation events. -/
theorem condInsI_ok {N : Nat} {o : Option (PointType α β)} {b : Bool}
    {l : List (PointType α β)} {c : Nat}
    {r : List (PointType α β) × Nat × List Ev}
    (h : condInsI N o b l c = .ok r) :
    r.1 = FunctionMaxima.condIns o b l ∧
    ∀ e ∈ r.2.2, e = Ev.cmp ∨ e = Ev.mutMX := by
  cases o with
  | none =>
    cases b with
    | false =>
      have e := M_pure_ok h
      have ev : r.1 = l := congrArg Prod.fst e
      have et : r.2.2 = [] := congrArg (fun z => z.2.2) e
      exact ⟨ev, by rw [et]; simp⟩
    | true =>
      have e := M_pure_ok h
      have ev : r.1 = l := congrArg Prod.fst e
      have et : r.2.2 = [] := congrArg (fun z => z.2.2) e
      exact ⟨ev, by rw [et]; simp⟩
  | some L =>
    cases b with
    | false =>
      have e := M_pure_ok h
      have ev : r.1 = l := congrArg Prod.fst e
      have et : r.2.2 = [] := congrArg (fun z => z.2.2) e
      exact ⟨ev, by rw [et]; simp⟩
    | true => exact mxInsertI_ok h

/-- A conditional maxima insert can only fail when it actually inserts. -/
theorem condInsI_err {N : Nat} {o : Option (PointType α β)} {b : Bool}
    {l : List (PointType α β)} {c : Nat} {u : Unit}
    (h : condInsI N o b l c = .error u) :
    ∃ L, o = some L ∧ b = true ∧
      sInsertI (mxLtI N) Ev.mutMX L l c = .error u := by
  cases o with
  | none =>
    cases b with
    | false => exact absurd h (by simp [condInsI, M_pure_def])
    | true => exact absurd h (by simp [condInsI, M_pure_def])
  | some L =>
    cases b with
    | false => exact absurd h (by simp [condInsI, M_pure_def])
    | true => exact ⟨L, rfl, rfl, h⟩

theorem condInsI_tot0 (o : Option (PointType α β)) (b : Bool)
    (l : List (PointType α β)) (c : Nat) :
    ∃ r, condInsI 0 o b l c = .ok r := by
  cases o with
  | none => cases b <;> exact M_pure_tot _ _
  | some L =>
    cases b with
    | false => exact M_pure_tot _ _
    | true => exact mxInsertI_tot0 L l c

/-- A failing insert inside `set_value_aux` leaves, after the guards run, the
original state: the `Except.error` payload of the instrumented mutation
sequence is the pre-call state. -/
theorem set_value_aux_I_err {N : Nat} {s : FunctionMaxima α β}
    {pI lnI rnI : FunctionMaxima.Info α β} {np : PointType α β} {c : Nat}
    {sR : FunctionMaxima α β}
    (hmx : s.local_maxima.Pairwise mxLt)
    (hnp_fp : np ∉ s.function_points)
    (hnp_mx : np ∉ s.local_maxima)
    (hln : ∀ L, lnI.pt = some L → lnI.wasMax = false → lnI.willMax = true →
      L ≠ np ∧ L ∉ s.local_maxima)
    (h : set_value_aux_I N s pI lnI rnI np c = .error sR) :
    sR = s := by
  have heqf : ∀ x y : PointType α β, ¬ fpLt x y → ¬ fpLt y x → x = y :=
    fun x y h1 h2 => fpLt_eq_of_incomp h1 h2
  have heqm : ∀ x y : PointType α β, ¬ mxLt x y → ¬ mxLt y x → x = y :=
    fun x y h1 h2 => mxLt_eq_of_incomp h1 h2
  have htrm : ∀ x y z : PointType α β, mxLt x y → mxLt y z → mxLt x z :=
    fun x y z h1 h2 => mxLt_trans h1 h2
  unfold set_value_aux_I at h
  split at h
  · injection h with h'
    exact h'.symm
  · rename_i fp1 c1 t1 h1
    have e1 : fp1 = sInsert fpLt np s.function_points := (fpInsertI_ok h1).1
    split at h
    · injection h with h'
      rw [← h', e1,
        sErase_sInsert_cancel heqf fpLt_irrefl np s.function_points hnp_fp]
    · rename_i mx1 c2 t2 h2
      have e2 : mx1 = (if pI.willMax then
          sInsert mxLt np s.local_maxima else s.local_maxima) := by
        split at h2
        · rename_i hw
          rw [if_pos hw]
          exact (mxInsertI_ok h2).1
        · rename_i hw
          rw [if_neg hw]
          exact congrArg Prod.fst (M_pure_ok h2)
      split at h
      · -- left-neighbor insert failed: fp guard and point_it fire
        injection h with h'
        rw [← h', e1,
          sErase_sInsert_cancel heqf fpLt_irrefl np s.function_points hnp_fp]
        by_cases hw : pI.willMax
        · rw [if_pos hw, e2, if_pos hw,
            sErase_sInsert_cancel heqm mxLt_irrefl np s.local_maxima hnp_mx]
        · rw [if_neg hw, e2, if_neg hw]
      · rename_i mx2 c3 t3 h3
        have e3 : mx2 = FunctionMaxima.condIns lnI.pt
            (!lnI.wasMax && lnI.willMax) mx1 := (condInsI_ok h3).1
        split at h
        · -- right-neighbor insert failed: all three guard erases fire
          injection h with h'
          rw [← h', e1,
            sErase_sInsert_cancel heqf fpLt_irrefl np s.function_points hnp_fp]
          cases hl : lnI.pt with
          | none =>
            rw [hl] at e3
            simp only [FunctionMaxima.condIns] at e3
            simp only [FunctionMaxima.condDel]
            by_cases hw : pI.willMax
            · rw [if_pos hw] at e2
              rw [e3, e2, if_pos hw,
                sErase_sInsert_cancel heqm mxLt_irrefl np s.local_maxima hnp_mx]
            · rw [if_neg hw] at e2
              rw [e3, e2, if_neg hw]
          | some L =>
            rw [hl] at e3
            cases hc : (!lnI.wasMax && lnI.willMax) with
            | false =>
              rw [hc] at e3
              simp only [FunctionMaxima.condIns] at e3
              simp only [FunctionMaxima.condDel]
              by_cases hw : pI.willMax
              · rw [if_pos hw] at e2
                rw [e3, e2, if_pos hw,
                  sErase_sInsert_cancel heqm mxLt_irrefl np
                    s.local_maxima hnp_mx]
              · rw [if_neg hw] at e2
                rw [e3, e2, if_neg hw]
            | true =>
              rw [hc] at e3
              simp only [FunctionMaxima.condIns] at e3
              simp only [FunctionMaxima.condDel]
              have hc' := hc
              simp only [Bool.and_eq_true, Bool.not_eq_true'] at hc'
              obtain ⟨hLnp, hLmx⟩ := hln L hl hc'.1 hc'.2
              by_cases hw : pI.willMax
              · rw [if_pos hw] at e2
                rw [e3, e2, if_pos hw,
                  sErase_sInsert_comm heqm htrm np L (Ne.symm hLnp)
                    (sInsert mxLt np s.local_maxima)
                    (pairwise_sInsert heqm htrm np s.local_maxima hmx),
                  sErase_sInsert_cancel heqm mxLt_irrefl np
                    s.local_maxima hnp_mx,
                  sErase_sInsert_cancel heqm mxLt_irrefl L
                    s.local_maxima hLmx]
              · rw [if_neg hw] at e2
                rw [e3, e2, if_neg hw,
                  sErase_sInsert_cancel heqm mxLt_irrefl L
                    s.local_maxima hLmx]
        · exact absurd h (by simp)

/-- A completed `set_value_aux` mutation sequence computes the pure one. -/
theorem set_value_aux_I_okv {N : Nat} {s : FunctionMaxima α β}
    {pI lnI rnI : FunctionMaxima.Info α β} {np : PointType α β} {c : Nat}
    {r : FunctionMaxima α β × Nat × List Ev}
    (h : set_value_aux_I N s pI lnI rnI np c = .ok r) :
    r.1 = FunctionMaxima.set_value_aux s pI lnI rnI np := by
  unfold set_value_aux_I at h
  split at h
  · exact absurd h (by simp)
  · rename_i fp1 c1 t1 h1
    have e1 : fp1 = sInsert fpLt np s.function_points := (fpInsertI_ok h1).1
    split at h
    · exact absurd h (by simp)
    · rename_i mx1 c2 t2 h2
      have e2 : mx1 = (if pI.willMax then
          sInsert mxLt np s.local_maxima else s.local_maxima) := by
        split at h2
        · rename_i hw
          rw [if_pos hw]
          exact (mxInsertI_ok h2).1
        · rename_i hw
          rw [if_neg hw]
          exact congrArg Prod.fst (M_pure_ok h2)
      split at h
      · exact absurd h (by simp)
      · rename_i mx2 c3 t3 h3
        have e3 : mx2 = FunctionMaxima.condIns lnI.pt
            (!lnI.wasMax && lnI.willMax) mx1 := (condInsI_ok h3).1
        split at h
        · exact absurd h (by simp)
        · rename_i mx3 c4 t4 h4
          have e4 : mx3 = FunctionMaxima.condIns rnI.pt
              (!rnI.wasMax && rnI.willMax) mx2 := (condInsI_ok h4).1
          injection h with h'
          have hq : r.1 = (⟨(match pI.pt with
              | some p => sErase fpLt p fp1
              | none => fp1),
              FunctionMaxima.condDel rnI.pt (rnI.wasMax && !rnI.willMax)
                (FunctionMaxima.condDel lnI.pt (lnI.wasMax && !lnI.willMax)
                  (FunctionMaxima.condDel pI.pt pI.wasMax mx3))⟩ :
              FunctionMaxima α β) := (congrArg Prod.fst h').symm
          rw [hq, e4, e3, e2, e1]
          rfl

theorem set_value_aux_I_tot0 (s : FunctionMaxima α β)
    (pI lnI rnI : FunctionMaxima.Info α β) (np : PointType α β) (c : Nat) :
    ∃ r, set_value_aux_I 0 s pI lnI rnI np c = .ok r := by
  cases hres : set_value_aux_I 0 s pI lnI rnI np c with
  | ok r => exact ⟨r, rfl⟩
  | error sR =>
    exfalso
    unfold set_value_aux_I at hres
    split at hres
    · rename_i h1
      obtain ⟨r', hr'⟩ := fpInsertI_tot0 np s.function_points c
      rw [hr'] at h1
      cases h1
    · rename_i fp1 c1 t1 h1
      split at hres
      · rename_i h2
        split at h2
        · rename_i hw
          obtain ⟨r', hr'⟩ := mxInsertI_tot0 np s.local_maxima c1
          rw [hr'] at h2
          cases h2
        · cases h2
      · rename_i mx1 c2 t2 h2
        split at hres
        · rename_i h3
          obtain ⟨L, -, -, h3'⟩ := condInsI_err h3
          obtain ⟨r', hr'⟩ := mxInsertI_tot0 L mx1 c2
          rw [hr'] at h3'
          cases h3'
        · rename_i mx2 c3 t3 h3
          split at hres
          · rename_i h4
            obtain ⟨L, -, -, h4'⟩ := condInsI_err h4
            obtain ⟨r', hr'⟩ := mxInsertI_tot0 L mx2 c3
            rw [hr'] at h4'
            cases h4'
          · cases hres

/-- A failing insert inside `erase_aux` leaves the original state: the
`function_points` index is untouched and the guard undoes the single
recorded maxima insert. -/
theorem erase_aux_I_err {N : Nat} {s : FunctionMaxima α β}
    {pI lnI rnI : FunctionMaxima.Info α β} {c : Nat}
    {sR : FunctionMaxima α β}
    (hln : ∀ L, lnI.pt = some L → lnI.wasMax = false → lnI.willMax = true →
      L ∉ s.local_maxima)
    (h : erase_aux_I N s pI lnI rnI c = .error sR) :
    sR = s := by
  have heqm : ∀ x y : PointType α β, ¬ mxLt x y → ¬ mxLt y x → x = y :=
    fun x y h1 h2 => mxLt_eq_of_incomp h1 h2
  unfold erase_aux_I at h
  split at h
  · injection h with h'
    exact h'.symm
  · rename_i mx1 c1 t1 h1
    have e1 : mx1 = FunctionMaxima.condIns lnI.pt
        (!lnI.wasMax && lnI.willMax) s.local_maxima := (condInsI_ok h1).1
    split at h
    · injection h with h'
      rw [← h']
      cases hl : lnI.pt with
      | none =>
        rw [hl] at e1
        simp only [FunctionMaxima.condIns] at e1
        simp only [FunctionMaxima.condDel]
        rw [e1]
      | some L =>
        rw [hl] at e1
        cases hc : (!lnI.wasMax && lnI.willMax) with
        | false =>
          rw [hc] at e1
          simp only [FunctionMaxima.condIns] at e1
          simp only [FunctionMaxima.condDel]
          rw [e1]
        | true =>
          rw [hc] at e1
          simp only [FunctionMaxima.condIns] at e1
          simp only [FunctionMaxima.condDel]
          have hc' := hc
          simp only [Bool.and_eq_true, Bool.not_eq_true'] at hc'
          have hLmx := hln L hl hc'.1 hc'.2
          rw [e1, sErase_sInsert_cancel heqm mxLt_irrefl L
            s.local_maxima hLmx]
    · exact absurd h (by simp)

/-- A completed `erase_aux` mutation sequence computes the pure one. -/
theorem erase_aux_I_okv {N : Nat} {s : FunctionMaxima α β}
    {pI lnI rnI : FunctionMaxima.Info α β} {c : Nat}
    {r : FunctionMaxima α β × Nat × List Ev}
    (h : erase_aux_I N s pI lnI rnI c = .ok r) :
    r.1 = FunctionMaxima.erase_aux s pI lnI rnI := by
  unfold erase_aux_I at h
  split at h
  · exact absurd h (by simp)
  · rename_i mx1 c1 t1 h1
    have e1 : mx1 = FunctionMaxima.condIns lnI.pt
        (!lnI.wasMax && lnI.willMax) s.local_maxima := (condInsI_ok h1).1
    split at h
    · exact absurd h (by simp)
    · rename_i mx2 c2 t2 h2
      have e2 : mx2 = FunctionMaxima.condIns rnI.pt
          (!rnI.wasMax && rnI.willMax) mx1 := (condInsI_ok h2).1
      injection h with h'
      have hq : r.1 = (⟨(match pI.pt with
          | some p => sErase fpLt p s.function_points
          | none => s.function_points),
          FunctionMaxima.condDel rnI.pt (rnI.wasMax && !rnI.willMax)
            (FunctionMaxima.condDel lnI.pt (lnI.wasMax && !lnI.willMax)
              (FunctionMaxima.condDel pI.pt pI.wasMax mx2))⟩ :
          FunctionMaxima α β) := (congrArg Prod.fst h').symm
      rw [hq, e2, e1]
      rfl

theorem erase_aux_I_tot0 (s : FunctionMaxima α β)
    (pI lnI rnI : FunctionMaxima.Info α β) (c : Nat) :
    ∃ r, erase_aux_I 0 s pI lnI rnI c = .ok r := by
  cases hres : erase_aux_I 0 s pI lnI rnI c with
  | ok r => exact ⟨r, rfl⟩
  | error sR =>
    exfalso
    unfold erase_aux_I at hres
    split at hres
    · rename_i h1
      obtain ⟨L, -, -, h1'⟩ := condInsI_err h1
      obtain ⟨r', hr'⟩ := mxInsertI_tot0 L s.local_maxima c
      rw [hr'] at h1'
      cases h1'
    · rename_i mx1 c1 t1 h1
      split at hres
      · rename_i h2
        obtain ⟨L, -, -, h2'⟩ := condInsI_err h2
        obtain ⟨r', hr'⟩ := mxInsertI_tot0 L mx1 c1
        rw [hr'] at h2'
        cases h2'
      · cases hres

theorem itPred_mem {P : Type} [DecidableEq P] {l : List P} {x L : P}
    (h : itPred l x = some L) : L ∈ l := by
  unfold itPred at h
  exact (List.takeWhile_sublist _).subset (List.mem_of_mem_getLast? h)

theorem lbPred_mem {l : List (PointType α β)} {x L : PointType α β}
    (h : lbPred l x = some L) : L ∈ l := by
  unfold lbPred at h
  exact (List.takeWhile_sublist _).subset (List.mem_of_mem_getLast? h)

theorem wasVal_eq (mx : List (PointType α β)) (o : Option (PointType α β)) :
    wasVal mx o = (match o with
      | some L => FunctionMaxima.mxMem mx L
      | none => false) := by
  cases o <;> rfl

theorem notLtVal_eq (x : β) (o : Option (PointType α β)) :
    notLtVal x o = (match o with
      | none => true
      | some L => !decide (x < L.value)) := by
  cases o <;> rfl

theorem wilLnSvVal_eq (fp : List (PointType α β)) (v : β)
    (o : Option (PointType α β)) :
    wilLnSvVal fp v o = (match o with
      | none => false
      | some L =>
        (match itPred fp L with
          | none => true
          | some LL => !decide (L.value < LL.value)) &&
        !decide (L.value < v)) := by
  cases o with
  | none => rfl
  | some L => simp only [wilLnSvVal, notLtVal_eq]

theorem wilRnSvVal_eq (fp : List (PointType α β)) (v : β)
    (o : Option (PointType α β)) :
    wilRnSvVal fp v o = (match o with
      | none => false
      | some R =>
        !decide (R.value < v) &&
        (match itSucc fp R with
          | none => true
          | some RR => !decide (R.value < RR.value))) := by
  cases o with
  | none => rfl
  | some R => simp only [wilRnSvVal, notLtVal_eq]

theorem wilLnErVal_eq (fp : List (PointType α β))
    (rn : Option (PointType α β)) (o : Option (PointType α β)) :
    wilLnErVal fp rn o = (match o with
      | none => false
      | some L =>
        (match itPred fp L with
          | none => true
          | some LL => !decide (L.value < LL.value)) &&
        (match rn with
          | none => true
          | some R => !decide (L.value < R.value))) := by
  cases o with
  | none => rfl
  | some L => simp only [wilLnErVal, notLtVal_eq]

theorem wilRnErVal_eq (fp : List (PointType α β))
    (ln : Option (PointType α β)) (o : Option (PointType α β)) :
    wilRnErVal fp ln o = (match o with
      | none => false
      | some R =>
        (match ln with
          | none => true
          | some L => !decide (R.value < L.value)) &&
        (match itSucc fp R with
          | none => true
          | some RR => !decide (R.value < RR.value))) := by
  cases o with
  | none => rfl
  | some R => simp only [wilRnErVal, notLtVal_eq]

/-- The component form of the classification agrees with the pure
`get_info_for_set_value`. -/
theorem infoSvVal_eq (s : FunctionMaxima α β) (a : α) (v : β) :
    infoSvVal s a v = FunctionMaxima.get_info_for_set_value s a v := by
  unfold infoSvVal FunctionMaxima.get_info_for_set_value
  cases hp : findA a s.function_points with
  | some p =>
    simp only [hp, lnrnVal, wasVal_eq, notLtVal_eq, wilLnSvVal_eq,
      wilRnSvVal_eq]
    rfl
  | none =>
    by_cases hfp : s.function_points = []
    · simp only [hp, hfp, lnrnVal, wasVal_eq, notLtVal_eq, wilLnSvVal_eq,
        wilRnSvVal_eq, if_true]
      rfl
    · simp only [hp, lnrnVal, hfp, wasVal_eq, notLtVal_eq,
        wilLnSvVal_eq, wilRnSvVal_eq, if_false, ite_false]
      rfl

/-- The component form of the classification agrees with the pure
`get_info_for_erase`. -/
theorem infoErVal_eq (s : FunctionMaxima α β) (p : PointType α β) :
    infoErVal s p = FunctionMaxima.get_info_for_erase s p := by
  unfold infoErVal FunctionMaxima.get_info_for_erase
  simp only [wasVal_eq, wilLnErVal_eq, wilRnErVal_eq]
  rfl

theorem lnrnVal_fst_mem {fp : List (PointType α β)} {a : α} {v : β}
    {pO : Option (PointType α β)} {L : PointType α β}
    (h : (lnrnVal fp a v pO).1 = some L) : L ∈ fp := by
  cases pO with
  | some p => exact itPred_mem h
  | none =>
    by_cases hfp : fp = []
    · have h' : (none : Option (PointType α β)) = some L := by
        simpa [lnrnVal, hfp] using h
      cases h'
    · have h' : lbPred fp ⟨a, v⟩ = some L := by
        simpa [lnrnVal, hfp] using h
      exact lbPred_mem h'

/-- A `set_value` call on which some instrumented comparison or copy threw
reports the pre-call state: the guards rolled every partial write back. -/
theorem set_value_I_fail {N : Nat} {s : FunctionMaxima α β} {a : α} {v : β}
    (hv : FunctionMaxima.Valid s) :
    (set_value_I N s a v).2.1 = true → (set_value_I N s a v).1 = s := by
  unfold set_value_I
  split
  · intro _
    rfl
  · intro hfail
    exact absurd hfail (by simp)
  · rename_i c0 t0 h0
    have hch : FunctionMaxima.check_whether_the_same s a v = false :=
      ((check_same_I_ok h0).1).symm
    have hnp_fp : (⟨a, v⟩ : PointType α β) ∉ s.function_points := by
      intro hm
      have hfd := FunctionMaxima.findA_of_mem hv.fp_sorted hm rfl
      unfold FunctionMaxima.check_whether_the_same at hch
      rw [hfd] at hch
      simp [lt_irrefl] at hch
    have hnp_mx : (⟨a, v⟩ : PointType α β) ∉ s.local_maxima :=
      fun hm => hnp_fp ((hv.mem_iff _).mp hm).1
    split
    · intro _
      rfl
    · rename_i info c1 t1 h1
      have einfo : info = infoSvVal s a v := (get_info_sv_I_ok h1).1
      subst einfo
      split
      · intro _
        rfl
      · rename_i np c2 t2 h2
        have enp : np = ⟨a, v⟩ := congrArg Prod.fst (createPointI_ok h2)
        subst enp
        split
        · rename_i sR h3
          intro _
          show sR = s
          refine set_value_aux_I_err hv.mx_sorted hnp_fp hnp_mx ?_ h3
          intro L hL hw _
          have hL' : (lnrnVal s.function_points a v
              (findA a s.function_points)).1 = some L := hL
          have hw' : wasVal s.local_maxima (lnrnVal s.function_points a v
              (findA a s.function_points)).1 = false := hw
          rw [hL'] at hw'
          have hLmx : L ∉ s.local_maxima := by
            intro hm
            rw [show wasVal s.local_maxima (some L) =
              FunctionMaxima.mxMem s.local_maxima L from rfl] at hw'
            exact absurd (FunctionMaxima.mxMem_iff.mpr hm)
              (by rw [hw']; simp)
          have hLfp : L ∈ s.function_points := lnrnVal_fst_mem hL'
          exact ⟨fun he => hnp_fp (he ▸ hLfp), hLmx⟩
        · intro hfail
          exact absurd hfail (by simp)

/-- An `erase` call on which some instrumented comparison threw reports the
pre-call state. -/
theorem erase_I_fail {N : Nat} {s : FunctionMaxima α β} {a : α} :
    (erase_I N s a).2.1 = true → (erase_I N s a).1 = s := by
  unfold erase_I
  split
  · intro _
    rfl
  · intro hfail
    exact absurd hfail (by simp)
  · rename_i p c0 t0 h0
    split
    · intro _
      rfl
    · rename_i info c1 t1 h1
      have einfo : info = infoErVal s p := (get_info_er_I_ok h1).1
      subst einfo
      split
      · rename_i sR h2
        intro _
        show sR = s
        refine erase_aux_I_err ?_ h2
        intro L hL hw _
        have hL' : (if s.function_points = [] then none
            else itPred s.function_points p) = some L := hL
        have hw' : wasVal s.local_maxima (if s.function_points = [] then none
            else itPred s.function_points p) = false := hw
        rw [hL'] at hw'
        intro hm
        rw [show wasVal s.local_maxima (some L) =
          FunctionMaxima.mxMem s.local_maxima L from rfl] at hw'
        exact absurd (FunctionMaxima.mxMem_iff.mpr hm) (by rw [hw']; simp)
      · intro hfail
        exact absurd hfail (by simp)

/-- With no injected failure (`N = 0`), `set_value` completes with the pure
result, and its event trace decomposes into the phases of the source: the
same-value check and the classification first (comparisons and copies only —
no index mutation), then the two copies building the new `Point`, then the
mutation sequence. -/
theorem set_value_I_phases (s : FunctionMaxima α β) (a : α) (v : β) :
    ∃ t0 t1 t3,
      set_value_I 0 s a v = (FunctionMaxima.set_value s a v, false,
        t0 ++ t1 ++ (if FunctionMaxima.check_whether_the_same s a v
          then [] else [Ev.copy, Ev.copy]) ++ t3) ∧
      ∀ e ∈ t0 ++ t1, e = Ev.cmp ∨ e = Ev.copy := by
  unfold set_value_I
  split
  · rename_i e h0
    obtain ⟨r, hr⟩ := check_same_I_tot0 s a v 0
    rw [hr] at h0
    cases h0
  · rename_i c0 t0 h0
    have hch : FunctionMaxima.check_whether_the_same s a v = true :=
      ((check_same_I_ok h0).1).symm
    refine ⟨t0, [], [], ?_, ?_⟩
    · rw [hch]
      have hsv : FunctionMaxima.set_value s a v = s := by
        unfold FunctionMaxima.set_value
        rw [hch]
        simp
      rw [hsv]
      simp
    · intro e he
      simp only [List.append_nil] at he
      exact Or.inl ((check_same_I_ok h0).2 e he)
  · rename_i c0 t0 h0
    have hch : FunctionMaxima.check_whether_the_same s a v = false :=
      ((check_same_I_ok h0).1).symm
    split
    · rename_i e h1
      obtain ⟨r, hr⟩ := get_info_sv_I_tot0 s a v c0
      rw [hr] at h1
      cases h1
    · rename_i info c1 t1 h1
      have einfo : info = infoSvVal s a v := (get_info_sv_I_ok h1).1
      split
      · rename_i e h2
        rw [createPointI_tot0 a v c1] at h2
        cases h2
      · rename_i np c2 t2 h2
        have e2 := createPointI_ok h2
        have enp : np = ⟨a, v⟩ := congrArg Prod.fst e2
        have et2 : t2 = [Ev.copy, Ev.copy] := congrArg (fun z => z.2.2) e2
        split
        · rename_i sR h3
          obtain ⟨r, hr⟩ := set_value_aux_I_tot0 s info.1 info.2.1
            info.2.2 np c2
          rw [hr] at h3
          cases h3
        · rename_i sR c4 t4 h3
          have esR : sR = FunctionMaxima.set_value_aux s info.1 info.2.1
              info.2.2 np := set_value_aux_I_okv h3
          refine ⟨t0, t1, t4, ?_, ?_⟩
          · rw [hch]
            have hsv : FunctionMaxima.set_value s a v =
                FunctionMaxima.set_value_aux s info.1 info.2.1
                  info.2.2 np := by
              unfold FunctionMaxima.set_value
              rw [hch, einfo, infoSvVal_eq, enp]
              simp
            rw [hsv, esR, et2]
            simp
          · intro e he
            rcases List.mem_append.mp he with he | he
            · exact Or.inl ((check_same_I_ok h0).2 e he)
            · exact (get_info_sv_I_ok h1).2 e he

namespace FunctionMaxima

/-- C2: for every reachable state and every `set_value` or `erase` call, if
some comparison or copy of the caller-supplied types throws (the `N`-th
fallible invocation of the instrumented model, for any `N`), the exception is
propagated (the failure flag is set) and the observable state after the call
equals the state before it: the guards give the strong exception guarantee. -/
theorem C2_rollback {s : FunctionMaxima α β} (h : Reachable s) (a : α) (v : β)
    (N : Nat) :
    ((set_value_I N s a v).2.1 = true → (set_value_I N s a v).1 = s) ∧
    ((erase_I N s a).2.1 = true → (erase_I N s a).1 = s) :=
  ⟨set_value_I_fail (reachable_valid h), erase_I_fail⟩

theorem C2_rollback_witness :
    ((set_value_I 1 sA 2 99).2.1 = true ∧ (set_value_I 1 sA 2 99).1 = sA) ∧
    ((erase_I 1 sA 2).2.1 = true ∧ (erase_I 1 sA 2).1 = sA) :=
  ⟨⟨by decide, (C2_rollback reachable_sA 2 99 1).1 (by decide)⟩,
   ⟨by decide, (C2_rollback reachable_sA 2 99 1).2 (by decide)⟩⟩

/-- The state {(1,10)} built through the public interface. -/
def sD : FunctionMaxima Nat Nat := set_value (mkEmpty Nat Nat) 1 10

/-- The events of the classification phase of `set_value(2, 20)` on `sD`
(counter starts at 1, after the one comparison of the same-value check). -/
def classifyTraceD : List Ev :=
  match get_info_for_set_value_I 0 sD 2 20 1 with
  | .ok r => r.2.2
  | .error _ => []

/-- C9 counterexample: on the state {(1,10)}, the call `set_value(2, 20)`
completes, yet (a) its classification phase performs copy operations (the
probe `Point` built at line 414 for the fresh argument), so classification
does not perform *only* comparisons, and (b) the full event trace contains a
comparison (position 29, inside the `local_maxima` insert) after the first
index mutation (position 28, the `function_points` insert), so not all
comparison work happens before the first mutation. -/
theorem C9_counterexample :
    Ev.copy ∈ classifyTraceD ∧
    (set_value_I 0 sD 2 20).2.1 = false ∧
    (set_value_I 0 sD 2 20).2.2.getD 28 Ev.cmp = Ev.mutFP ∧
    (set_value_I 0 sD 2 20).2.2.getD 29 Ev.mutFP = Ev.cmp := by
  decide

/-- C9 (amended): a completed `set_value` call computes the pure result and
its event trace decomposes into the source's phases — the same-value check
and the classification first, which mutate no index but may copy (the probe
`Point` for a fresh argument) as well as compare, then the two copies that
build the new `Point`, then the mutation sequence (whose `local_maxima`
inserts still perform comparisons after the first index mutation). -/
theorem C9_amended_thm (s : FunctionMaxima α β) (a : α) (v : β) :
    ∃ t0 t1 t3,
      set_value_I 0 s a v = (set_value s a v, false,
        t0 ++ t1 ++ (if check_whether_the_same s a v
          then [] else [Ev.copy, Ev.copy]) ++ t3) ∧
      ∀ e ∈ t0 ++ t1, e = Ev.cmp ∨ e = Ev.copy :=
  set_value_I_phases s a v

end FunctionMaxima
